import Mathlib

/-!
Titan engine core: entity registry, event bus, spatial index, culling, frame timing

A shallow embedding of `TitanEngine/include/Core.hpp` and `TitanEngine/src/Core.cpp`
(class `Entity`, class `EntityManager`, class `EventBus`), of
`TitanEngine/include/Performance.hpp` and `TitanEngine/src/Performance.cpp`
(`AABB`, `Sphere`, `Frustum`, class `SpatialHash`, class `CullingSystem`) and of
the frame clock and the life cycle of `Engine` in `TitanEngine/src/Engine.cpp`, of
`ObjectPool`, of `BombDefusalGamemode` in `TitanEngine/src/Gamemodes.cpp` and of
the map files of `TitanEditor` in `TitanEngine/src/TitanEditor.cpp`, together with
the properties of the registry, of event dispatch, of the spatial queries, of
the frame clock, of the engine life cycle and of the map files.

Modelling conventions
* `uint32_t` values (`EntityID`, `ComponentID`, `EventID`) are natural numbers;
  the one arithmetic operation on them, `nextID++`, is taken modulo `2^32`.
* `std::unordered_map<K, V>` is an association list that the operations keep
  free of duplicate keys: `umFind` is `find`, `umAssign` is `m[k] = v`,
  `umErase` is `erase(k)`.
* `std::shared_ptr<T>` is an `Option`: `none` is the null pointer, `some a` points
  to the object identified by `a`.
* A finite `float` or `double` value is the rational number it stands for, and
  an arithmetic operation delivers its exact result rounded to the type
  (binary32, binary64, round to nearest, ties to even); see the section on
  binary floating point. Infinities and NaN are not values of the model.
* A function whose C++ counterpart has no defined result on some input (a
  conversion out of range, a loop that cannot end, an invalidated iterator), or
  whose computation leaves the finite `float` values, returns an `Option`, with
  `none` on such an input.
-/

namespace Titan

/-! ## Type definitions (Core.hpp, lines 22-25) -/

abbrev EntityID := Nat
abbrev ComponentID := Nat
abbrev EventID := Nat

/-- The reserved id: `invalid_entity::value`. -/
def invalid_entity : EntityID := 0

/-! ## std::unordered_map -/

/-- Lookup, `m.find(k)`: the value stored under `k`, or `none` for `m.end()`. -/
def umFind {ν : Type} : List (Nat × ν) → Nat → Option ν
  | [], _ => none
  | (k', v) :: rest, k => if k' = k then some v else umFind rest k

/-- Assignment through `operator[]`, `m[k] = v`: replaces the value of an
existing key, inserts the pair otherwise. -/
def umAssign {ν : Type} : List (Nat × ν) → Nat → ν → List (Nat × ν)
  | [], k, v => [(k, v)]
  | (k', v') :: rest, k, v =>
    if k' = k then (k, v) :: rest else (k', v') :: umAssign rest k v

/-- Removal, `m.erase(k)`: drops the pair stored under `k`, if any. -/
def umErase {ν : Type} (m : List (Nat × ν)) (k : Nat) : List (Nat × ν) :=
  m.filter (fun p => decide (p.1 ≠ k))

/-- The keys of a map, in storage order. -/
def umKeys {ν : Type} (m : List (Nat × ν)) : List Nat := m.map Prod.fst

/-! ## Components (Core.hpp, Weapons.hpp, Effects.hpp) -/

/-- The classes of the repository that derive from `Component`. -/
inductive ComponentType where
  | Transform
  | RigidBody
  | Renderable
  | AudioSource
  | WeaponComponent
  | InventoryComponent
  | PlayerController
  | ParticleEmitter
  | LightComponent
  deriving DecidableEq, Repr

/-- The tag `T::StaticID()` of each component class. -/
def StaticID : ComponentType → ComponentID
  | .Transform => 1
  | .RigidBody => 2
  | .Renderable => 3
  | .AudioSource => 4
  | .WeaponComponent => 50
  | .InventoryComponent => 51
  | .PlayerController => 52
  | .ParticleEmitter => 53
  | .LightComponent => 54

/-- A `std::shared_ptr<Component>`: null, or a pointer to one component object. -/
abbrev ComponentPtr := Option Nat

/-! ## Entity (Core.hpp, lines 141-187) -/

structure Entity where
  id : EntityID
  name : String
  components : List (ComponentID × ComponentPtr)
  active : Bool
  deriving DecidableEq, Repr

/-- Constructor `Entity(entityID, entityName)`: no components, `active{true}`. -/
def Entity.new (entityID : EntityID) (entityName : String) : Entity :=
  { id := entityID, name := entityName, components := [], active := true }

def Entity.GetID (e : Entity) : EntityID := e.id

def Entity.GetName (e : Entity) : String := e.name

def Entity.IsActive (e : Entity) : Bool := e.active

/-- Template `AddComponent<T>`: `components[T::StaticID()] = component`. -/
def Entity.AddComponent (e : Entity) (T : ComponentType) (component : ComponentPtr) : Entity :=
  { e with components := umAssign e.components (StaticID T) component }

/-- Template `GetComponent<T>`: the stored pointer, or `nullptr` when the tag is absent. -/
def Entity.GetComponent (e : Entity) (T : ComponentType) : ComponentPtr :=
  match umFind e.components (StaticID T) with
  | some p => p
  | none => none

/-- Template `HasComponent<T>`: `components.find(T::StaticID()) != components.end()`. -/
def Entity.HasComponent (e : Entity) (T : ComponentType) : Bool :=
  (umFind e.components (StaticID T)).isSome

/-- Template `RemoveComponent<T>`: `components.erase(T::StaticID())`. -/
def Entity.RemoveComponent (e : Entity) (T : ComponentType) : Entity :=
  { e with components := umErase e.components (StaticID T) }

/-! ## EntityManager (Core.hpp, lines 193-204; Core.cpp, lines 81-99) -/

structure EntityManager where
  entities : List (EntityID × Entity)
  nextID : EntityID
  deriving DecidableEq, Repr

/-- A default-constructed manager: no entities, `nextID{1}`. -/
def EntityManager.fresh : EntityManager := { entities := [], nextID := 1 }

/-- Core.cpp 81-85: stores a new entity under `nextID` and returns `nextID++`
(a `uint32_t` increment). The result is the returned id and the new state. -/
def EntityManager.CreateEntity (em : EntityManager) (name : String) :
    EntityID × EntityManager :=
  (em.nextID,
   { entities := umAssign em.entities em.nextID (Entity.new em.nextID name),
     nextID := (em.nextID + 1) % 4294967296 })

/-- Core.cpp 87-89: `entities.erase(id)`. -/
def EntityManager.DestroyEntity (em : EntityManager) (id : EntityID) : EntityManager :=
  { em with entities := umErase em.entities id }

/-- Core.cpp 91-94: the entity stored under `id`, or `nullptr`. -/
def EntityManager.GetEntity (em : EntityManager) (id : EntityID) : Option Entity :=
  umFind em.entities id

/-- Core.cpp 96-99. -/
def EntityManager.Clear (_em : EntityManager) : EntityManager :=
  { entities := [], nextID := 1 }

/-- One call made by a client of the registry. -/
inductive EMCall where
  | create (name : String)
  | destroy (id : EntityID)
  deriving DecidableEq, Repr

/-- The state after a sequence of calls. -/
def EntityManager.after (em : EntityManager) : List EMCall → EntityManager
  | [] => em
  | .create name :: rest => EntityManager.after (em.CreateEntity name).2 rest
  | .destroy id :: rest => EntityManager.after (em.DestroyEntity id) rest

/-- The ids returned by the `CreateEntity` calls of a sequence, in call order. -/
def EntityManager.returned (em : EntityManager) : List EMCall → List EntityID
  | [] => []
  | .create name :: rest =>
    (em.CreateEntity name).1 :: EntityManager.returned (em.CreateEntity name).2 rest
  | .destroy id :: rest => EntityManager.returned (em.DestroyEntity id) rest

/-- Number of `CreateEntity` calls in a sequence. -/
def createCount : List EMCall → Nat
  | [] => 0
  | .create _ :: rest => createCount rest + 1
  | .destroy _ :: rest => createCount rest

/-- Number of `CreateEntity` calls after which a counter standing at `next`
hands out `id` (both 32-bit values). -/
def callsUntil (next id : EntityID) : Nat := (id + 4294967296 - next) % 4294967296

/-! ## EventBus (Core.hpp, lines 210-218; Core.cpp, lines 105-120)

`subscribers` maps an event type to a `std::vector` of callbacks. `Publish`
walks that vector with a range-based `for`, which fixes `begin()` and `end()`
before the first callback runs and then dereferences and advances those
iterators while the callbacks execute. A callback is arbitrary client code and
may call `Subscribe` on the same bus; `push_back` on a vector whose `size()`
equals its `capacity()` moves the elements to a new storage block, after which
every iterator into the old block is invalid and using one is undefined
behaviour. The model therefore keeps the capacity and the identity of the
storage block of every vector, and `Publish` returns `none` when the walk would
use an iterator into a storage block that is gone. A `push_back` that finds spare
capacity leaves the elements where they are; the loop then runs on, as it does
with the pointer iterators of the common libraries, up to the position its
`end()` marked when it started. -/

/-- An `Event`: its `eventType`, and the data a derived event class adds to it. -/
structure Event where
  eventType : EventID
  payload : Nat
  deriving DecidableEq, Repr

/-- Identity of a `std::function<void(const Event&)>` object passed to `Subscribe`. -/
abbrev CallbackId := Nat

/-- A `std::vector` of callbacks: its elements, its `capacity()`, and its storage
block, numbered by the reallocations the vector has gone through. -/
structure CallbackVec where
  items : List CallbackId
  capacity : Nat
  buffer : Nat
  deriving DecidableEq, Repr

/-- A default-constructed vector. -/
def CallbackVec.empty : CallbackVec := { items := [], capacity := 0, buffer := 0 }

/-- Capacity chosen by a reallocating `push_back` on a vector of `size` elements.
The standard leaves the value to the library; this is the rule of libstdc++
(`size + max(size, 1)`). Only the concrete scenarios below depend on it. -/
def growCapacity (size : Nat) : Nat := size + max size 1

/-- `v.push_back(callback)`: appends in place when there is spare capacity,
otherwise moves to a larger storage block first. -/
def CallbackVec.push_back (v : CallbackVec) (callback : CallbackId) : CallbackVec :=
  if v.items.length < v.capacity then
    { v with items := v.items ++ [callback] }
  else
    { items := v.items ++ [callback],
      capacity := growCapacity v.items.length,
      buffer := v.buffer + 1 }

structure EventBus where
  subscribers : List (EventID × CallbackVec)
  deriving DecidableEq, Repr

/-- A default-constructed bus. -/
def EventBus.fresh : EventBus := { subscribers := [] }

/-- Core.cpp 105-107: `subscribers[eventType].push_back(callback)`; `operator[]`
default-constructs the vector of a type that has none yet. -/
def EventBus.Subscribe (bus : EventBus) (eventType : EventID) (callback : CallbackId) :
    EventBus :=
  { subscribers :=
      umAssign bus.subscribers eventType
        (((umFind bus.subscribers eventType).getD CallbackVec.empty).push_back callback) }

/-- Core.cpp 118-120. -/
def EventBus.Clear (_bus : EventBus) : EventBus := { subscribers := [] }

/-- A sequence of `Subscribe` calls, oldest first. -/
def EventBus.subscribeAll (bus : EventBus) : List (EventID × CallbackId) → EventBus
  | [] => bus
  | (k, callback) :: rest => EventBus.subscribeAll (bus.Subscribe k callback) rest

/-- The callbacks registered for a type, in vector order (empty when the type
has no vector). -/
def EventBus.subscribersOf (bus : EventBus) (k : EventID) : List CallbackId :=
  match umFind bus.subscribers k with
  | some v => v.items
  | none => []

/-- The client code behind the callbacks. `run callback event bus s` is one
invocation `callback(event)` made while the bus is in state `bus` and the
client's own data in state `s`: `none` when the invocation does not return,
otherwise the `Subscribe` calls it made on the bus, oldest first (its own and
those of any `Publish` it nested), and the client's new data. -/
structure Handlers (σ : Type) where
  run : CallbackId → Event → EventBus → σ → Option (List (EventID × CallbackId) × σ)

/-- Outcome of a `Publish` call that returns: the bus and the client data
afterwards, and the invocations `callback(event)` made by the loop of this
call, in order. -/
structure PublishResult (σ : Type) where
  bus : EventBus
  user : σ
  invoked : List (CallbackId × Event)
  deriving DecidableEq, Repr

/-- The vector the loop iterators point into, provided they are still valid:
the vector of type `k` when it still lives in storage block `buffer`. -/
def EventBus.iterable (bus : EventBus) (k : EventID) (buffer : Nat) : Option CallbackVec :=
  match umFind bus.subscribers k with
  | some v => if v.buffer = buffer then some v else none
  | none => none

/-- Core.cpp 112-114, the loop `for (auto& callback : it->second) callback(event);`
with `remaining` elements between the iterator (at position `index`) and the
`end()` taken when the loop started, both pointing into storage block `buffer`. -/
def EventBus.dispatch {σ : Type} (h : Handlers σ) (event : Event) (buffer : Nat) :
    Nat → Nat → EventBus → σ → List (CallbackId × Event) → Option (PublishResult σ)
  | 0, _, bus, s, invoked =>
    match bus.iterable event.eventType buffer with
    | none => none
    | some _ => some { bus := bus, user := s, invoked := invoked }
  | remaining + 1, index, bus, s, invoked =>
    match bus.iterable event.eventType buffer with
    | none => none
    | some v =>
      match v.items[index]? with
      | none => none
      | some callback =>
        match h.run callback event bus s with
        | none => none
        | some (subs, s') =>
          EventBus.dispatch h event buffer remaining (index + 1)
            (bus.subscribeAll subs) s' (invoked ++ [(callback, event)])

/-- Core.cpp 109-116. -/
def EventBus.Publish {σ : Type} (bus : EventBus) (h : Handlers σ) (s : σ) (event : Event) :
    Option (PublishResult σ) :=
  match umFind bus.subscribers event.eventType with
  | none => some { bus := bus, user := s, invoked := [] }
  | some v => EventBus.dispatch h event v.buffer v.items.length 0 bus s []

/-- While an event of type `k` is dispatched, every callback returns and none
subscribes to `k`. -/
def Handlers.Quiet {σ : Type} (h : Handlers σ) (k : EventID) : Prop :=
  ∀ callback event bus s, event.eventType = k →
    ∃ subs s', h.run callback event bus s = some (subs, s') ∧ ∀ p ∈ subs, p.1 ≠ k

/-- Callbacks that never touch the bus. -/
def Handlers.passive : Handlers Unit := { run := fun _ _ _ s => some ([], s) }

/-- Callbacks of which number 7 subscribes callback 9 to the type of the event
it receives, and the others never touch the bus. -/
def Handlers.resubscribing : Handlers Unit :=
  { run := fun callback event _ s =>
      if callback = 7 then some ([(event.eventType, 9)], s) else some ([], s) }

/-- What the loop of `Publish` has to do to the bus and to the client's data:
the callbacks of the list are invoked one after the other, each on the state its
predecessor left; `none` when one of them does not return. -/
def Handlers.runAll {σ : Type} (h : Handlers σ) (event : Event) :
    List CallbackId → EventBus → σ → Option (EventBus × σ)
  | [], bus, s => some (bus, s)
  | callback :: rest, bus, s =>
    match h.run callback event bus s with
    | none => none
    | some (subs, s') => Handlers.runAll h event rest (bus.subscribeAll subs) s'

/-- The callbacks of the test `EventBus_Subscribe` (Tests.cpp 51-63): callback `f`
is `[&callCount](const Event&) { callCount++; }`, the client's data is the `int`
`callCount`, whose increment is undefined at `INT_MAX`, and every other callback
leaves it alone. -/
def Handlers.counting (f : CallbackId) : Handlers Int :=
  { run := fun callback _ _ callCount =>
      if callback = f then
        if callCount = 2147483647 then none else some ([], callCount + 1)
      else some ([], callCount) }

/-- Callbacks that append their identity and the event they receive to a log
kept by the client. -/
def Handlers.recording : Handlers (List (CallbackId × Event)) :=
  { run := fun callback event _ log => some ([], log ++ [(callback, event)]) }

/-! ## Binary floating point

`float` is IEEE 754 binary32 and `double` is binary64. A finite value of either
type is the rational number it stands for (the two zeros are one value). Every
arithmetic operation delivers its exact result rounded to the nearest value of
the type, ties going to the value with the even significand, with gradual
underflow; each operation of an expression is rounded on its own (no fused
multiply-add, no extended intermediate precision). A `float` operation whose
rounded result is not below `2 ^ 128` in magnitude delivers an infinity, and a
division by zero an infinity or a NaN: the functions below return `none` for
these, and the model follows a computation no further once it has left the
finite values. -/

/-- The number of halvings that take `n` below 2, with `fuel` bounding their
number. -/
def log2Fuel : Nat → Nat → Nat
  | 0, _ => 0
  | fuel + 1, n => if n < 2 then 0 else log2Fuel fuel (n / 2) + 1

/-- The position of the leading bit of `n`, for `n > 0`. -/
def natLog2 (n : Nat) : Nat := log2Fuel n n

/-- The power `2 ^ e`. -/
def pow2 (e : Int) : ℚ :=
  if 0 ≤ e then ((2 ^ e.toNat : Nat) : ℚ) else 1 / ((2 ^ (-e).toNat : Nat) : ℚ)

/-- The exponent `e` with `2 ^ e ≤ |q| < 2 ^ (e + 1)`, for `q ≠ 0`. -/
def binade (q : ℚ) : Int :=
  if pow2 ((natLog2 q.num.natAbs : Int) - (natLog2 q.den : Int)) ≤ |q| then
    (natLog2 q.num.natAbs : Int) - (natLog2 q.den : Int)
  else (natLog2 q.num.natAbs : Int) - (natLog2 q.den : Int) - 1

/-- The integer nearest to `q`, the even one of the two when `q` lies halfway. -/
def roundHalfEven (q : ℚ) : Int :=
  if q - ⌊q⌋ < 1 / 2 then ⌊q⌋
  else if q - ⌊q⌋ > 1 / 2 then ⌊q⌋ + 1
  else if ⌊q⌋ % 2 = 0 then ⌊q⌋ else ⌊q⌋ + 1

/-- The unit in the last place of the binary format with `p` significant bits
and least exponent `emin`, at `q`. -/
def ulp (p : Nat) (emin : Int) (q : ℚ) : ℚ := pow2 (max (binade q) emin - ((p : Int) - 1))

/-- Rounding to nearest, ties to even, in the binary format with `p` significant
bits and least exponent `emin` (with gradual underflow), exponents unbounded
above. -/
def roundBin (p : Nat) (emin : Int) (q : ℚ) : ℚ :=
  if q = 0 then 0 else roundHalfEven (q / ulp p emin q) * ulp p emin q

/-- Rounding to `float` (binary32). -/
def round32 (q : ℚ) : ℚ := roundBin 24 (-126) q

/-- Rounding to `double` (binary64). -/
def round64 (q : ℚ) : ℚ := roundBin 53 (-1022) q

/-- The finite values of `float`: the rationals below `2 ^ 128` in magnitude
that rounding to binary32 leaves as they are. -/
def IsF32 (q : ℚ) : Prop := round32 q = q ∧ |q| < pow2 128

instance IsF32.decidable (q : ℚ) : Decidable (IsF32 q) := by
  unfold IsF32
  infer_instance

/-- The `float` that an operation with exact result `q` delivers; `none` when
that is not a finite value (the operation overflows). -/
def toF32 (q : ℚ) : Option ℚ := if |round32 q| < pow2 128 then some (round32 q) else none

/-- The `float` sum `a + b`. -/
def F32.add (a b : ℚ) : Option ℚ := toF32 (a + b)

/-- The `float` difference `a - b`. -/
def F32.sub (a b : ℚ) : Option ℚ := toF32 (a - b)

/-- The `float` product `a * b`. -/
def F32.mul (a b : ℚ) : Option ℚ := toF32 (a * b)

/-- The `float` quotient `a / b`; a zero divisor gives an infinity or a NaN. -/
def F32.div (a b : ℚ) : Option ℚ := if b = 0 then none else toF32 (a / b)

/-! ## Geometry (Performance.hpp, lines 14-42; Performance.cpp, lines 13-81)

`glm::vec3` and `glm::vec4` are records of `float` coordinates. The functions
`planeDot` and `distSq` are the exact dot product and the exact squared distance
of the mathematics; the tests of the program compute with `float` operations,
and return `none` when one of them overflows. -/

structure Vec3 where
  x : ℚ
  y : ℚ
  z : ℚ
  deriving DecidableEq, Repr

structure Vec4 where
  x : ℚ
  y : ℚ
  z : ℚ
  w : ℚ
  deriving DecidableEq, Repr

/-- Component access `v[i]`. -/
def Vec3.get (v : Vec3) : Fin 3 → ℚ
  | 0 => v.x
  | 1 => v.y
  | 2 => v.z

/-- The coordinates are finite `float` values, as those of every `glm::vec3`
that holds no infinity and no NaN. -/
def Vec3.IsF32 (v : Vec3) : Prop := Titan.IsF32 v.x ∧ Titan.IsF32 v.y ∧ Titan.IsF32 v.z

instance Vec3.decidableIsF32 (v : Vec3) : Decidable v.IsF32 := by
  unfold Vec3.IsF32
  infer_instance

/-- Magnitude at most `2 ^ 60`: operands this small keep every operation of the
geometry tests finite. -/
def IsSmall (q : ℚ) : Prop := |q| ≤ pow2 60

instance IsSmall.decidable (q : ℚ) : Decidable (IsSmall q) := by
  unfold IsSmall
  infer_instance

def Vec3.Small (v : Vec3) : Prop := IsSmall v.x ∧ IsSmall v.y ∧ IsSmall v.z

instance Vec3.decidableSmall (v : Vec3) : Decidable v.Small := by
  unfold Vec3.Small
  infer_instance

def Vec4.Small (v : Vec4) : Prop := IsSmall v.x ∧ IsSmall v.y ∧ IsSmall v.z ∧ IsSmall v.w

instance Vec4.decidableSmall (v : Vec4) : Decidable v.Small := by
  unfold Vec4.Small
  infer_instance

/-- A whole number of magnitude at most 1024: on operands like this every
operation of the geometry tests is exact. -/
def IsWhole (q : ℚ) : Prop := q.den = 1 ∧ |q.num| ≤ 1024

instance IsWhole.decidable (q : ℚ) : Decidable (IsWhole q) := by
  unfold IsWhole
  infer_instance

def Vec3.Whole (v : Vec3) : Prop := IsWhole v.x ∧ IsWhole v.y ∧ IsWhole v.z

instance Vec3.decidableWhole (v : Vec3) : Decidable v.Whole := by
  unfold Vec3.Whole
  infer_instance

def Vec4.Whole (v : Vec4) : Prop := IsWhole v.x ∧ IsWhole v.y ∧ IsWhole v.z ∧ IsWhole v.w

instance Vec4.decidableWhole (v : Vec4) : Decidable v.Whole := by
  unfold Vec4.Whole
  infer_instance

/-- `glm::dot(a, b)` for two `glm::vec4` (glm, detail/func_geometric.inl): the
four `float` products, then `(x + y) + (z + w)`. -/
def dot4 (a b : Vec4) : Option ℚ :=
  (F32.mul a.x b.x).bind fun x =>
  (F32.mul a.y b.y).bind fun y =>
  (F32.mul a.z b.z).bind fun z =>
  (F32.mul a.w b.w).bind fun w =>
  (F32.add x y).bind fun xy =>
  (F32.add z w).bind fun zw => F32.add xy zw

/-- The value of `glm::dot(plane, glm::vec4(point, 1.0f))`. -/
def planeDotF32 (plane : Vec4) (point : Vec3) : Option ℚ :=
  dot4 plane { x := point.x, y := point.y, z := point.z, w := 1 }

/-- The value of `planeDotF32` when no operation overflows. -/
def planeDot32 (plane : Vec4) (point : Vec3) : ℚ :=
  round32 (round32 (round32 (plane.x * point.x) + round32 (plane.y * point.y)) +
    round32 (round32 (plane.z * point.z) + round32 (plane.w * 1)))

/-- The exact dot product of `plane` and `(point, 1)`. -/
def planeDot (plane : Vec4) (point : Vec3) : ℚ :=
  plane.x * point.x + plane.y * point.y + plane.z * point.z + plane.w * 1

/-- The statement `sqDist += (a - b) * (a - b)` in `float` arithmetic. -/
def addSquare (sqDist a b : ℚ) : Option ℚ :=
  (F32.sub a b).bind fun d => (F32.mul d d).bind fun t => F32.add sqDist t

/-- The value of `(a - b) * (a - b)` in `float` arithmetic when no operation
overflows. -/
def sqDiff32 (a b : ℚ) : ℚ := round32 (round32 (a - b) * round32 (a - b))

/-- The `float` value of the squared distance between two points: the squares of
the three `float` differences, added to 0 one axis after the other, as the loop
of `Sphere::Intersects(const AABB&)` adds them. -/
def distSqF32 (p q : Vec3) : Option ℚ :=
  (addSquare 0 p.x q.x).bind fun d0 =>
  (addSquare d0 p.y q.y).bind fun d1 => addSquare d1 p.z q.z

/-- The value of `distSqF32` when no operation overflows. -/
def distSq32 (p q : Vec3) : ℚ :=
  round32 (round32 (round32 (0 + sqDiff32 p.x q.x) + sqDiff32 p.y q.y) + sqDiff32 p.z q.z)

/-- Exact squared Euclidean distance between two points. -/
def distSq (p q : Vec3) : ℚ :=
  (p.x - q.x) * (p.x - q.x) + (p.y - q.y) * (p.y - q.y) + (p.z - q.z) * (p.z - q.z)

structure AABB where
  min : Vec3
  max : Vec3
  deriving DecidableEq, Repr

structure Sphere where
  center : Vec3
  radius : ℚ
  deriving DecidableEq, Repr

/-- Performance.cpp 19-23. -/
def AABB.Contains (b : AABB) (point : Vec3) : Bool :=
  decide (point.x ≥ b.min.x) && decide (point.x ≤ b.max.x) &&
  decide (point.y ≥ b.min.y) && decide (point.y ≤ b.max.y) &&
  decide (point.z ≥ b.min.z) && decide (point.z ≤ b.max.z)

/-- The eight corners of a box. -/
def AABB.corners (b : AABB) : List Vec3 :=
  [ { x := b.min.x, y := b.min.y, z := b.min.z }, { x := b.max.x, y := b.min.y, z := b.min.z },
    { x := b.min.x, y := b.max.y, z := b.min.z }, { x := b.max.x, y := b.max.y, z := b.min.z },
    { x := b.min.x, y := b.min.y, z := b.max.z }, { x := b.max.x, y := b.min.y, z := b.max.z },
    { x := b.min.x, y := b.max.y, z := b.max.z }, { x := b.max.x, y := b.max.y, z := b.max.z } ]

/-- The box is not inverted: `min <= max` on each axis. -/
def AABB.Valid (b : AABB) : Prop :=
  b.min.x ≤ b.max.x ∧ b.min.y ≤ b.max.y ∧ b.min.z ≤ b.max.z

instance AABB.decidableValid (b : AABB) : Decidable b.Valid := by
  unfold AABB.Valid
  infer_instance

/-- Performance.cpp 33-35, one iteration of the loop of
`Sphere::Intersects(const AABB&)`: the new value of `sqDist`, for the coordinate
`v` of the centre and the bounds `lo` and `hi` of the box on the axis. -/
def sqDistStep (sqDist v lo hi : ℚ) : Option ℚ :=
  if v < lo then addSquare sqDist lo v
  else if v > hi then addSquare sqDist v hi
  else some sqDist

/-- The value of `sqDistStep` when no operation overflows. -/
def sqDistStep32 (sqDist v lo hi : ℚ) : ℚ :=
  if v < lo then round32 (sqDist + sqDiff32 lo v)
  else if v > hi then round32 (sqDist + sqDiff32 v hi)
  else sqDist

/-- Performance.cpp 29-39, `Sphere::Intersects(const AABB&)`: the loop over the
three axes accumulates `sqDist`, which is then compared with `radius * radius`. -/
def Sphere.IntersectsAABB (s : Sphere) (aabb : AABB) : Option Bool :=
  (sqDistStep 0 (s.center.get 0) (aabb.min.get 0) (aabb.max.get 0)).bind fun d0 =>
  (sqDistStep d0 (s.center.get 1) (aabb.min.get 1) (aabb.max.get 1)).bind fun d1 =>
  (sqDistStep d1 (s.center.get 2) (aabb.min.get 2) (aabb.max.get 2)).bind fun d2 =>
  (F32.mul s.radius s.radius).bind fun r2 => some (decide (d2 ≤ r2))

/-- The exact squared distance from a coordinate to an interval. -/
def gapSq (v lo hi : ℚ) : ℚ :=
  if v < lo then (lo - v) * (lo - v) else if v > hi then (v - hi) * (v - hi) else 0

/-- The point of a box nearest to a point: each coordinate clamped to the box. -/
def AABB.clamp (b : AABB) (p : Vec3) : Vec3 :=
  { x := if p.x < b.min.x then b.min.x else if p.x > b.max.x then b.max.x else p.x,
    y := if p.y < b.min.y then b.min.y else if p.y > b.max.y then b.max.y else p.y,
    z := if p.z < b.min.z then b.min.z else if p.z > b.max.z then b.max.z else p.z }

/-- Six planes: `glm::vec4 planes[6]`. -/
structure Frustum where
  planes : Fin 6 → Vec4

/-- The loop of the two `Frustum::Contains` functions over the planes of the
list: `false` at the first plane whose dot product with the vertex chosen for it
is negative, `true` when the list is exhausted. -/
def Frustum.containsLoop (f : Frustum) (vertex : Vec4 → Vec3) : List (Fin 6) → Option Bool
  | [] => some true
  | i :: rest =>
    (planeDotF32 (f.planes i) (vertex (f.planes i))).bind fun d =>
      if d < 0 then some false else Frustum.containsLoop f vertex rest

/-- Performance.cpp 50-57, `Frustum::Contains(const glm::vec3&)`: false as soon as
one plane has the point on its negative side. -/
def Frustum.ContainsPoint (f : Frustum) (point : Vec3) : Option Bool :=
  f.containsLoop (fun _ => point) (List.finRange 6)

/-- The corner picked for a plane in lines 71-74 of `Frustum::Contains(const AABB&)`. -/
def positiveVertex (plane : Vec4) (aabb : AABB) : Vec3 :=
  { x := if plane.x ≥ 0 then aabb.max.x else aabb.min.x,
    y := if plane.y ≥ 0 then aabb.max.y else aabb.min.y,
    z := if plane.z ≥ 0 then aabb.max.z else aabb.min.z }

/-- Performance.cpp 69-81, `Frustum::Contains(const AABB&)`. -/
def Frustum.ContainsAABB (f : Frustum) (aabb : AABB) : Option Bool :=
  f.containsLoop (fun plane => positiveVertex plane aabb) (List.finRange 6)

/-! ## SpatialHash (Performance.hpp, lines 48-71; Performance.cpp, lines 87-182)

`int32_t` arithmetic wraps modulo `2^32`. The conversion
`static_cast<int32_t>(f)` truncates toward zero and has no defined result when
`f` is not finite or the truncated value does not fit in `int32_t`; a function
that performs such a conversion, or whose loop cannot end, returns `none`. -/

/-- Truncation toward zero. -/
def truncate (q : ℚ) : Int := if 0 ≤ q then ⌊q⌋ else ⌈q⌉

/-- The conversion `static_cast<int32_t>(q)`. -/
def toInt32 (q : ℚ) : Option Int :=
  if -2147483648 ≤ truncate q ∧ truncate q ≤ 2147483647 then some (truncate q) else none

/-- The 32 bits of an integer in two's complement, as an unsigned value. -/
def wrap32 (i : Int) : Nat := (i % 4294967296).toNat

/-- The bucket key of a cell, Performance.cpp 93 (and 139, 166):
`(x * 73856093) ^ (y * 19349663) ^ (z * 83492791)` converted to `uint32_t`. -/
def hashCell (cell : Int × Int × Int) : Nat :=
  wrap32 (cell.1 * 73856093) ^^^ wrap32 (cell.2.1 * 19349663) ^^^ wrap32 (cell.2.2 * 83492791)

structure GridCell where
  entities : List EntityID
  deriving DecidableEq, Repr

structure SpatialHash where
  cellSize : ℚ
  grid : List (Nat × GridCell)
  deriving DecidableEq, Repr

/-- Constructor `SpatialHash(size)`: an empty grid. -/
def SpatialHash.new (size : ℚ) : SpatialHash := { cellSize := size, grid := [] }

/-- The per-axis cell index `static_cast<int32_t>(v / cellSize)`: the `float`
quotient, converted. A quotient that is not finite (a zero `cellSize`, an
overflow) is nothing the conversion can take. -/
def SpatialHash.cellIndex (sh : SpatialHash) (v : ℚ) : Option Int :=
  match F32.div v sh.cellSize with
  | none => none
  | some q => toInt32 q

/-- The cell of a position: lines 88-90 of `GetCellKey`. -/
def SpatialHash.cellOf (sh : SpatialHash) (position : Vec3) : Option (Int × Int × Int) :=
  match sh.cellIndex position.x with
  | none => none
  | some x =>
    match sh.cellIndex position.y with
    | none => none
    | some y =>
      match sh.cellIndex position.z with
      | none => none
      | some z => some (x, y, z)

/-- Performance.cpp 87-94. -/
def SpatialHash.GetCellKey (sh : SpatialHash) (position : Vec3) : Option Nat :=
  match sh.cellOf position with
  | none => none
  | some cell => some (hashCell cell)

/-- The ids in the bucket of a key (none when the grid has no such bucket). -/
def SpatialHash.bucket (sh : SpatialHash) (key : Nat) : List EntityID :=
  match umFind sh.grid key with
  | some cell => cell.entities
  | none => []

/-- The statement `grid[key].entities.push_back(id)`. -/
def SpatialHash.pushTo (sh : SpatialHash) (key : Nat) (id : EntityID) : SpatialHash :=
  { sh with grid := umAssign sh.grid key { entities := sh.bucket key ++ [id] } }

/-- The statements `auto& cell = grid[key]; it = std::find(...); if (it != end) erase(it);`:
the first occurrence of `id` leaves the bucket, which `operator[]` creates when
it is missing. -/
def SpatialHash.eraseFrom (sh : SpatialHash) (key : Nat) (id : EntityID) : SpatialHash :=
  { sh with grid := umAssign sh.grid key { entities := (sh.bucket key).erase id } }

/-- Performance.cpp 96-99. -/
def SpatialHash.Insert (sh : SpatialHash) (id : EntityID) (position : Vec3) :
    Option SpatialHash :=
  match sh.GetCellKey position with
  | none => none
  | some key => some (sh.pushTo key id)

/-- Performance.cpp 101-114. -/
def SpatialHash.Update (sh : SpatialHash) (id : EntityID) (oldPos newPos : Vec3) :
    Option SpatialHash :=
  match sh.GetCellKey oldPos with
  | none => none
  | some oldKey =>
    match sh.GetCellKey newPos with
    | none => none
    | some newKey =>
      if oldKey ≠ newKey then some ((sh.eraseFrom oldKey id).pushTo newKey id) else some sh

/-- Performance.cpp 116-123. -/
def SpatialHash.Remove (sh : SpatialHash) (id : EntityID) (position : Vec3) :
    Option SpatialHash :=
  match sh.GetCellKey position with
  | none => none
  | some key => some (sh.eraseFrom key id)

/-- The values a loop `for (int32_t i = lo; i <= hi; ++i)` takes. With
`hi = INT32_MAX` the condition never fails and the loop does not end. -/
def int32Loop (lo hi : Int) : Option (List Int) :=
  if hi < lo then some []
  else if hi = 2147483647 then none
  else some ((List.range (hi - lo + 1).toNat).map (fun (n : Nat) => lo + Int.ofNat n))

/-- The body of the innermost loop, lines 139-145: the ids of the bucket of the
cell, when the grid has one. -/
def SpatialHash.cellEntities (sh : SpatialHash) (cell : Int × Int × Int) : List EntityID :=
  match umFind sh.grid (hashCell cell) with
  | some c => c.entities
  | none => []

/-- The three nested loops of lines 136-148 (and 163-175). -/
def SpatialHash.visit (sh : SpatialHash) (lo hi : Int × Int × Int) : Option (List EntityID) :=
  match int32Loop lo.1 hi.1 with
  | none => none
  | some xs =>
    if xs = [] then some []
    else
      match int32Loop lo.2.1 hi.2.1 with
      | none => none
      | some ys =>
        if ys = [] then some []
        else
          match int32Loop lo.2.2 hi.2.2 with
          | none => none
          | some zs =>
            some (xs.flatMap (fun x => ys.flatMap (fun y => zs.flatMap (fun z =>
              sh.cellEntities (x, y, z)))))

/-- The `float` values `center.x - radius`, `center.y - radius` and
`center.z - radius` of lines 129, 131 and 133. -/
def sphereMin (center : Vec3) (radius : ℚ) : Option Vec3 :=
  match F32.sub center.x radius with
  | none => none
  | some x =>
    match F32.sub center.y radius with
    | none => none
    | some y =>
      match F32.sub center.z radius with
      | none => none
      | some z => some { x := x, y := y, z := z }

/-- The `float` values `center.x + radius`, `center.y + radius` and
`center.z + radius` of lines 130, 132 and 134. -/
def sphereMax (center : Vec3) (radius : ℚ) : Option Vec3 :=
  match F32.add center.x radius with
  | none => none
  | some x =>
    match F32.add center.y radius with
    | none => none
    | some y =>
      match F32.add center.z radius with
      | none => none
      | some z => some { x := x, y := y, z := z }

/-- Performance.cpp 125-151. -/
def SpatialHash.QuerySphere (sh : SpatialHash) (center : Vec3) (radius : ℚ) :
    Option (List EntityID) :=
  match sphereMin center radius with
  | none => none
  | some lower =>
    match sphereMax center radius with
    | none => none
    | some upper =>
      match sh.cellOf lower with
      | none => none
      | some lo =>
        match sh.cellOf upper with
        | none => none
        | some hi => sh.visit lo hi

/-- Performance.cpp 153-178. -/
def SpatialHash.QueryAABB (sh : SpatialHash) (aabb : AABB) : Option (List EntityID) :=
  match sh.cellOf aabb.min with
  | none => none
  | some lo =>
    match sh.cellOf aabb.max with
    | none => none
    | some hi => sh.visit lo hi

/-- Performance.cpp 180-182. -/
def SpatialHash.Clear (sh : SpatialHash) : SpatialHash := { sh with grid := [] }

/-- A sequence of `Insert` calls, oldest first. -/
def SpatialHash.insertAll (sh : SpatialHash) : List (EntityID × Vec3) → Option SpatialHash
  | [] => some sh
  | (id, position) :: rest =>
    match sh.Insert id position with
    | none => none
    | some sh' => SpatialHash.insertAll sh' rest

/-- Total number of occurrences of an id over all buckets. -/
def SpatialHash.occurrences (sh : SpatialHash) (id : EntityID) : Nat :=
  (sh.grid.map (fun p => p.2.entities.count id)).sum

/-- Number of buckets that hold an id. -/
def SpatialHash.bucketsHolding (sh : SpatialHash) (id : EntityID) : Nat :=
  (sh.grid.filter (fun p => decide (id ∈ p.2.entities))).length

/-- The conversion of `v / cellSize` is defined and lets a loop that runs up to
it end. -/
def SpatialHash.InRange (sh : SpatialHash) (v : ℚ) : Prop :=
  ∃ q, F32.div v sh.cellSize = some q ∧ -2147483648 ≤ truncate q ∧ truncate q < 2147483647

/-! ## CullingSystem (Performance.hpp, lines 77-94; Performance.cpp, lines 188-216)

A `std::unordered_set` is a list without repetitions. -/

/-- The statement `s.insert(id)`. -/
def usInsert (s : List EntityID) (id : EntityID) : List EntityID :=
  if id ∈ s then s else s ++ [id]

/-- The statement `s.erase(id)`. -/
def usErase (s : List EntityID) (id : EntityID) : List EntityID :=
  s.filter (fun j => decide (j ≠ id))

/-- A `glm::mat4`. -/
abbrev Mat4 := Fin 4 → Fin 4 → ℚ

structure CullingSystem where
  viewFrustum : Frustum
  visibleEntities : List EntityID
  allEntities : List EntityID

/-- The system as `Engine::Initialize` creates it, `std::make_unique<CullingSystem>()`:
value-initialised, so the planes are zero and the sets empty. -/
def CullingSystem.fresh : CullingSystem :=
  { viewFrustum := { planes := fun _ => { x := 0, y := 0, z := 0, w := 0 } },
    visibleEntities := [], allEntities := [] }

/-- Performance.cpp 200-203: the body holds two comments and no statement. -/
def CullingSystem.UpdateViewFrustum (cs : CullingSystem) (_viewProj : Mat4) : CullingSystem :=
  cs

/-- Performance.cpp 205-207. -/
def CullingSystem.RegisterEntity (cs : CullingSystem) (id : EntityID) : CullingSystem :=
  { cs with allEntities := usInsert cs.allEntities id }

/-- Performance.cpp 209-212. -/
def CullingSystem.UnregisterEntity (cs : CullingSystem) (id : EntityID) : CullingSystem :=
  { cs with allEntities := usErase cs.allEntities id,
            visibleEntities := usErase cs.visibleEntities id }

/-- Performance.hpp 92. -/
def CullingSystem.GetVisibleEntities (cs : CullingSystem) : List EntityID :=
  cs.visibleEntities

/-- Performance.cpp 214-216. -/
def CullingSystem.IsEntityVisible (cs : CullingSystem) (id : EntityID) : Bool :=
  decide (id ∈ cs.visibleEntities)

/-! ## Frame timing (Engine.hpp, lines 34-35 and 57; Engine.cpp, lines 148-158) -/

/-- The timing members of `Engine`. -/
structure FrameClock where
  deltaTime : ℚ
  elapsedTime : ℚ
  lastFrameTime : ℚ
  deriving DecidableEq, Repr

/-- The literal `0.033f`, the `float` nearest to 33/1000. -/
def deltaCap : ℚ := round32 (33 / 1000)

/-- The value `static_cast<float>(currentTime - lastFrameTime)` of line 150: the
`double` difference, converted to `float`. -/
def rawDelta (currentTime lastFrameTime : ℚ) : ℚ :=
  round32 (round64 (currentTime - lastFrameTime))

/-- Engine.cpp 148-158, with the reading of the clock, the `double` `currentTime`
of line 149, as the argument. `deltaTime` and `elapsedTime` are `float` members
and `lastFrameTime` is a `double`; the sum of line 151 is a `float` addition. A
reading of the clock is a number of seconds made of a 64-bit count of
nanoseconds, below `2 ^ 34` in magnitude, and no operation of the function
overflows on such readings and an `elapsedTime` below `2 ^ 127`: overflow is not
modelled here. -/
def CalculateDeltaTime (c : FrameClock) (currentTime : ℚ) : FrameClock :=
  let deltaTime := rawDelta currentTime c.lastFrameTime
  let elapsedTime := round32 (c.elapsedTime + deltaTime)
  let lastFrameTime := currentTime
  if deltaTime > deltaCap then
    { deltaTime := deltaCap, elapsedTime := elapsedTime, lastFrameTime := lastFrameTime }
  else
    { deltaTime := deltaTime, elapsedTime := elapsedTime, lastFrameTime := lastFrameTime }

/-! ## Call sequences on the culling system (Performance.cpp, lines 188-216) -/

/-- Performance.cpp 188-190: prints a line. -/
def CullingSystem.Initialize (cs : CullingSystem) : CullingSystem := cs

/-- Performance.cpp 192-194: the body holds a comment and no statement. -/
def CullingSystem.Update (cs : CullingSystem) (_deltaTime : ℚ) : CullingSystem := cs

/-- Performance.cpp 196-198: prints a line. -/
def CullingSystem.Shutdown (cs : CullingSystem) : CullingSystem := cs

/-- One call made by a client of the culling system. -/
inductive CullingCall where
  | Initialize
  | Update (deltaTime : ℚ)
  | Shutdown
  | UpdateViewFrustum (viewProj : Mat4)
  | RegisterEntity (id : EntityID)
  | UnregisterEntity (id : EntityID)

/-- The state after a sequence of calls. -/
def CullingSystem.after (cs : CullingSystem) : List CullingCall → CullingSystem
  | [] => cs
  | .Initialize :: rest => CullingSystem.after cs.Initialize rest
  | .Update dt :: rest => CullingSystem.after (cs.Update dt) rest
  | .Shutdown :: rest => CullingSystem.after cs.Shutdown rest
  | .UpdateViewFrustum m :: rest => CullingSystem.after (cs.UpdateViewFrustum m) rest
  | .RegisterEntity id :: rest => CullingSystem.after (cs.RegisterEntity id) rest
  | .UnregisterEntity id :: rest => CullingSystem.after (cs.UnregisterEntity id) rest

/-- The state that a sequence of calls leaves in a system constructed with the
given planes (all zero in the system the engine creates) and, as for every
newly constructed system, empty sets. -/
def CullingSystem.reached (planes : Fin 6 → Vec4) (calls : List CullingCall) : CullingSystem :=
  ({ viewFrustum := { planes := planes }, visibleEntities := [], allEntities := [] } :
    CullingSystem).after calls

/-! ## ObjectPool (Performance.hpp, lines 100-138)

A pointer into `pool` is the index of its slot; a pointer elsewhere is an index
that is not below `pool.size()`. Objects are natural numbers. -/

structure ObjectPool where
  pool : List Nat
  active : List Bool
  nextAvailable : Nat
  deriving DecidableEq, Repr

/-- Constructor `ObjectPool(initialSize)`. -/
def ObjectPool.new (initialSize : Nat) : ObjectPool :=
  { pool := List.replicate initialSize 0, active := List.replicate initialSize false,
    nextAvailable := 0 }

/-- Performance.hpp 110-118: the returned pointer (`none` for `nullptr`) and the
new state; `value` is the object `T(args...)`. -/
def ObjectPool.Acquire (p : ObjectPool) (value : Nat) : Option Nat × ObjectPool :=
  if p.nextAvailable < p.pool.length then
    (some p.nextAvailable,
     { pool := p.pool.set p.nextAvailable value,
       active := p.active.set p.nextAvailable true,
       nextAvailable := p.nextAvailable + 1 })
  else (none, p)

/-- Performance.hpp 120-128. -/
def ObjectPool.Release (p : ObjectPool) (obj : Nat) : ObjectPool :=
  if obj < p.pool.length then
    { p with active := p.active.set obj false,
             nextAvailable := if obj < p.nextAvailable then obj else p.nextAvailable }
  else p

/-- Performance.hpp 135-137. -/
def ObjectPool.GetActiveCount (p : ObjectPool) : Nat := p.active.count true

/-! ## BombDefusalGamemode (Gamemodes.hpp, lines 25-31 and 129-172; Gamemodes.cpp, lines 157-254) -/

structure Team where
  id : Nat
  name : String
  score : Int
  deriving DecidableEq, Repr

/-- The statement `teams[i].score++`. -/
def scoreUp : List Team → Nat → List Team
  | [], _ => []
  | t :: rest, 0 => { t with score := t.score + 1 } :: rest
  | t :: rest, i + 1 => t :: scoreUp rest i

/-- Sum of the scores of all teams. -/
def totalScore (teams : List Team) : Int := (teams.map (fun t => t.score)).sum

structure BombDefusalGamemode where
  roundActive : Bool
  roundTime : ℚ
  maxRoundTime : ℚ
  teams : List Team
  bombPlanted : Bool
  bombPlantTime : ℚ
  bombDetonationTime : ℚ
  deriving DecidableEq, Repr

/-- Gamemodes.cpp 157-174 with the member initialisers of Gamemodes.hpp 131-141. -/
def BombDefusalGamemode.new : BombDefusalGamemode :=
  { roundActive := false, roundTime := 0, maxRoundTime := 135,
    teams := [{ id := 0, name := "Terrorists", score := 0 },
              { id := 1, name := "Counter-Terrorists", score := 0 }],
    bombPlanted := false, bombPlantTime := 0, bombDetonationTime := 40 }

/-- Gamemodes.cpp 207-213. -/
def BombDefusalGamemode.StartRound (g : BombDefusalGamemode) : BombDefusalGamemode :=
  { g with roundActive := true, roundTime := 0, bombPlanted := false, bombPlantTime := 0 }

/-- Gamemodes.cpp 215-219. -/
def BombDefusalGamemode.EndRound (g : BombDefusalGamemode) : BombDefusalGamemode :=
  { g with roundActive := false, bombPlanted := false }

/-- Gamemodes.cpp 238-244. -/
def BombDefusalGamemode.PlantBomb (g : BombDefusalGamemode) (_playerID : Nat) :
    BombDefusalGamemode :=
  if !g.bombPlanted && g.roundActive then { g with bombPlanted := true, bombPlantTime := 0 }
  else g

/-- Gamemodes.cpp 246-254. -/
def BombDefusalGamemode.DefuseBomb (g : BombDefusalGamemode) (_playerID : Nat) :
    BombDefusalGamemode :=
  if g.bombPlanted && g.roundActive then
    ({ g with bombPlanted := false, bombPlantTime := 0, teams := scoreUp g.teams 1 }).EndRound
  else g

/-- Gamemodes.cpp 180-201; the two sums are `float` additions (overflow is not
modelled). -/
def BombDefusalGamemode.Update (g : BombDefusalGamemode) (deltaTime : ℚ) :
    BombDefusalGamemode :=
  if !g.roundActive then g
  else
    let g1 := { g with roundTime := round32 (g.roundTime + deltaTime) }
    let g2 :=
      if g1.bombPlanted then
        let g1a := { g1 with bombPlantTime := round32 (g1.bombPlantTime + deltaTime) }
        if g1a.bombPlantTime ≥ g1a.bombDetonationTime then
          ({ g1a with teams := scoreUp g1a.teams 0 }).EndRound
        else g1a
      else g1
    if g2.roundTime ≥ g2.maxRoundTime then
      ({ g2 with teams := scoreUp g2.teams 1 }).EndRound
    else g2

/-! ## Engine (Engine.hpp, lines 30-102; Engine.cpp, lines 37-204 and 293-305)

The window and the subsystems are external collaborators. The model records the
calls the engine makes on them, oldest first, and takes from the environment
what they answer: whether the window is created, how the scripting system's
`Initialize` ends, the readings of the clock, whether the window is open and
whether `Stop()` is called during a frame. -/

/-- Core.hpp 224-231. -/
structure EngineConfig where
  appName : String
  windowWidth : Nat
  windowHeight : Nat
  targetFPS : Nat
  vsync : Bool
  headless : Bool
  deriving DecidableEq, Repr

/-- The members of `Engine` that have `Initialize` and `Shutdown`. -/
inductive Subsystem where
  | renderer
  | inputSystem
  | scriptingSystem
  | physicsSystem
  | audioSystem
  | networkManager
  | gamemode
  | cullingSystem
  | performanceMonitor
  deriving DecidableEq, Repr

/-- A call of the engine on a collaborator. -/
inductive EngineCall where
  | windowCreate
  | windowSetVSync
  | windowUpdate
  | windowDestroy
  | renderFrame
  | Initialize (s : Subsystem)
  | Update (s : Subsystem) (dt : ℚ)
  | Shutdown (s : Subsystem)
  deriving DecidableEq, Repr

/-- How `LuaScriptingSystem::Initialize` (Scripting.cpp 13-33) ends: normally
with a Lua state, normally without one (lines 17-20, after the warning), or, for
a scripting system that reports failure that way, with a `std::exception`. -/
inductive ScriptingInit where
  | succeeds
  | noLuaState
  | throws
  deriving DecidableEq, Repr

/-- What the environment answers during `Engine::Initialize`. -/
structure Startup where
  windowCreates : Bool
  scripting : ScriptingInit
  clock : ℚ
  deriving DecidableEq, Repr

/-- What the environment answers during one iteration of the loop of `Run`. -/
structure FrameInput where
  currentTime : ℚ
  windowOpen : Bool
  stopRequested : Bool
  deriving DecidableEq, Repr

structure Engine where
  config : EngineConfig
  running : Bool
  clock : FrameClock
  entityManager : Option EntityManager
  eventBus : Option EventBus
  subsystems : Bool
  systems : List Subsystem
  calls : List EngineCall
  deriving DecidableEq, Repr

/-- A default-constructed engine: null pointers, `running{false}`, zero times. -/
def Engine.new : Engine :=
  { config := { appName := "Titan Engine", windowWidth := 1280, windowHeight := 720,
                targetFPS := 60, vsync := true, headless := false },
    running := false,
    clock := { deltaTime := 0, elapsedTime := 0, lastFrameTime := 0 },
    entityManager := none, eventBus := none, subsystems := false, systems := [], calls := [] }

/-- Engine.hpp 95: `entityManager != nullptr`. -/
def Engine.IsInitialized (e : Engine) : Bool := e.entityManager.isSome

/-- Engine.hpp 69. -/
def Engine.Stop (e : Engine) : Engine := { e with running := false }

/-- Engine.cpp 82-120. A `std::exception` from the scripting system is caught
at lines 95-98, before `systems.push_back(scriptingSystem.get())` is reached. -/
def Engine.InitializeSystems (e : Engine) (scripting : ScriptingInit) : Engine :=
  { e with
    calls := e.calls ++
      (if !e.config.headless then [EngineCall.Initialize .renderer] else []) ++
      [.Initialize .inputSystem, .Initialize .scriptingSystem, .Initialize .physicsSystem,
       .Initialize .audioSystem, .Initialize .networkManager, .Initialize .gamemode,
       .Initialize .cullingSystem, .Initialize .performanceMonitor],
    systems := e.systems ++
      (if scripting = .throws then [] else [Subsystem.scriptingSystem]) ++
      [.inputSystem, .physicsSystem, .audioSystem, .networkManager, .gamemode,
       .cullingSystem] ++
      (if !e.config.headless then [Subsystem.renderer] else []) }

/-- Engine.cpp 37-80: the returned flag and the new state. -/
def Engine.Initialize (e : Engine) (engineConfig : EngineConfig) (env : Startup) :
    Bool × Engine :=
  let e1 : Engine :=
    { e with config := engineConfig, entityManager := some EntityManager.fresh,
             eventBus := some EventBus.fresh, subsystems := true }
  if !engineConfig.headless && !env.windowCreates then
    (false, { e1 with calls := e1.calls ++ [.windowCreate] })
  else
    let e2 : Engine :=
      if !engineConfig.headless then
        { e1 with calls := e1.calls ++ [.windowCreate, .windowSetVSync] }
      else e1
    let e3 := e2.InitializeSystems env.scripting
    (true, { e3 with running := true,
                     clock := { e3.clock with lastFrameTime := env.clock } })

/-- Engine.cpp 160-164. -/
def Engine.UpdateSystems (e : Engine) (dt : ℚ) : Engine :=
  { e with calls := e.calls ++ e.systems.map (fun system => EngineCall.Update system dt) }

/-- Engine.cpp 166-184: the calls on the renderer, taken as one. -/
def Engine.RenderFrame (e : Engine) : Engine :=
  { e with calls := e.calls ++ [.renderFrame] }

/-- Engine.cpp 186-204. Lines 200-201 dereference `entityManager` and `eventBus`,
which are null before `Initialize`. -/
def Engine.Shutdown (e : Engine) : Option Engine :=
  match e.entityManager, e.eventBus with
  | some em, some bus =>
    some { e with
      calls := e.calls ++
        (if e.subsystems then
          [EngineCall.Shutdown .audioSystem, .Shutdown .scriptingSystem,
           .Shutdown .physicsSystem, .Shutdown .inputSystem, .Shutdown .renderer,
           .Shutdown .cullingSystem, .Shutdown .gamemode, .Shutdown .networkManager,
           .Shutdown .performanceMonitor, .windowDestroy]
         else []),
      entityManager := some em.Clear,
      eventBus := some bus.Clear,
      running := false }
  | _, _ => none

/-- Engine.cpp 124-142, one iteration of the loop of `Run`; the sleep of the
frame limiter changes nothing in the engine. -/
def Engine.frame (e : Engine) (f : FrameInput) : Engine :=
  let e1 : Engine := { e with clock := CalculateDeltaTime e.clock f.currentTime }
  let e2 : Engine := if !e1.config.headless then { e1 with calls := e1.calls ++ [.windowUpdate] }
    else e1
  let e3 := e2.UpdateSystems e2.clock.deltaTime
  let e4 := if !e3.config.headless then e3.RenderFrame else e3
  if f.stopRequested then e4.Stop else e4

/-- Engine.cpp 123-143, the loop of `Run` against the frames the environment
provides; `none` when the loop is still running after the last of them. -/
def Engine.runLoop : Engine → List FrameInput → Option Engine
  | e, [] => if e.running then none else some e
  | e, f :: rest =>
    if e.running && (e.config.headless || f.windowOpen) then Engine.runLoop (e.frame f) rest
    else some e

/-- Engine.cpp 122-146. -/
def Engine.Run (e : Engine) (frames : List FrameInput) : Option Engine :=
  match e.runLoop frames with
  | none => none
  | some e' => e'.Shutdown

/-- Engine.cpp 300-305, for a non-null `engine`. -/
def UpdateEngine (e : Engine) (deltaTime : ℚ) : Engine :=
  if !e.IsInitialized then e else e.UpdateSystems deltaTime

/-- Engine.cpp 293-298, for a non-null `engine`. -/
def ShutdownEngine (e : Engine) : Option Engine := e.Shutdown

/-- The subsystems on which a sequence of calls invokes `Initialize`, in order. -/
def initializeOrder : List EngineCall → List Subsystem
  | [] => []
  | .Initialize s :: rest => s :: initializeOrder rest
  | _ :: rest => initializeOrder rest

/-- The subsystems on which a sequence of calls invokes `Shutdown`, in order. -/
def shutdownOrder : List EngineCall → List Subsystem
  | [] => []
  | .Shutdown s :: rest => s :: shutdownOrder rest
  | _ :: rest => shutdownOrder rest

/-- The `Update` invocations of a sequence of calls, in order. -/
def updateCalls : List EngineCall → List (Subsystem × ℚ)
  | [] => []
  | .Update s dt :: rest => (s, dt) :: updateCalls rest
  | _ :: rest => updateCalls rest

/-- Number of `Update` invocations on a subsystem in a sequence of calls. -/
def updateCount (calls : List EngineCall) (s : Subsystem) : Nat :=
  ((updateCalls calls).filter (fun c => decide (c.1 = s))).length

/-- The values `Run` passes to `UpdateSystems`, frame after frame. -/
def frameDeltas : FrameClock → List FrameInput → List ℚ
  | _, [] => []
  | c, f :: rest =>
    (CalculateDeltaTime c f.currentTime).deltaTime ::
      frameDeltas (CalculateDeltaTime c f.currentTime) rest

/-- `Stop()` is called during the last of the frames and during no earlier one. -/
def StopsInLastFrame : List FrameInput → Bool
  | [] => false
  | [f] => f.stopRequested
  | f :: rest => !f.stopRequested && StopsInLastFrame rest

/-! ## TitanEditor map files (TitanEditor.hpp, lines 14-24 and 69-82; TitanEditor.cpp, lines 104-170)

A text file is the list of its characters. The coordinates of the editor's
`Vec3` are finite `float` values, rational numbers as above (negative zero, which
prints as `-0`, is not among them). The streams are those of the C++ library in
the classic locale with their default flags (decimal base, precision 6, `skipws`
on); an extraction that fails stores zero in a number, as it does since C++11,
and the characters taken for a number that is then rejected are those libstdc++
takes. The library leaves open in which order a range-based `for` visits the
elements of a `std::unordered_map`: `SaveMapText` takes the order as an
argument. -/

/-- The editor's `Vec3`. -/
structure EditorVec3 where
  x : ℚ
  y : ℚ
  z : ℚ
  deriving DecidableEq, Repr

/-- TitanEditor.hpp 16-24, with the default member initialisers. -/
structure EditorEntity where
  id : Nat
  name : String
  position : EditorVec3
  rotation : EditorVec3
  scale : EditorVec3
  meshPath : String
  materialPath : String
  deriving DecidableEq, Repr

/-- A default-constructed `EditorEntity`. -/
def EditorEntity.default : EditorEntity :=
  { id := 0, name := "", position := { x := 0, y := 0, z := 0 },
    rotation := { x := 0, y := 0, z := 0 }, scale := { x := 1, y := 1, z := 1 },
    meshPath := "", materialPath := "" }

/-- The scene data of `TitanEditor`. -/
structure TitanEditor where
  entities : List (Nat × EditorEntity)
  nextEntityID : Nat
  deriving DecidableEq, Repr

/-- A default-constructed editor: no entities, `nextEntityID{1}`. -/
def TitanEditor.new : TitanEditor := { entities := [], nextEntityID := 1 }

/-- TitanEditor.cpp 108-114: the returned id and the new state. -/
def TitanEditor.CreateEntity (ed : TitanEditor) (name : String) : Nat × TitanEditor :=
  let e : EditorEntity :=
    { EditorEntity.default with
      id := ed.nextEntityID,
      name := if name.isEmpty then "Entity" ++ toString ed.nextEntityID else name }
  (e.id, { entities := umAssign ed.entities e.id e,
           nextEntityID := (ed.nextEntityID + 1) % 4294967296 })

/-- TitanEditor.cpp 116-119. -/
def TitanEditor.GetEntity (ed : TitanEditor) (id : Nat) : Option EditorEntity :=
  umFind ed.entities id

/-- The power `10 ^ e`. -/
def pow10 (e : Int) : ℚ :=
  if 0 ≤ e then ((10 ^ e.toNat : Nat) : ℚ) else 1 / ((10 ^ (-e).toNat : Nat) : ℚ)

/-- The decimal exponent `X` with `10 ^ X ≤ a < 10 ^ (X + 1)` of a positive
`float` value `a`: one more than the number of the powers `10 ^ -45`, ...,
`10 ^ 39` that do not exceed `a`, less 46. -/
def decExp (a : ℚ) : Int :=
  (((List.range 85).filter (fun k => decide (pow10 ((k : Int) - 45) ≤ a))).length : Int) - 46

/-- A list of digits without its trailing zeros. -/
def stripZeros (digits : List Char) : List Char :=
  (digits.reverse.dropWhile (fun c => c = '0')).reverse

/-- The characters `operator<<` writes for a `float` under the default flags, the
conversion `%g` of `printf` with precision 6: the value rounded to six
significant decimal digits (a tie to the even digit), in scientific style when
the decimal exponent is below -4 or not below 6 and in fixed style otherwise,
without trailing zeros. -/
def fmtG6 (x : ℚ) : List Char :=
  if x = 0 then ['0']
  else
    let n0 := (roundHalfEven (|x| / pow10 (decExp |x| - 5))).toNat
    let X := if n0 = 1000000 then decExp |x| + 1 else decExp |x|
    let ds := Nat.toDigits 10 (if n0 = 1000000 then 100000 else n0)
    let body :=
      if X < -4 ∨ 6 ≤ X then
        ds.take 1 ++ (if stripZeros (ds.drop 1) = [] then [] else '.' :: stripZeros (ds.drop 1)) ++
          ['e', if X < 0 then '-' else '+'] ++ (if X.natAbs < 10 then ['0'] else []) ++
          Nat.toDigits 10 X.natAbs
      else if 0 ≤ X then
        ds.take (X.toNat + 1) ++
          (if stripZeros (ds.drop (X.toNat + 1)) = [] then []
           else '.' :: stripZeros (ds.drop (X.toNat + 1)))
      else ['0', '.'] ++ List.replicate ((-X).toNat - 1) '0' ++ stripZeros ds
    if x < 0 then '-' :: body else body

/-- The characters written for the three coordinates of a vector, each followed
by a space. -/
def EditorVec3.text (v : EditorVec3) : List Char :=
  fmtG6 v.x ++ [' '] ++ fmtG6 v.y ++ [' '] ++ fmtG6 v.z ++ [' ']

/-- TitanEditor.cpp 142-146: the line written for one entity. -/
def EditorEntity.line (e : EditorEntity) : List Char :=
  Nat.toDigits 10 e.id ++ [' '] ++ e.name.toList ++ [' '] ++ e.position.text ++
    e.rotation.text ++ e.scale.text ++ e.meshPath.toList ++ [' '] ++ e.materialPath.toList ++
    [Char.ofNat 10]

/-- TitanEditor.cpp 137-150, when the file can be opened: the text written when
the loop of line 140 visits the elements of `entities` in the order `walk`. -/
def TitanEditor.SaveMapText (walk : List (Nat × EditorEntity)) : List Char :=
  walk.flatMap (fun p => p.2.line)

/-- An input stream: the characters not yet read, `failbit`, `eofbit`. -/
structure IStream where
  rest : List Char
  fail : Bool
  eof : Bool
  deriving DecidableEq, Repr

/-- The function `isspace` in the classic locale: space, and the characters 9 to
13 (tab, line feed, vertical tab, form feed, carriage return). -/
def isSpace (c : Char) : Bool := c.toNat = 32 || (9 ≤ c.toNat && c.toNat ≤ 13)

/-- The sentry of a formatted extraction: a stream that is not `good()` gets
`failbit`; otherwise leading whitespace is skipped, and reaching the end of the
file on the way sets `eofbit` and `failbit`. The flag tells whether the
extraction goes ahead. -/
def IStream.sentry (f : IStream) : Bool × IStream :=
  if f.fail || f.eof then (false, { f with fail := true })
  else if f.rest.dropWhile isSpace = [] then (false, { rest := [], fail := true, eof := true })
  else (true, { f with rest := f.rest.dropWhile isSpace })

/-- The number written by a list of decimal digits. -/
def digitsValue (digits : List Char) : Nat :=
  digits.foldl (fun n c => 10 * n + (c.toNat - 48)) 0

/-- The characters left after an optional sign. -/
def skipSign (r : List Char) : List Char :=
  if r.head? = some '-' ∨ r.head? = some '+' then r.tail else r

/-- The extraction `f >> value` for a `uint32_t`: an optional sign and decimal
digits. Without a digit the value is 0 and `failbit` is set; a number above
`2^32 - 1` gives `2^32 - 1` and `failbit`; a minus sign negates modulo `2^32`.
Reading up to the end of the file sets `eofbit`. -/
def IStream.readUInt32 (f : IStream) (value : Nat) : Nat × IStream :=
  if !f.sentry.1 then (value, f.sentry.2)
  else
    let r0 := f.sentry.2.rest
    let digits := (skipSign r0).takeWhile Char.isDigit
    let r2 := (skipSign r0).dropWhile Char.isDigit
    if digits = [] then (0, { rest := r2, fail := true, eof := decide (r2 = []) })
    else if digitsValue digits > 4294967295 then
      (4294967295, { rest := r2, fail := true, eof := decide (r2 = []) })
    else
      ((if r0.head? = some '-' then (4294967296 - digitsValue digits) % 4294967296
        else digitsValue digits),
       { rest := r2, fail := false, eof := decide (r2 = []) })

/-- The extraction `f >> value` for a `std::string`: the characters up to the
next whitespace or the end of the file. -/
def IStream.readString (f : IStream) (value : String) : String × IStream :=
  if !f.sentry.1 then (value, f.sentry.2)
  else
    (String.mk (f.sentry.2.rest.takeWhile (fun c => !isSpace c)),
     { rest := f.sentry.2.rest.dropWhile (fun c => !isSpace c), fail := false,
       eof := decide (f.sentry.2.rest.dropWhile (fun c => !isSpace c) = []) })

/-- The largest finite `float`. -/
def fltMax : ℚ := pow2 128 - pow2 104

/-- The digits of the mantissa of a `float`, before and after the decimal
point: an optional sign, digits, and an optional decimal point with further
digits. -/
def mantissaDigits (r : List Char) : List Char × List Char :=
  ((skipSign r).takeWhile Char.isDigit,
   if ((skipSign r).dropWhile Char.isDigit).head? = some '.' then
     ((skipSign r).dropWhile Char.isDigit).tail.takeWhile Char.isDigit
   else [])

/-- The characters left after the mantissa of a `float`. -/
def skipMantissa (r : List Char) : List Char :=
  if ((skipSign r).dropWhile Char.isDigit).head? = some '.' then
    ((skipSign r).dropWhile Char.isDigit).tail.dropWhile Char.isDigit
  else (skipSign r).dropWhile Char.isDigit

/-- The extraction `f >> value` for a `float`. The characters taken are a
mantissa and, when the mantissa has a digit, an exponent: `e` or `E`, an
optional sign, digits. Without a digit in the mantissa, or with an exponent
that has no digit, the value is 0 and `failbit` is set. Otherwise the value is
the number written, rounded to `float`; on overflow it is the largest finite
`float` with the sign of the number, and `failbit` is set. Reading up to the
end of the file sets `eofbit`. -/
def IStream.readFloat (f : IStream) (value : ℚ) : ℚ × IStream :=
  if !f.sentry.1 then (value, f.sentry.2)
  else
    let r0 := f.sentry.2.rest
    let digits := (mantissaDigits r0).1 ++ (mantissaDigits r0).2
    let r3 := skipMantissa r0
    let sci : Bool := !digits.isEmpty && (r3.head? = some 'e' || r3.head? = some 'E')
    let expDigits := if sci then (skipSign r3.tail).takeWhile Char.isDigit else []
    let r6 := if sci then (skipSign r3.tail).dropWhile Char.isDigit else r3
    let state : IStream := { rest := r6, fail := false, eof := decide (r6 = []) }
    if digits.isEmpty || (sci && expDigits.isEmpty) then (0, { state with fail := true })
    else
      let magnitude : ℚ :=
        (digitsValue digits : ℚ) / ((10 ^ (mantissaDigits r0).2.length : Nat) : ℚ) *
          pow10 (if r3.tail.head? = some '-' then -(digitsValue expDigits : Int)
                 else (digitsValue expDigits : Int))
      let v := round32 (if r0.head? = some '-' then -magnitude else magnitude)
      if |v| < pow2 128 then (v, state)
      else ((if r0.head? = some '-' then -fltMax else fltMax), { state with fail := true })

/-- The extraction `f >> v.x >> v.y >> v.z`. -/
def IStream.readVec3 (f : IStream) (v : EditorVec3) : EditorVec3 × IStream :=
  let rx := f.readFloat v.x
  let ry := rx.2.readFloat v.y
  let rz := ry.2.readFloat v.z
  ({ x := rx.1, y := ry.1, z := rz.1 }, rz.2)

/-- TitanEditor.cpp 157-167, the loop of `LoadMapText`. Every iteration that does
not leave the loop reads at least one character, and `fuel` bounds the number of
iterations: `none` when that bound is reached. -/
def TitanEditor.loadLoop : Nat → IStream → TitanEditor → Option TitanEditor
  | 0, _, _ => none
  | fuel + 1, f, ed =>
    if f.eof then some ed
    else
      let e := EditorEntity.default
      let rid := f.readUInt32 e.id
      if rid.2.fail then some ed
      else
        let rname := rid.2.readString e.name
        if rname.2.fail then some ed
        else
          let rpos := rname.2.readVec3 e.position
          let rrot := rpos.2.readVec3 e.rotation
          let rscale := rrot.2.readVec3 e.scale
          let rmesh := rscale.2.readString e.meshPath
          let rmat := rmesh.2.readString e.materialPath
          let loaded : EditorEntity :=
            { id := rid.1, name := rname.1, position := rpos.1, rotation := rrot.1,
              scale := rscale.1, meshPath := rmesh.1, materialPath := rmat.1 }
          TitanEditor.loadLoop fuel rmat.2
            { entities := umAssign ed.entities loaded.id loaded,
              nextEntityID := max ed.nextEntityID ((loaded.id + 1) % 4294967296) }

/-- TitanEditor.cpp 152-170: `file` is the text at `path`, `none` when the file
cannot be opened. The result is the returned flag and the new state. -/
def TitanEditor.LoadMapText (ed : TitanEditor) (file : Option (List Char)) :
    Option (Bool × TitanEditor) :=
  match file with
  | none => some (false, ed)
  | some text =>
    (TitanEditor.loadLoop (text.length + 1)
      { rest := text, fail := false, eof := false }
      { entities := [], nextEntityID := 1 }).map (fun loaded => (true, loaded))

/-! ## Facts about binary floating point -/

theorem pow2_eq (e : Int) : pow2 e = (2 : ℚ) ^ e := by
  unfold pow2
  split_ifs with h
  · obtain ⟨n, rfl⟩ := Int.eq_ofNat_of_zero_le h
    simp
  · have h' : 0 ≤ -e := by omega
    obtain ⟨n, hn⟩ := Int.eq_ofNat_of_zero_le h'
    have he : e = -(n : Int) := by omega
    subst he
    simp

theorem pow2_pos (e : Int) : 0 < pow2 e := by
  rw [pow2_eq]; positivity

theorem pow2_add (a b : Int) : pow2 (a + b) = pow2 a * pow2 b := by
  simp only [pow2_eq]
  exact zpow_add₀ (by norm_num) a b

theorem pow2_le (a b : Int) (h : a ≤ b) : pow2 a ≤ pow2 b := by
  simp only [pow2_eq]
  exact zpow_le_zpow_right₀ (by norm_num) h

theorem pow2_lt (a b : Int) (h : a < b) : pow2 a < pow2 b := by
  simp only [pow2_eq]
  exact zpow_lt_zpow_right₀ (by norm_num) h

theorem log2Fuel_spec : ∀ (fuel n : Nat), n ≤ fuel → 0 < n →
    2 ^ log2Fuel fuel n ≤ n ∧ n < 2 ^ (log2Fuel fuel n + 1) := by
  intro fuel
  induction fuel with
  | zero => intro n h1 h2; omega
  | succ f ih =>
    intro n h1 h2
    unfold log2Fuel
    split_ifs with h
    · simp; omega
    · have h3 : n / 2 ≤ f := by omega
      have h4 : 0 < n / 2 := by omega
      obtain ⟨a, b⟩ := ih (n / 2) h3 h4
      constructor
      · rw [pow_succ]; omega
      · rw [pow_succ]; omega

theorem natLog2_spec (n : Nat) (h : 0 < n) :
    2 ^ natLog2 n ≤ n ∧ n < 2 ^ (natLog2 n + 1) :=
  log2Fuel_spec n n (le_refl _) h

theorem abs_eq_natAbs_div (q : ℚ) : |q| = (q.num.natAbs : ℚ) / (q.den : ℚ) := by
  conv_lhs => rw [← Rat.num_div_den q]
  rw [abs_div, Nat.abs_cast, Nat.cast_natAbs, Int.cast_abs]

theorem binade_spec (q : ℚ) (hq : q ≠ 0) :
    pow2 (binade q) ≤ |q| ∧ |q| < pow2 (binade q + 1) := by
  have hn : 0 < q.num.natAbs := Int.natAbs_pos.mpr (Rat.num_ne_zero.mpr hq)
  have hd : 0 < q.den := q.den_pos
  obtain ⟨n1, n2⟩ := natLog2_spec _ hn
  obtain ⟨d1, d2⟩ := natLog2_spec _ hd
  have hdq : (0 : ℚ) < (q.den : ℚ) := by exact_mod_cast hd
  have n1' : (2 : ℚ) ^ (natLog2 q.num.natAbs) ≤ (q.num.natAbs : ℚ) := by exact_mod_cast n1
  have n2' : (q.num.natAbs : ℚ) < (2 : ℚ) ^ (natLog2 q.num.natAbs + 1) := by exact_mod_cast n2
  have d1' : (2 : ℚ) ^ (natLog2 q.den) ≤ (q.den : ℚ) := by exact_mod_cast d1
  have d2' : (q.den : ℚ) < (2 : ℚ) ^ (natLog2 q.den + 1) := by exact_mod_cast d2
  have habs := abs_eq_natAbs_div q
  have hA : (0 : ℚ) < (2 : ℚ) ^ (natLog2 q.num.natAbs) := by positivity
  have hB : (0 : ℚ) < (2 : ℚ) ^ (natLog2 q.den) := by positivity
  -- the bounds 2^(a-b-1) < |q| < 2^(a-b+1)
  have lower : pow2 ((natLog2 q.num.natAbs : Int) - (natLog2 q.den : Int) - 1) ≤ |q| := by
    rw [habs, pow2_eq, le_div_iff₀ hdq]
    have e : (2 : ℚ) ^ ((natLog2 q.num.natAbs : Int) - (natLog2 q.den : Int) - 1) =
        (2 : ℚ) ^ (natLog2 q.num.natAbs) / (2 : ℚ) ^ (natLog2 q.den + 1) := by
      rw [sub_sub, zpow_sub₀ (by norm_num)]
      norm_cast
    rw [e, div_mul_eq_mul_div, div_le_iff₀ (by positivity)]
    calc (2 : ℚ) ^ natLog2 q.num.natAbs * (q.den : ℚ)
        ≤ (q.num.natAbs : ℚ) * (q.den : ℚ) := by
          exact mul_le_mul_of_nonneg_right n1' (le_of_lt hdq)
      _ ≤ (q.num.natAbs : ℚ) * (2 : ℚ) ^ (natLog2 q.den + 1) := by
          exact mul_le_mul_of_nonneg_left (le_of_lt d2') (by positivity)
  have upper : |q| < pow2 ((natLog2 q.num.natAbs : Int) - (natLog2 q.den : Int) + 1) := by
    rw [habs, pow2_eq, div_lt_iff₀ hdq]
    have e : (2 : ℚ) ^ ((natLog2 q.num.natAbs : Int) - (natLog2 q.den : Int) + 1) =
        (2 : ℚ) ^ (natLog2 q.num.natAbs + 1) / (2 : ℚ) ^ (natLog2 q.den) := by
      have : ((natLog2 q.num.natAbs : Int) - (natLog2 q.den : Int) + 1) =
          ((natLog2 q.num.natAbs + 1 : Nat) : Int) - (natLog2 q.den : Int) := by push_cast; ring
      rw [this, zpow_sub₀ (by norm_num)]
      norm_cast
    rw [e, div_mul_eq_mul_div, lt_div_iff₀ hB]
    calc (q.num.natAbs : ℚ) * (2 : ℚ) ^ natLog2 q.den
        ≤ (q.num.natAbs : ℚ) * (q.den : ℚ) := by
          exact mul_le_mul_of_nonneg_left d1' (by positivity)
      _ < (2 : ℚ) ^ (natLog2 q.num.natAbs + 1) * (q.den : ℚ) := by
          exact mul_lt_mul_of_pos_right n2' hdq
  unfold binade
  split_ifs with h
  · exact ⟨h, upper⟩
  · refine ⟨lower, ?_⟩
    rw [sub_add_cancel]
    exact not_le.mp h

/-- The binade of a value is the only exponent whose power of two brackets it. -/
theorem binade_unique (q : ℚ) (e : Int) (h1 : pow2 e ≤ |q|) (h2 : |q| < pow2 (e + 1)) :
    binade q = e := by
  have hq : q ≠ 0 := by
    intro h
    rw [h, abs_zero] at h1
    exact absurd (pow2_pos e) (not_lt.mpr h1)
  obtain ⟨b1, b2⟩ := binade_spec q hq
  by_contra hne
  rcases lt_or_gt_of_ne hne with h | h
  · have : pow2 (binade q + 1) ≤ pow2 e := pow2_le _ _ (by omega)
    linarith
  · have : pow2 (e + 1) ≤ pow2 (binade q) := pow2_le _ _ (by omega)
    linarith

theorem binade_neg (q : ℚ) : binade (-q) = binade q := by
  unfold binade
  simp

theorem binade_mono (a b : ℚ) (ha : 0 < a) (hab : a ≤ b) : binade a ≤ binade b := by
  obtain ⟨a1, a2⟩ := binade_spec a (ne_of_gt ha)
  obtain ⟨b1, b2⟩ := binade_spec b (ne_of_gt (lt_of_lt_of_le ha hab))
  rw [abs_of_pos ha] at a1 a2
  rw [abs_of_pos (lt_of_lt_of_le ha hab)] at b1 b2
  by_contra h
  push_neg at h
  have : pow2 (binade b + 1) ≤ pow2 (binade a) := pow2_le _ _ (by omega)
  linarith

theorem roundHalfEven_bounds (q : ℚ) : ⌊q⌋ ≤ roundHalfEven q ∧ roundHalfEven q ≤ ⌊q⌋ + 1 := by
  unfold roundHalfEven
  split_ifs <;> constructor <;> omega

theorem roundHalfEven_intCast (n : Int) : roundHalfEven (n : ℚ) = n := by
  unfold roundHalfEven
  simp

theorem roundHalfEven_mono (a b : ℚ) (h : a ≤ b) : roundHalfEven a ≤ roundHalfEven b := by
  have hf : ⌊a⌋ ≤ ⌊b⌋ := Int.floor_mono h
  rcases lt_or_eq_of_le hf with hlt | heq
  · have := (roundHalfEven_bounds a).2
    have := (roundHalfEven_bounds b).1
    omega
  · unfold roundHalfEven
    rw [heq]
    have hr : a - (⌊b⌋ : ℚ) ≤ b - (⌊b⌋ : ℚ) := by linarith
    split_ifs <;> first | omega | (exfalso; linarith)

theorem roundHalfEven_neg (q : ℚ) : roundHalfEven (-q) = -roundHalfEven q := by
  by_cases hint : (⌊q⌋ : ℚ) = q
  · rw [← hint, ← Int.cast_neg, roundHalfEven_intCast, roundHalfEven_intCast]
  · have h1 : (⌊q⌋ : ℚ) < q := lt_of_le_of_ne (Int.floor_le q) hint
    have h2 : q < (⌊q⌋ : ℚ) + 1 := Int.lt_floor_add_one q
    have hfl : ⌊-q⌋ = -⌊q⌋ - 1 := by
      rw [Int.floor_eq_iff]
      push_cast
      constructor <;> linarith
    unfold roundHalfEven
    rw [hfl]
    push_cast
    split_ifs <;> first | omega | (exfalso; linarith)

theorem roundHalfEven_nonneg (q : ℚ) (h : 0 ≤ q) : 0 ≤ roundHalfEven q :=
  le_trans (Int.floor_nonneg.mpr h) (roundHalfEven_bounds q).1

theorem ulp_pos (p : Nat) (emin : Int) (q : ℚ) : 0 < ulp p emin q := pow2_pos _

theorem ulp_neg (p : Nat) (emin : Int) (q : ℚ) : ulp p emin (-q) = ulp p emin q := by
  unfold ulp
  rw [binade_neg]

theorem roundBin_zero (p : Nat) (emin : Int) : roundBin p emin 0 = 0 := by
  simp [roundBin]

theorem roundBin_neg (p : Nat) (emin : Int) (q : ℚ) :
    roundBin p emin (-q) = -roundBin p emin q := by
  unfold roundBin
  by_cases h : q = 0
  · simp [h]
  · have h' : -q ≠ 0 := neg_ne_zero.mpr h
    rw [if_neg h, if_neg h', ulp_neg, neg_div, roundHalfEven_neg]
    push_cast
    ring

theorem roundBin_nonneg (p : Nat) (emin : Int) (q : ℚ) (h : 0 ≤ q) : 0 ≤ roundBin p emin q := by
  unfold roundBin
  split_ifs with hq
  · exact le_refl _
  · apply mul_nonneg
    · exact_mod_cast roundHalfEven_nonneg _ (div_nonneg h (le_of_lt (ulp_pos p emin q)))
    · exact le_of_lt (ulp_pos p emin q)

theorem roundBin_nonpos (p : Nat) (emin : Int) (q : ℚ) (h : q ≤ 0) : roundBin p emin q ≤ 0 := by
  have := roundBin_nonneg p emin (-q) (by linarith)
  rw [roundBin_neg] at this
  linarith

theorem pow2_natCast (n : Nat) : pow2 (n : Int) = ((2 ^ n : Int) : ℚ) := by
  rw [pow2_eq]
  push_cast
  exact zpow_natCast 2 n

theorem pow2_sub (a b : Int) : pow2 (a - b) = pow2 a / pow2 b := by
  simp only [pow2_eq]
  exact zpow_sub₀ (by norm_num) a b

/-- Rounding a positive value stays between the powers of two that bracket its
binade (the least binade for a value below it). -/
theorem roundBin_bracket (p : Nat) (hp : 1 ≤ p) (emin : Int) (q : ℚ) (hq : 0 < q) :
    roundBin p emin q ≤ pow2 (max (binade q) emin + 1) ∧
    (emin ≤ binade q → pow2 (binade q) ≤ roundBin p emin q) := by
  obtain ⟨b1, b2⟩ := binade_spec q (ne_of_gt hq)
  rw [abs_of_pos hq] at b1 b2
  have hu := ulp_pos p emin q
  unfold roundBin
  rw [if_neg (ne_of_gt hq)]
  constructor
  · have hlt : q ≤ pow2 (max (binade q) emin + 1) :=
      le_trans (le_of_lt b2) (pow2_le _ _ (by omega))
    have hdiv : q / ulp p emin q ≤ ((2 ^ p : Int) : ℚ) := by
      rw [div_le_iff₀ hu, ← pow2_natCast]
      unfold ulp
      rw [← pow2_add]
      have : (p : Int) + (max (binade q) emin - ((p : Int) - 1)) = max (binade q) emin + 1 := by
        ring
      rw [this]
      exact hlt
    have hr := roundHalfEven_mono _ _ hdiv
    rw [roundHalfEven_intCast] at hr
    have hr' : ((roundHalfEven (q / ulp p emin q) : Int) : ℚ) ≤ ((2 ^ p : Int) : ℚ) := by
      exact_mod_cast hr
    calc (roundHalfEven (q / ulp p emin q) : ℚ) * ulp p emin q
        ≤ ((2 ^ p : Int) : ℚ) * ulp p emin q := mul_le_mul_of_nonneg_right hr' (le_of_lt hu)
      _ = pow2 (max (binade q) emin + 1) := by
          rw [← pow2_natCast]
          unfold ulp
          rw [← pow2_add]
          congr 1
          ring
  · intro hemin
    have hmax : max (binade q) emin = binade q := max_eq_left hemin
    have hdiv : (((2 : Int) ^ (p - 1) : Int) : ℚ) ≤ q / ulp p emin q := by
      rw [le_div_iff₀ hu, ← pow2_natCast]
      unfold ulp
      rw [← pow2_add, hmax]
      have : ((p - 1 : Nat) : Int) + (binade q - ((p : Int) - 1)) = binade q := by
        have : ((p - 1 : Nat) : Int) = (p : Int) - 1 := by omega
        rw [this]; ring
      rw [this]
      exact b1
    have hr := roundHalfEven_mono _ _ hdiv
    rw [roundHalfEven_intCast] at hr
    have hr' : (((2 : Int) ^ (p - 1) : Int) : ℚ) ≤
        ((roundHalfEven (q / ulp p emin q) : Int) : ℚ) := by exact_mod_cast hr
    calc pow2 (binade q)
        = (((2 : Int) ^ (p - 1) : Int) : ℚ) * ulp p emin q := by
          rw [← pow2_natCast]
          unfold ulp
          rw [← pow2_add, hmax]
          congr 1
          have : ((p - 1 : Nat) : Int) = (p : Int) - 1 := by omega
          rw [this]; ring
      _ ≤ (roundHalfEven (q / ulp p emin q) : ℚ) * ulp p emin q :=
          mul_le_mul_of_nonneg_right hr' (le_of_lt hu)

theorem roundBin_mono_pos (p : Nat) (hp : 1 ≤ p) (emin : Int) (a b : ℚ) (ha : 0 < a)
    (hab : a ≤ b) : roundBin p emin a ≤ roundBin p emin b := by
  have hb : 0 < b := lt_of_lt_of_le ha hab
  have hbin := binade_mono a b ha hab
  rcases lt_or_eq_of_le (max_le_max hbin (le_refl emin)) with hlt | heq
  · -- different binades
    have hbe : emin ≤ binade b := by
      by_contra hcon
      push_neg at hcon
      have h1 : max (binade b) emin = emin := max_eq_right (le_of_lt hcon)
      have h2 : emin ≤ max (binade a) emin := le_max_right _ _
      omega
    have hmaxb : max (binade b) emin = binade b := max_eq_left hbe
    have h1 := (roundBin_bracket p hp emin a ha).1
    have h2 := (roundBin_bracket p hp emin b hb).2 hbe
    have h3 : pow2 (max (binade a) emin + 1) ≤ pow2 (binade b) := pow2_le _ _ (by omega)
    linarith
  · -- same unit in the last place
    have hu : ulp p emin a = ulp p emin b := by
      unfold ulp
      rw [heq]
    unfold roundBin
    rw [if_neg (ne_of_gt ha), if_neg (ne_of_gt hb), hu]
    have hub := ulp_pos p emin b
    have hdiv : a / ulp p emin b ≤ b / ulp p emin b := div_le_div_of_nonneg_right hab (le_of_lt hub)
    have hr := roundHalfEven_mono _ _ hdiv
    have hr' : ((roundHalfEven (a / ulp p emin b) : Int) : ℚ) ≤
        ((roundHalfEven (b / ulp p emin b) : Int) : ℚ) := by exact_mod_cast hr
    exact mul_le_mul_of_nonneg_right hr' (le_of_lt hub)

/-- Rounding to nearest is monotone. -/
theorem roundBin_mono (p : Nat) (hp : 1 ≤ p) (emin : Int) (a b : ℚ) (hab : a ≤ b) :
    roundBin p emin a ≤ roundBin p emin b := by
  rcases lt_trichotomy 0 a with ha | ha | ha
  · exact roundBin_mono_pos p hp emin a b ha hab
  · rw [← ha, roundBin_zero]
    exact roundBin_nonneg p emin b (ha ▸ hab)
  · rcases le_or_lt 0 b with hb | hb
    · exact le_trans (roundBin_nonpos p emin a (le_of_lt ha)) (roundBin_nonneg p emin b hb)
    · have := roundBin_mono_pos p hp emin (-b) (-a) (by linarith) (by linarith)
      rw [roundBin_neg, roundBin_neg] at this
      linarith

/-- A value `m * 2 ^ k` with fewer than `p` bits in `m` and `k` not below the
least exponent of the format is a value of the format. -/
theorem roundBin_exact (p : Nat) (emin : Int) (m k : Int) (hm : |m| < 2 ^ p)
    (hk : emin - ((p : Int) - 1) ≤ k) :
    roundBin p emin ((m : ℚ) * pow2 k) = (m : ℚ) * pow2 k := by
  by_cases hm0 : m = 0
  · simp [hm0, roundBin_zero]
  have hq : (m : ℚ) * pow2 k ≠ 0 :=
    mul_ne_zero (by exact_mod_cast hm0) (ne_of_gt (pow2_pos k))
  obtain ⟨b1, b2⟩ := binade_spec _ hq
  have habs : |(m : ℚ) * pow2 k| = (|m| : ℚ) * pow2 k := by
    rw [abs_mul, abs_of_pos (pow2_pos k)]
  have hlt : |(m : ℚ) * pow2 k| < pow2 ((p : Int) + k) := by
    rw [habs, pow2_add, pow2_natCast]
    apply mul_lt_mul_of_pos_right _ (pow2_pos k)
    have : ((|m| : Int) : ℚ) < ((2 ^ p : Int) : ℚ) := by exact_mod_cast hm
    simpa using this
  have hb : binade ((m : ℚ) * pow2 k) < (p : Int) + k := by
    by_contra hcon
    push_neg at hcon
    have := pow2_le _ _ hcon
    linarith
  have hE : max (binade ((m : ℚ) * pow2 k)) emin - ((p : Int) - 1) ≤ k := by
    have : max (binade ((m : ℚ) * pow2 k)) emin ≤ k + ((p : Int) - 1) := max_le (by omega) (by omega)
    omega
  obtain ⟨d, hd⟩ := Int.eq_ofNat_of_zero_le (sub_nonneg.mpr hE)
  have hu : ulp p emin ((m : ℚ) * pow2 k) = pow2 (k - (d : Int)) := by
    unfold ulp
    congr 1
    omega
  unfold roundBin
  rw [if_neg hq, hu]
  have hdiv : (m : ℚ) * pow2 k / pow2 (k - (d : Int)) = ((m * 2 ^ d : Int) : ℚ) := by
    rw [pow2_sub, pow2_natCast]
    have := pow2_pos k
    push_cast
    field_simp
    ring
  rw [hdiv, roundHalfEven_intCast, pow2_sub, pow2_natCast]
  have := pow2_pos k
  push_cast
  field_simp
  ring

theorem roundHalfEven_abs_le (q : ℚ) (n : Int) (h : |q| ≤ (n : ℚ)) : |roundHalfEven q| ≤ n := by
  rw [abs_le] at h ⊢
  constructor
  · have := roundHalfEven_mono (((-n : Int)) : ℚ) q (by push_cast; exact h.1)
    rwa [roundHalfEven_intCast] at this
  · have := roundHalfEven_mono q (n : ℚ) h.2
    rwa [roundHalfEven_intCast] at this

/-- A rounded value is a value of the format. -/
theorem roundBin_idem (p : Nat) (hp : 1 ≤ p) (emin : Int) (q : ℚ) :
    roundBin p emin (roundBin p emin q) = roundBin p emin q := by
  by_cases hq : q = 0
  · simp [hq, roundBin_zero]
  have hu := ulp_pos p emin q
  obtain ⟨-, b2⟩ := binade_spec q hq
  have hlt : |q| ≤ pow2 (max (binade q) emin + 1) :=
    le_trans (le_of_lt b2) (pow2_le _ _ (by omega))
  have hdiv : |q / ulp p emin q| ≤ ((2 ^ p : Int) : ℚ) := by
    rw [abs_div, abs_of_pos hu, div_le_iff₀ hu, ← pow2_natCast]
    unfold ulp
    rw [← pow2_add]
    have : (p : Int) + (max (binade q) emin - ((p : Int) - 1)) = max (binade q) emin + 1 := by ring
    rw [this]
    exact hlt
  have hm := roundHalfEven_abs_le _ _ hdiv
  have hform : roundBin p emin q =
      (roundHalfEven (q / ulp p emin q) : ℚ) * pow2 (max (binade q) emin - ((p : Int) - 1)) := by
    unfold roundBin
    rw [if_neg hq]
    rfl
  rw [hform]
  rcases lt_or_eq_of_le hm with hlt' | heq
  · exact roundBin_exact p emin _ _ hlt' (by omega)
  · -- the rounded significand is the power `2 ^ p`: use `2 ^ (p - 1)` one binade up
    obtain ⟨p', rfl⟩ : ∃ p', p = p' + 1 := ⟨p - 1, by omega⟩
    have key : ∀ m : Int, |m| = 2 ^ (p' + 1) → ∃ m' : Int, m = m' * 2 ∧ |m'| < 2 ^ (p' + 1) := by
      intro m hmabs
      have h2 : (0 : Int) < 2 ^ p' := by positivity
      rcases abs_cases m with ⟨h1, _⟩ | ⟨h1, _⟩
      · refine ⟨2 ^ p', by rw [← h1, hmabs, pow_succ], ?_⟩
        rw [abs_of_pos h2, pow_succ]; omega
      · refine ⟨-2 ^ p', by rw [pow_succ] at hmabs; omega, ?_⟩
        rw [abs_neg, abs_of_pos h2, pow_succ]; omega
    obtain ⟨m', hm', hm'lt⟩ := key _ heq
    have e : (roundHalfEven (q / ulp (p' + 1) emin q) : ℚ) *
        pow2 (max (binade q) emin - (((p' + 1 : Nat) : Int) - 1)) =
        (m' : ℚ) * pow2 (max (binade q) emin - (((p' + 1 : Nat) : Int) - 1) + 1) := by
      rw [hm', pow2_add]
      have : pow2 1 = 2 := by rw [pow2_eq]; norm_num
      rw [this]
      push_cast
      ring
    rw [e]
    exact roundBin_exact (p' + 1) emin _ _ hm'lt (by omega)

theorem round32_mono (a b : ℚ) (h : a ≤ b) : round32 a ≤ round32 b :=
  roundBin_mono 24 (by norm_num) _ a b h

theorem round32_idem (q : ℚ) : round32 (round32 q) = round32 q :=
  roundBin_idem 24 (by norm_num) _ q

theorem round32_neg (q : ℚ) : round32 (-q) = -round32 q := roundBin_neg _ _ q

theorem round32_zero : round32 0 = 0 := roundBin_zero _ _

theorem round32_nonneg (q : ℚ) (h : 0 ≤ q) : 0 ≤ round32 q := roundBin_nonneg _ _ q h

theorem round32_nonpos (q : ℚ) (h : q ≤ 0) : round32 q ≤ 0 := roundBin_nonpos _ _ q h

/-- Whole numbers up to `2 ^ 24` in magnitude are `float` values. -/
theorem round32_intCast (n : Int) (h : |n| ≤ 16777216) : round32 (n : ℚ) = n := by
  have hp : pow2 0 = 1 := by rw [pow2_eq]; norm_num
  rcases lt_or_eq_of_le h with hlt | heq
  · have := roundBin_exact 24 (-126) n 0 (by norm_num; exact hlt) (by norm_num)
    rwa [hp, mul_one] at this
  · have h2 : pow2 1 = 2 := by rw [pow2_eq]; norm_num
    rcases abs_cases n with ⟨h1, _⟩ | ⟨h1, _⟩
    · have := roundBin_exact 24 (-126) 8388608 1 (by norm_num) (by norm_num)
      rw [h2] at this
      have e : (n : ℚ) = ((8388608 : Int) : ℚ) * 2 := by
        have : n = 16777216 := by omega
        rw [this]; norm_num
      rw [e]
      exact this
    · have := roundBin_exact 24 (-126) (-8388608) 1 (by norm_num) (by norm_num)
      rw [h2] at this
      have e : (n : ℚ) = ((-8388608 : Int) : ℚ) * 2 := by
        have : n = -16777216 := by omega
        rw [this]; norm_num
      rw [e]
      exact this

theorem toF32_eq_some (q x : ℚ) (h : toF32 q = some x) : x = round32 q ∧ |x| < pow2 128 := by
  unfold toF32 at h
  split_ifs at h with hlt
  simp only [Option.some.injEq] at h
  subst h
  exact ⟨rfl, hlt⟩

theorem toF32_isF32 (q x : ℚ) (h : toF32 q = some x) : IsF32 x := by
  obtain ⟨h1, h2⟩ := toF32_eq_some q x h
  exact ⟨by rw [h1, round32_idem], h2⟩

theorem toF32_of_isF32 (q : ℚ) (h : IsF32 q) : toF32 q = some q := by
  unfold toF32
  rw [h.1, if_pos h.2]

theorem toF32_mono (a b x y : ℚ) (hab : a ≤ b) (ha : toF32 a = some x) (hb : toF32 b = some y) :
    x ≤ y := by
  rw [(toF32_eq_some a x ha).1, (toF32_eq_some b y hb).1]
  exact round32_mono a b hab

/-- An operation whose exact result lies between two `float` values delivers a
`float` between them. -/
theorem toF32_between (lo hi q : ℚ) (hlo : IsF32 lo) (hhi : IsF32 hi) (h1 : lo ≤ q)
    (h2 : q ≤ hi) : ∃ x, toF32 q = some x ∧ lo ≤ x ∧ x ≤ hi := by
  have a := round32_mono lo q h1
  have b := round32_mono q hi h2
  rw [hlo.1] at a
  rw [hhi.1] at b
  refine ⟨round32 q, ?_, a, b⟩
  unfold toF32
  rw [if_pos]
  have := hlo.2
  have := hhi.2
  rw [abs_lt] at *
  constructor <;> linarith

theorem isF32_intCast (n : Int) (h : |n| ≤ 16777216) : IsF32 (n : ℚ) := by
  refine ⟨round32_intCast n h, ?_⟩
  have h1 : ((|n| : Int) : ℚ) ≤ 16777216 := by exact_mod_cast h
  have h2 : (16777216 : ℚ) < pow2 128 := by rw [pow2_eq]; norm_num
  have h3 : |(n : ℚ)| = ((|n| : Int) : ℚ) := by simp
  rw [h3]
  linarith

theorem toF32_intCast (n : Int) (h : |n| ≤ 16777216) : toF32 (n : ℚ) = some (n : ℚ) :=
  toF32_of_isF32 _ (isF32_intCast n h)

/-- The powers of two up to `2 ^ 127` are `float` values. -/
theorem isF32_pow2 (k : Int) (h1 : -149 ≤ k) (h2 : k ≤ 127) : IsF32 (pow2 k) := by
  constructor
  · have := roundBin_exact 24 (-126) 1 k (by norm_num) (by norm_num; omega)
    simpa using this
  · rw [abs_of_pos (pow2_pos k)]
    exact pow2_lt _ _ (by omega)

theorem isF32_neg (q : ℚ) (h : IsF32 q) : IsF32 (-q) := by
  refine ⟨by rw [round32_neg, h.1], by rw [abs_neg]; exact h.2⟩

/-- A rounded value is a significand of at most `p` bits times a power of two
not below the least one of the format. -/
theorem roundBin_form (p : Nat) (emin : Int) (q : ℚ) :
    ∃ m k : Int, roundBin p emin q = (m : ℚ) * pow2 k ∧ |m| ≤ 2 ^ p ∧
      emin - ((p : Int) - 1) ≤ k := by
  by_cases hq : q = 0
  · exact ⟨0, emin - ((p : Int) - 1), by simp [hq, roundBin_zero], by positivity, le_refl _⟩
  have hu := ulp_pos p emin q
  obtain ⟨-, b2⟩ := binade_spec q hq
  have hlt : |q| ≤ pow2 (max (binade q) emin + 1) :=
    le_trans (le_of_lt b2) (pow2_le _ _ (by omega))
  have hdiv : |q / ulp p emin q| ≤ ((2 ^ p : Int) : ℚ) := by
    rw [abs_div, abs_of_pos hu, div_le_iff₀ hu, ← pow2_natCast]
    unfold ulp
    rw [← pow2_add]
    have : (p : Int) + (max (binade q) emin - ((p : Int) - 1)) = max (binade q) emin + 1 := by ring
    rw [this]
    exact hlt
  refine ⟨roundHalfEven (q / ulp p emin q), max (binade q) emin - ((p : Int) - 1), ?_,
    roundHalfEven_abs_le _ _ hdiv, by omega⟩
  unfold roundBin
  rw [if_neg hq]
  rfl

/-- Every `float` value is a `double` value. -/
theorem round64_of_round32 (q : ℚ) : round64 (round32 q) = round32 q := by
  obtain ⟨m, k, hform, hm, hk⟩ := roundBin_form 24 (-126) q
  unfold round32
  rw [hform]
  exact roundBin_exact 53 (-1022) m k (lt_of_le_of_lt hm (by norm_num)) (by omega)

/-! ## Facts about the map operations -/

theorem umFind_umAssign_self {ν : Type} (m : List (Nat × ν)) (k : Nat) (v : ν) :
    umFind (umAssign m k v) k = some v := by
  induction m with
  | nil => simp [umAssign, umFind]
  | cons p rest ih =>
    obtain ⟨k', v'⟩ := p
    by_cases h : k' = k
    · simp [umAssign, umFind, h]
    · simp [umAssign, umFind, h, ih]

theorem umFind_umAssign_ne {ν : Type} (m : List (Nat × ν)) (k j : Nat) (v : ν) (hj : j ≠ k) :
    umFind (umAssign m k v) j = umFind m j := by
  induction m with
  | nil => simp [umAssign, umFind, Ne.symm hj]
  | cons p rest ih =>
    obtain ⟨k', v'⟩ := p
    by_cases h : k' = k
    · subst h
      simp [umAssign, umFind, Ne.symm hj]
    · by_cases h2 : k' = j
      · subst h2
        simp [umAssign, umFind, h]
      · simp [umAssign, umFind, h, h2, ih]

theorem umFind_umErase_self {ν : Type} (m : List (Nat × ν)) (k : Nat) :
    umFind (umErase m k) k = none := by
  induction m with
  | nil => rfl
  | cons p rest ih =>
    obtain ⟨k', v'⟩ := p
    by_cases h : k' = k
    · simpa [umErase, h] using ih
    · simpa [umErase, umFind, h] using ih

theorem umFind_umErase_ne {ν : Type} (m : List (Nat × ν)) (k j : Nat) (hj : j ≠ k) :
    umFind (umErase m k) j = umFind m j := by
  induction m with
  | nil => rfl
  | cons p rest ih =>
    obtain ⟨k', v'⟩ := p
    by_cases h : k' = k
    · subst h
      simpa [umErase, umFind, Ne.symm hj] using ih
    · by_cases h2 : k' = j
      · subst h2
        simp [umErase, umFind, h]
      · simpa [umErase, umFind, h, h2] using ih

theorem umFind_eq_none_iff {ν : Type} (m : List (Nat × ν)) (k : Nat) :
    umFind m k = none ↔ k ∉ umKeys m := by
  induction m with
  | nil => simp [umFind, umKeys]
  | cons p rest ih =>
    obtain ⟨k', v'⟩ := p
    by_cases h : k' = k
    · simp [umFind, umKeys, h]
    · have h' : ¬ k = k' := fun e => h e.symm
      simpa [umFind, umKeys, h, h'] using ih

theorem umErase_of_not_mem {ν : Type} (m : List (Nat × ν)) (k : Nat) (hk : k ∉ umKeys m) :
    umErase m k = m := by
  unfold umErase
  rw [List.filter_eq_self]
  intro p hp
  have : p.1 ≠ k := by
    intro e
    exact hk (by rw [← e]; exact List.mem_map_of_mem Prod.fst hp)
  simpa using this

theorem umKeys_umAssign_of_mem {ν : Type} (m : List (Nat × ν)) (k : Nat) (v : ν)
    (hk : k ∈ umKeys m) : umKeys (umAssign m k v) = umKeys m := by
  induction m with
  | nil => simp [umKeys] at hk
  | cons p rest ih =>
    obtain ⟨k', v'⟩ := p
    by_cases h : k' = k
    · simp [umAssign, umKeys, h]
    · have hk' : k ∈ umKeys rest := by
        have : k = k' ∨ k ∈ umKeys rest := by simpa [umKeys] using hk
        rcases this with e | e
        · exact absurd e.symm h
        · exact e
      have := ih hk'
      simp only [umKeys] at this
      simp [umAssign, umKeys, h, this]

theorem umKeys_umAssign_of_not_mem {ν : Type} (m : List (Nat × ν)) (k : Nat) (v : ν)
    (hk : k ∉ umKeys m) : umKeys (umAssign m k v) = umKeys m ++ [k] := by
  induction m with
  | nil => simp [umAssign, umKeys]
  | cons p rest ih =>
    obtain ⟨k', v'⟩ := p
    have h : ¬ k' = k := by
      intro e
      exact hk (by simp [umKeys, e])
    have hk' : k ∉ umKeys rest := by
      intro e
      exact hk (by simp only [umKeys] at e; simp [umKeys, e])
    have := ih hk'
    simp only [umKeys] at this
    simp [umAssign, umKeys, h, this]

theorem mem_umKeys_umAssign {ν : Type} (m : List (Nat × ν)) (k : Nat) (v : ν) :
    k ∈ umKeys (umAssign m k v) := by
  by_cases hk : k ∈ umKeys m
  · rw [umKeys_umAssign_of_mem m k v hk]; exact hk
  · rw [umKeys_umAssign_of_not_mem m k v hk]; simp

theorem umKeys_umAssign_nodup {ν : Type} (m : List (Nat × ν)) (k : Nat) (v : ν)
    (hm : (umKeys m).Nodup) : (umKeys (umAssign m k v)).Nodup := by
  by_cases hk : k ∈ umKeys m
  · rw [umKeys_umAssign_of_mem m k v hk]; exact hm
  · rw [umKeys_umAssign_of_not_mem m k v hk]
    rw [List.nodup_append]
    refine ⟨hm, List.nodup_singleton k, ?_⟩
    intro a ha hb
    have : a = k := by simpa using hb
    exact hk (this ▸ ha)

theorem length_umAssign_of_mem {ν : Type} (m : List (Nat × ν)) (k : Nat) (v : ν)
    (hk : k ∈ umKeys m) : (umAssign m k v).length = m.length := by
  have := congrArg List.length (umKeys_umAssign_of_mem m k v hk)
  simpa [umKeys] using this

/-! ## Facts about call sequences on the registry -/

theorem returned_append (a b : List EMCall) : ∀ em : EntityManager,
    em.returned (a ++ b) = em.returned a ++ (em.after a).returned b := by
  induction a with
  | nil => intro em; rfl
  | cons c rest ih =>
    intro em
    cases c with
    | create name => simp [EntityManager.returned, EntityManager.after, ih]
    | destroy id => simp [EntityManager.returned, EntityManager.after, ih]

theorem after_append (a b : List EMCall) : ∀ em : EntityManager,
    em.after (a ++ b) = (em.after a).after b := by
  induction a with
  | nil => intro em; rfl
  | cons c rest ih =>
    intro em
    cases c with
    | create name => simp [EntityManager.after, ih]
    | destroy id => simp [EntityManager.after, ih]

theorem createCount_append (a b : List EMCall) :
    createCount (a ++ b) = createCount a + createCount b := by
  induction a with
  | nil => simp [createCount]
  | cons c rest ih =>
    cases c with
    | create name => simp [createCount, ih]; omega
    | destroy id => simp [createCount, ih]

theorem createCount_replicate (n : Nat) (name : String) :
    createCount (List.replicate n (EMCall.create name)) = n := by
  induction n with
  | zero => rfl
  | succ n ih => simp [List.replicate_succ, createCount, ih]

/-- The ids a call sequence returns are the successive values of the 32-bit counter. -/
theorem returned_eq (calls : List EMCall) : ∀ em : EntityManager, em.nextID < 4294967296 →
    em.returned calls =
      (List.range (createCount calls)).map (fun i => (em.nextID + i) % 4294967296) := by
  induction calls with
  | nil => intro em _; rfl
  | cons c rest ih =>
    intro em hem
    cases c with
    | create name =>
      have hnext : (em.CreateEntity name).2.nextID < 4294967296 := by
        simp only [EntityManager.CreateEntity, EntityID] at *; omega
      rw [EntityManager.returned, ih _ hnext, createCount, List.range_succ_eq_map,
        List.map_cons, List.map_map]
      congr 1
      · simp only [EntityManager.CreateEntity, EntityID] at *; omega
      · apply List.map_congr_left
        intro i _
        simp only [EntityManager.CreateEntity, Function.comp, Nat.succ_eq_add_one, EntityID] at *
        omega
    | destroy id =>
      rw [EntityManager.returned, createCount]
      exact ih _ hem

/-- The counter after a call sequence. -/
theorem nextID_after (calls : List EMCall) : ∀ em : EntityManager, em.nextID < 4294967296 →
    (em.after calls).nextID = (em.nextID + createCount calls) % 4294967296 := by
  induction calls with
  | nil => intro em hem; simp only [EntityManager.after, createCount, EntityID] at *; omega
  | cons c rest ih =>
    intro em hem
    cases c with
    | create name =>
      have hnext : (em.CreateEntity name).2.nextID < 4294967296 := by
        simp only [EntityManager.CreateEntity, EntityID] at *; omega
      rw [EntityManager.after, ih _ hnext, createCount]
      simp only [EntityManager.CreateEntity, EntityID] at *
      omega
    | destroy id =>
      rw [EntityManager.after, createCount]
      exact ih _ hem

theorem returned_fresh_pairwise (calls : List EMCall) (h : createCount calls < 4294967296) :
    (EntityManager.fresh.returned calls).Pairwise (· < ·) := by
  rw [returned_eq calls EntityManager.fresh (by decide), List.pairwise_map]
  have hr := List.pairwise_lt_range (createCount calls)
  have hmem : ∀ a ∈ List.range (createCount calls), a < createCount calls :=
    fun a ha => List.mem_range.mp ha
  revert hr hmem
  generalize List.range (createCount calls) = l
  intro hr hmem
  induction hr with
  | nil => exact List.Pairwise.nil
  | @cons a l hx _ ih =>
    refine List.Pairwise.cons ?_ (ih (fun b hb => hmem b (List.mem_cons_of_mem _ hb)))
    intro b hb
    have h1 := hmem a (List.mem_cons_self _ _)
    have h2 := hmem b (List.mem_cons_of_mem _ hb)
    have h3 := hx b hb
    simp only [EntityManager.fresh, EntityID] at *
    omega

theorem umFind_umErase_none {ν : Type} (m : List (Nat × ν)) (k j : Nat)
    (h : umFind m j = none) : umFind (umErase m k) j = none := by
  by_cases hj : j = k
  · rw [hj]; exact umFind_umErase_self m k
  · rw [umFind_umErase_ne m k j hj]; exact h

/-- An id that is not in the registry stays out of it for as many `CreateEntity`
calls as the counter needs to reach it. -/
theorem getEntity_after_none (id : EntityID) (hid : id < 4294967296) (calls : List EMCall) :
    ∀ em : EntityManager, em.nextID < 4294967296 → umFind em.entities id = none →
      createCount calls ≤ callsUntil em.nextID id → (em.after calls).GetEntity id = none := by
  induction calls with
  | nil => intro em _ hnone _; exact hnone
  | cons c rest ih =>
    intro em hem hnone hcount
    cases c with
    | create name =>
      rw [EntityManager.after]
      have hne : id ≠ em.nextID := by
        intro e
        simp only [createCount, callsUntil, EntityID] at *
        omega
      apply ih
      · simp only [EntityManager.CreateEntity, EntityID] at *; omega
      · simp only [EntityManager.CreateEntity]
        rw [umFind_umAssign_ne _ _ _ _ hne]
        exact hnone
      · simp only [EntityManager.CreateEntity, createCount, callsUntil, EntityID] at *
        omega
    | destroy j =>
      rw [EntityManager.after]
      apply ih
      · exact hem
      · exact umFind_umErase_none _ _ _ hnone
      · simpa [createCount, EntityManager.DestroyEntity] using hcount

/-! ## The claims about the registry -/

/-- C1 (amended): on a fresh EntityManager, for every sequence of CreateEntity and
DestroyEntity calls with fewer than 2^32 CreateEntity calls, each returned id is
strictly greater than every id returned before it; hence the returned ids are
pairwise distinct, and an id that was handed out and then destroyed is not handed
out by any later call of the sequence. -/
theorem C1_returned_ids_strictly_increasing (calls : List EMCall)
    (h : createCount calls < 4294967296) :
    (EntityManager.fresh.returned calls).Pairwise (fun a b => a < b) ∧
    (EntityManager.fresh.returned calls).Nodup ∧
    ∀ pre id post, calls = pre ++ EMCall.destroy id :: post →
      id ∈ EntityManager.fresh.returned pre →
      id ∉ ((EntityManager.fresh.after pre).DestroyEntity id).returned post := by
  have hp := returned_fresh_pairwise calls h
  refine ⟨hp, hp.imp (fun hab => Nat.ne_of_lt hab), ?_⟩
  intro pre id post hcalls hpre hpost
  rw [hcalls, returned_append, List.pairwise_append] at hp
  have := hp.2.2 id hpre id (by simpa [EntityManager.returned] using hpost)
  exact Nat.lt_irrefl _ this

/-- C1, witness: three creations with a destruction in between. -/
theorem C1_returned_ids_strictly_increasing_witness :
    (EntityManager.fresh.returned
      [EMCall.create "a", EMCall.destroy 1, EMCall.create "b", EMCall.create "c"]).Pairwise
        (fun a b => a < b) :=
  (C1_returned_ids_strictly_increasing
    [EMCall.create "a", EMCall.destroy 1, EMCall.create "b", EMCall.create "c"]
    (by decide)).1

/-- Once the counter has gone through all 2^32 values the returned ids are no
longer increasing. -/
theorem returned_not_increasing_of_wrap (n : Nat) (hn : n = 4294967295) (name : String) :
    ¬ (EntityManager.fresh.returned
        (List.replicate (n + 1) (EMCall.create name))).Pairwise (fun a b => a < b) := by
  intro hp
  rw [returned_eq _ EntityManager.fresh (by decide), createCount_replicate,
    List.pairwise_map, List.range_succ, List.pairwise_append] at hp
  have h := hp.2.2 0 (List.mem_range.mpr (by omega)) n (List.mem_singleton.mpr rfl)
  simp only [EntityManager.fresh, EntityID] at h
  omega

/-- C1, counterexample: the 2^32-th CreateEntity call on a fresh manager returns
the wrapped counter value 0, which is not greater than the ids returned before. -/
theorem C1_counterexample_counter_wraps :
    ¬ (EntityManager.fresh.returned
        (List.replicate 4294967296 (EMCall.create "Entity"))).Pairwise (fun a b => a < b) :=
  returned_not_increasing_of_wrap 4294967295 rfl "Entity"

/-- What CreateEntity returns after `n` creations on a fresh manager. -/
theorem create_returns_wrapped_counter (n : Nat) (name : String) :
    ((EntityManager.fresh.after
        (List.replicate n (EMCall.create name))).CreateEntity name).1 =
      (1 + n) % 4294967296 := by
  have h := nextID_after (List.replicate n (EMCall.create name)) EntityManager.fresh
    (by decide)
  rw [createCount_replicate] at h
  simpa [EntityManager.CreateEntity, EntityManager.fresh] using h

/-- C2 (amended): for every EntityManager state and every id (32-bit values),
GetEntity(id) returns not-found immediately after DestroyEntity(id), and keeps
returning not-found after every further sequence of CreateEntity and DestroyEntity
calls in which the number of CreateEntity calls is at most (id - nextID) mod 2^32,
the number of creations after which the counter reaches id. -/
theorem C2_destroyed_id_stays_absent (em : EntityManager) (id : EntityID)
    (calls : List EMCall) (hem : em.nextID < 4294967296) (hid : id < 4294967296)
    (hcalls : createCount calls ≤ callsUntil em.nextID id) :
    (em.DestroyEntity id).GetEntity id = none ∧
    ((em.DestroyEntity id).after calls).GetEntity id = none :=
  ⟨umFind_umErase_self em.entities id,
   getEntity_after_none id hid calls (em.DestroyEntity id) hem
     (umFind_umErase_self em.entities id) hcalls⟩

/-- C2, witness: entity 1 is created and destroyed, then two more are created. -/
theorem C2_destroyed_id_stays_absent_witness :
    (((EntityManager.fresh.CreateEntity "a").2.DestroyEntity 1).after
      [EMCall.create "b", EMCall.create "c"]).GetEntity 1 = none :=
  (C2_destroyed_id_stays_absent (EntityManager.fresh.CreateEntity "a").2 1
    [EMCall.create "b", EMCall.create "c"] (by decide) (by decide) (by decide)).2

/-- C2, counterexample: DestroyEntity(1) on a fresh manager, whose counter stands
at 1, is followed by a CreateEntity call; GetEntity(1) then resolves. -/
theorem C2_counterexample_id_not_yet_issued :
    ((EntityManager.fresh.DestroyEntity 1).after [EMCall.create "Entity"]).GetEntity 1 =
      some (Entity.new 1 "Entity") := by
  decide

/-- C3 (amended): for every EntityManager state and every name, GetEntity of the
id returned by CreateEntity(name) resolves to an entity whose GetID is that id,
whose GetName is the given name, which is active and which has no components; the
returned id is different from 0 whenever the counter nextID is not 0, that is,
unless exactly 2^32 - 1 (modulo 2^32) ids were handed out since construction or
the last Clear. -/
theorem C3_created_entity_resolves (em : EntityManager) (name : String) :
    (em.nextID ≠ 0 → (em.CreateEntity name).1 ≠ invalid_entity) ∧
    ∃ e, (em.CreateEntity name).2.GetEntity (em.CreateEntity name).1 = some e ∧
      e.GetID = (em.CreateEntity name).1 ∧ e.GetName = name ∧
      e.IsActive = true ∧ e.components = [] := by
  refine ⟨fun h => h, Entity.new em.nextID name, ?_, rfl, rfl, rfl, rfl⟩
  exact umFind_umAssign_self em.entities em.nextID _

/-- C3, witness: the test EntityManager_CreateEntity of Tests.cpp. -/
theorem C3_created_entity_resolves_witness :
    (EntityManager.fresh.CreateEntity "TestEntity").1 ≠ invalid_entity :=
  (C3_created_entity_resolves EntityManager.fresh "TestEntity").1 (by decide)

/-- C3, counterexample: after 2^32 - 1 CreateEntity calls on a fresh manager the
next CreateEntity call returns the reserved id 0. -/
theorem C3_counterexample_returns_invalid_entity :
    ((EntityManager.fresh.after
        (List.replicate 4294967295 (EMCall.create "Entity"))).CreateEntity "Entity").1 =
      invalid_entity :=
  create_returns_wrapped_counter 4294967295 "Entity"

/-- C4: for every entity, every component type T and every component pointer v,
after AddComponent<T>(v) the call GetComponent<T>() returns v and HasComponent<T>()
is true. -/
theorem C4_add_then_get (e : Entity) (T : ComponentType) (v : ComponentPtr) :
    (e.AddComponent T v).GetComponent T = v ∧ (e.AddComponent T v).HasComponent T = true := by
  simp [Entity.AddComponent, Entity.GetComponent, Entity.HasComponent, umFind_umAssign_self]

/-- Distinct component classes carry distinct tags. -/
theorem StaticID_injective (T U : ComponentType) (h : StaticID T = StaticID U) : T = U := by
  cases T <;> cases U <;> first | rfl | (exact absurd h (by decide))

/-- C5: for every entity and every component type T, after RemoveComponent<T>()
HasComponent<T>() is false and GetComponent<T>() is null, whether or not a T was
present; when no T was present the entity (its component map included) is
unchanged; and for every other type U the results of GetComponent<U>() and
HasComponent<U>() are unchanged. -/
theorem C5_remove_component (e : Entity) (T : ComponentType) :
    (e.RemoveComponent T).HasComponent T = false ∧
    (e.RemoveComponent T).GetComponent T = none ∧
    (e.HasComponent T = false → e.RemoveComponent T = e) ∧
    ∀ U, U ≠ T →
      (e.RemoveComponent T).GetComponent U = e.GetComponent U ∧
      (e.RemoveComponent T).HasComponent U = e.HasComponent U := by
  refine ⟨?_, ?_, ?_, ?_⟩
  · simp [Entity.RemoveComponent, Entity.HasComponent, umFind_umErase_self]
  · simp [Entity.RemoveComponent, Entity.GetComponent, umFind_umErase_self]
  · intro h
    have hnone : umFind e.components (StaticID T) = none := by
      simpa [Entity.HasComponent] using h
    have hk := (umFind_eq_none_iff _ _).mp hnone
    simp [Entity.RemoveComponent, umErase_of_not_mem _ _ hk]
  · intro U hU
    have hne : StaticID U ≠ StaticID T := fun h => hU (StaticID_injective U T h)
    simp [Entity.RemoveComponent, Entity.GetComponent, Entity.HasComponent,
      umFind_umErase_ne _ _ _ hne]

/-- C5, witness: an entity holding a Transform and a Renderable loses the
Transform and keeps the Renderable; removing an absent RigidBody changes nothing. -/
theorem C5_remove_component_witness :
    (((Entity.new 1 "TestEntity").AddComponent .Transform (some 10)).AddComponent
        .Renderable (some 11)).RemoveComponent .RigidBody =
      ((Entity.new 1 "TestEntity").AddComponent .Transform (some 10)).AddComponent
        .Renderable (some 11) ∧
    ((((Entity.new 1 "TestEntity").AddComponent .Transform (some 10)).AddComponent
        .Renderable (some 11)).RemoveComponent .Transform).GetComponent .Renderable =
      (((Entity.new 1 "TestEntity").AddComponent .Transform (some 10)).AddComponent
        .Renderable (some 11)).GetComponent .Renderable :=
  ⟨(C5_remove_component _ .RigidBody).2.2.1 (by decide),
   ((C5_remove_component _ .Transform).2.2.2 .Renderable (by decide)).1⟩

/-- C6: for every entity (whose component map, being a std::unordered_map, has
one entry per key), type T and pointers v1, v2: after AddComponent<T>(v1) followed
by AddComponent<T>(v2), GetComponent<T>() returns v2, the map has exactly one
entry under T's tag and as many entries as after the first add, and for every
other type U the results of GetComponent<U>() and HasComponent<U>() are those of
the entity before both adds. -/
theorem C6_add_twice_replaces (e : Entity) (T : ComponentType) (v1 v2 : ComponentPtr)
    (hkeys : (umKeys e.components).Nodup) :
    ((e.AddComponent T v1).AddComponent T v2).GetComponent T = v2 ∧
    (umKeys ((e.AddComponent T v1).AddComponent T v2).components).count (StaticID T) = 1 ∧
    ((e.AddComponent T v1).AddComponent T v2).components.length =
      (e.AddComponent T v1).components.length ∧
    ∀ U, U ≠ T →
      ((e.AddComponent T v1).AddComponent T v2).GetComponent U = e.GetComponent U ∧
      ((e.AddComponent T v1).AddComponent T v2).HasComponent U = e.HasComponent U := by
  refine ⟨?_, ?_, ?_, ?_⟩
  · simp [Entity.AddComponent, Entity.GetComponent, umFind_umAssign_self]
  · apply List.count_eq_one_of_mem
    · exact umKeys_umAssign_nodup _ _ _ (umKeys_umAssign_nodup _ _ _ hkeys)
    · exact mem_umKeys_umAssign _ _ _
  · exact length_umAssign_of_mem _ _ _ (mem_umKeys_umAssign _ _ _)
  · intro U hU
    have hne : StaticID U ≠ StaticID T := fun h => hU (StaticID_injective U T h)
    simp [Entity.AddComponent, Entity.GetComponent, Entity.HasComponent,
      umFind_umAssign_ne _ _ _ _ hne]

/-- C6, witness: a Transform is added twice to an entity that holds a Renderable. -/
theorem C6_add_twice_replaces_witness :
    ((((Entity.new 1 "TestEntity").AddComponent .Renderable (some 11)).AddComponent
        .Transform (some 10)).AddComponent .Transform (some 12)).GetComponent .Transform =
      some 12 :=
  (C6_add_twice_replaces ((Entity.new 1 "TestEntity").AddComponent .Renderable (some 11))
    .Transform (some 10) (some 12) (by decide)).1

/-- C7: for every EntityManager state and every id that is not a key of the
registry, GetEntity(id) returns not-found and DestroyEntity(id) leaves the manager
as it was: every id resolves as before and CreateEntity returns the same id. -/
theorem C7_unknown_id_is_noop (em : EntityManager) (id : EntityID)
    (hid : id ∉ umKeys em.entities) :
    em.GetEntity id = none ∧
    em.DestroyEntity id = em ∧
    (∀ j, (em.DestroyEntity id).GetEntity j = em.GetEntity j) ∧
    ∀ name, ((em.DestroyEntity id).CreateEntity name).1 = (em.CreateEntity name).1 := by
  have hsame : em.DestroyEntity id = em := by
    simp [EntityManager.DestroyEntity, umErase_of_not_mem _ _ hid]
  refine ⟨(umFind_eq_none_iff _ _).mpr hid, hsame, ?_, ?_⟩
  · intro j; rw [hsame]
  · intro name; rw [hsame]

/-- C7, witness: id 5 is unknown to a manager that holds entities 1 and 2. -/
theorem C7_unknown_id_is_noop_witness :
    ((EntityManager.fresh.after [EMCall.create "a", EMCall.create "b"]).DestroyEntity 5) =
      EntityManager.fresh.after [EMCall.create "a", EMCall.create "b"] :=
  (C7_unknown_id_is_noop (EntityManager.fresh.after [EMCall.create "a", EMCall.create "b"]) 5
    (by decide)).2.1

/-! ## Facts about the event bus -/

theorem items_push_back (v : CallbackVec) (c : CallbackId) :
    (v.push_back c).items = v.items ++ [c] := by
  unfold CallbackVec.push_back
  split <;> rfl

theorem subscribersOf_of_find (bus : EventBus) (k : EventID) (v : CallbackVec)
    (h : umFind bus.subscribers k = some v) : bus.subscribersOf k = v.items := by
  simp [EventBus.subscribersOf, h]

theorem subscribersOf_Subscribe_self (bus : EventBus) (k : EventID) (c : CallbackId) :
    (bus.Subscribe k c).subscribersOf k = bus.subscribersOf k ++ [c] := by
  unfold EventBus.subscribersOf EventBus.Subscribe
  simp only [umFind_umAssign_self, items_push_back]
  cases umFind bus.subscribers k <;> rfl

theorem find_Subscribe_ne (bus : EventBus) (k j : EventID) (c : CallbackId) (hj : j ≠ k) :
    umFind (bus.Subscribe k c).subscribers j = umFind bus.subscribers j :=
  umFind_umAssign_ne _ _ _ _ hj

theorem subscribersOf_Subscribe_ne (bus : EventBus) (k j : EventID) (c : CallbackId)
    (hj : j ≠ k) : (bus.Subscribe k c).subscribersOf j = bus.subscribersOf j := by
  unfold EventBus.subscribersOf
  rw [find_Subscribe_ne bus k j c hj]

/-- A sequence of Subscribe calls appends, to the callbacks of each type, the
callbacks subscribed to that type, in call order. -/
theorem subscribersOf_subscribeAll (subs : List (EventID × CallbackId)) (k : EventID) :
    ∀ bus : EventBus, (bus.subscribeAll subs).subscribersOf k =
      bus.subscribersOf k ++ (subs.filter (fun p => decide (p.1 = k))).map Prod.snd := by
  induction subs with
  | nil => intro bus; simp [EventBus.subscribeAll]
  | cons p rest ih =>
    intro bus
    obtain ⟨j, c⟩ := p
    rw [EventBus.subscribeAll, ih]
    by_cases hj : j = k
    · subst hj
      simp [subscribersOf_Subscribe_self]
    · have hkj : k ≠ j := fun e => hj e.symm
      simp [subscribersOf_Subscribe_ne bus j k c hkj, hj]

theorem find_subscribeAll_of_ne (subs : List (EventID × CallbackId)) (k : EventID)
    (hsubs : ∀ p ∈ subs, p.1 ≠ k) :
    ∀ bus : EventBus, umFind (bus.subscribeAll subs).subscribers k = umFind bus.subscribers k := by
  induction subs with
  | nil => intro bus; rfl
  | cons p rest ih =>
    intro bus
    obtain ⟨j, c⟩ := p
    have hj : j ≠ k := hsubs (j, c) (List.mem_cons_self _ _)
    rw [EventBus.subscribeAll, ih (fun q hq => hsubs q (List.mem_cons_of_mem _ hq))]
    exact find_Subscribe_ne bus j k c (fun e => hj e.symm)

theorem iterable_eq_some (bus : EventBus) (k : EventID) (buffer : Nat) (v : CallbackVec)
    (h : bus.iterable k buffer = some v) :
    umFind bus.subscribers k = some v ∧ v.buffer = buffer := by
  unfold EventBus.iterable at h
  cases hfind : umFind bus.subscribers k with
  | none => simp [hfind] at h
  | some w =>
    simp only [hfind] at h
    by_cases hb : w.buffer = buffer
    · simp only [hb, if_true, Option.some.injEq] at h
      subst h
      exact ⟨rfl, hb⟩
    · simp [hb] at h

/-- The loop of `Publish`, when it returns, has invoked exactly the callbacks that
stood between its iterator and the `end()` it started with, in vector order. -/
theorem dispatch_invoked {σ : Type} (h : Handlers σ) (e : Event) (buffer : Nat)
    (orig : List CallbackId) :
    ∀ (remaining index : Nat) (bus : EventBus) (s : σ) (invoked : List (CallbackId × Event))
      (r : PublishResult σ),
      index + remaining = orig.length →
      (∃ extra, bus.subscribersOf e.eventType = orig ++ extra) →
      EventBus.dispatch h e buffer remaining index bus s invoked = some r →
      r.invoked = invoked ++ (orig.drop index).map (fun c => (c, e)) ∧
        ∃ extra, r.bus.subscribersOf e.eventType = orig ++ extra := by
  intro remaining
  induction remaining with
  | zero =>
    intro index bus s invoked r hlen hext hr
    unfold EventBus.dispatch at hr
    cases hit : bus.iterable e.eventType buffer with
    | none => simp [hit] at hr
    | some v =>
      simp only [hit, Option.some.injEq] at hr
      subst hr
      have : orig.drop index = [] := List.drop_eq_nil_of_le (by omega)
      simp [this, hext]
  | succ n ih =>
    intro index bus s invoked r hlen hext hr
    unfold EventBus.dispatch at hr
    cases hit : bus.iterable e.eventType buffer with
    | none => simp [hit] at hr
    | some v =>
      simp only [hit] at hr
      obtain ⟨extra, hextra⟩ := hext
      have hitems : v.items = orig ++ extra := by
        rw [← subscribersOf_of_find bus _ v (iterable_eq_some _ _ _ _ hit).1]
        exact hextra
      have hidx : index < orig.length := by omega
      have hget : v.items[index]? = some orig[index] := by
        rw [hitems, List.getElem?_append_left hidx, List.getElem?_eq_getElem hidx]
      simp only [hget] at hr
      cases hrun : h.run orig[index] e bus s with
      | none => simp [hrun] at hr
      | some out =>
        obtain ⟨subs, s'⟩ := out
        simp only [hrun] at hr
        have hext' : ∃ extra', (bus.subscribeAll subs).subscribersOf e.eventType =
            orig ++ extra' := by
          refine ⟨extra ++ (subs.filter (fun p => decide (p.1 = e.eventType))).map Prod.snd, ?_⟩
          rw [subscribersOf_subscribeAll, hextra, List.append_assoc]
        obtain ⟨hinv, hbus⟩ := ih (index + 1) _ s' _ r (by omega) hext' hr
        refine ⟨?_, hbus⟩
        have hd : orig.drop index = orig[index] :: orig.drop (index + 1) :=
          List.drop_eq_getElem_cons hidx
        rw [hinv, hd, List.map_cons, List.append_assoc]
        rfl

/-- A `Publish` call that returns has invoked exactly the callbacks subscribed
to the event's type when it was called, each once, in vector order, each with
the published event. -/
theorem Publish_invoked {σ : Type} (bus : EventBus) (h : Handlers σ) (s : σ) (e : Event)
    (r : PublishResult σ) (hr : bus.Publish h s e = some r) :
    r.invoked = (bus.subscribersOf e.eventType).map (fun c => (c, e)) := by
  unfold EventBus.Publish at hr
  cases hfind : umFind bus.subscribers e.eventType with
  | none =>
    simp only [hfind, Option.some.injEq] at hr
    subst hr
    simp [EventBus.subscribersOf, hfind]
  | some v =>
    simp only [hfind] at hr
    have hsub := subscribersOf_of_find bus _ v hfind
    have := (dispatch_invoked h e v.buffer v.items v.items.length 0 bus s [] r (by simp)
      ⟨[], by simp [hsub]⟩ hr).1
    simpa [hsub] using this

/-- The loop of `Publish` returns when every callback returns and none of them
subscribes to the type being dispatched. -/
theorem dispatch_quiet {σ : Type} (h : Handlers σ) (e : Event) (hq : h.Quiet e.eventType)
    (v : CallbackVec) :
    ∀ (remaining index : Nat) (bus : EventBus) (s : σ) (invoked : List (CallbackId × Event)),
      umFind bus.subscribers e.eventType = some v →
      index + remaining ≤ v.items.length →
      ∃ r, EventBus.dispatch h e v.buffer remaining index bus s invoked = some r := by
  intro remaining
  induction remaining with
  | zero =>
    intro index bus s invoked hfind _
    refine ⟨{ bus := bus, user := s, invoked := invoked }, ?_⟩
    simp [EventBus.dispatch, EventBus.iterable, hfind]
  | succ n ih =>
    intro index bus s invoked hfind hlen
    have hidx : index < v.items.length := by omega
    obtain ⟨subs, s', hrun, hsubs⟩ := hq v.items[index] e bus s rfl
    have hfind' : umFind (bus.subscribeAll subs).subscribers e.eventType = some v := by
      rw [find_subscribeAll_of_ne subs _ hsubs]; exact hfind
    obtain ⟨r, hr⟩ := ih (index + 1) (bus.subscribeAll subs) s'
      (invoked ++ [(v.items[index], e)]) hfind' (by omega)
    refine ⟨r, ?_⟩
    unfold EventBus.dispatch
    simp [EventBus.iterable, hfind, List.getElem?_eq_getElem hidx, hrun, hr]

theorem Publish_quiet {σ : Type} (bus : EventBus) (h : Handlers σ) (s : σ) (e : Event)
    (hq : h.Quiet e.eventType) : ∃ r, bus.Publish h s e = some r := by
  unfold EventBus.Publish
  cases hfind : umFind bus.subscribers e.eventType with
  | none => exact ⟨_, rfl⟩
  | some v => exact dispatch_quiet h e hq v v.items.length 0 bus s [] hfind (by simp)

theorem passive_quiet (k : EventID) : Handlers.passive.Quiet k := by
  intro callback event bus s _
  exact ⟨[], s, rfl, by simp⟩

/-- A subscription made to a full vector while `Publish` walks it leaves the walk
with invalidated iterators. -/
theorem Publish_undefined_of_full {σ : Type} (bus : EventBus) (h : Handlers σ) (s s' : σ)
    (e : Event) (v : CallbackVec) (c g : CallbackId) (rest : List CallbackId)
    (hfind : umFind bus.subscribers e.eventType = some v) (hitems : v.items = c :: rest)
    (hfull : v.capacity ≤ v.items.length)
    (hrun : h.run c e bus s = some ([(e.eventType, g)], s')) :
    bus.Publish h s e = none := by
  have hlost : ∀ w, umFind (bus.Subscribe e.eventType g).subscribers e.eventType = some w →
      w.buffer ≠ v.buffer := by
    intro w hw
    have hnot : ¬ v.items.length < v.capacity := by omega
    simp only [EventBus.Subscribe, umFind_umAssign_self, hfind, Option.getD_some,
      CallbackVec.push_back, hnot, if_false, Option.some.injEq] at hw
    subst hw
    simp
  have hiter : (bus.Subscribe e.eventType g).iterable e.eventType v.buffer = none := by
    unfold EventBus.iterable
    cases hw : umFind (bus.Subscribe e.eventType g).subscribers e.eventType with
    | none => rfl
    | some w => simp [hlost w hw]
  unfold EventBus.Publish
  simp only [hfind, hitems, List.length_cons]
  unfold EventBus.dispatch
  simp only [EventBus.iterable, hfind, if_true, hitems, List.getElem?_cons_zero, hrun,
    EventBus.subscribeAll]
  cases rest.length with
  | zero => simp [EventBus.dispatch, hiter]
  | succ n => simp [EventBus.dispatch, hiter]

/-- The loop of `Publish`, when it returns, leaves the bus and the client's data
as the callbacks between its iterator and its `end()`, run one after the other,
leave them. -/
theorem dispatch_effects {σ : Type} (h : Handlers σ) (e : Event) (buffer : Nat)
    (orig : List CallbackId) :
    ∀ (remaining index : Nat) (bus : EventBus) (s : σ) (invoked : List (CallbackId × Event))
      (r : PublishResult σ),
      index + remaining = orig.length →
      (∃ extra, bus.subscribersOf e.eventType = orig ++ extra) →
      EventBus.dispatch h e buffer remaining index bus s invoked = some r →
      h.runAll e (orig.drop index) bus s = some (r.bus, r.user) := by
  intro remaining
  induction remaining with
  | zero =>
    intro index bus s invoked r hlen _ hr
    unfold EventBus.dispatch at hr
    cases hit : bus.iterable e.eventType buffer with
    | none => simp [hit] at hr
    | some v =>
      simp only [hit, Option.some.injEq] at hr
      subst hr
      have : orig.drop index = [] := List.drop_eq_nil_of_le (by omega)
      simp [this, Handlers.runAll]
  | succ n ih =>
    intro index bus s invoked r hlen hext hr
    unfold EventBus.dispatch at hr
    cases hit : bus.iterable e.eventType buffer with
    | none => simp [hit] at hr
    | some v =>
      simp only [hit] at hr
      obtain ⟨extra, hextra⟩ := hext
      have hitems : v.items = orig ++ extra := by
        rw [← subscribersOf_of_find bus _ v (iterable_eq_some _ _ _ _ hit).1]
        exact hextra
      have hidx : index < orig.length := by omega
      have hget : v.items[index]? = some orig[index] := by
        rw [hitems, List.getElem?_append_left hidx, List.getElem?_eq_getElem hidx]
      simp only [hget] at hr
      cases hrun : h.run orig[index] e bus s with
      | none => simp [hrun] at hr
      | some out =>
        obtain ⟨subs, s'⟩ := out
        simp only [hrun] at hr
        have hext' : ∃ extra', (bus.subscribeAll subs).subscribersOf e.eventType =
            orig ++ extra' := by
          refine ⟨extra ++ (subs.filter (fun p => decide (p.1 = e.eventType))).map Prod.snd, ?_⟩
          rw [subscribersOf_subscribeAll, hextra, List.append_assoc]
        have := ih (index + 1) _ s' _ r (by omega) hext' hr
        rw [List.drop_eq_getElem_cons hidx, Handlers.runAll, hrun]
        exact this

/-- A `Publish` call that returns leaves the bus and the client's data as the
callbacks subscribed to the event's type when it was called, run one after the
other in vector order, leave them. -/
theorem Publish_effects {σ : Type} (bus : EventBus) (h : Handlers σ) (s : σ) (e : Event)
    (r : PublishResult σ) (hr : bus.Publish h s e = some r) :
    h.runAll e (bus.subscribersOf e.eventType) bus s = some (r.bus, r.user) := by
  unfold EventBus.Publish at hr
  cases hfind : umFind bus.subscribers e.eventType with
  | none =>
    simp only [hfind, Option.some.injEq] at hr
    subst hr
    simp [EventBus.subscribersOf, hfind, Handlers.runAll]
  | some v =>
    simp only [hfind] at hr
    have hsub := subscribersOf_of_find bus _ v hfind
    have := dispatch_effects h e v.buffer v.items v.items.length 0 bus s [] r (by simp)
      ⟨[], by simp [hsub]⟩ hr
    simpa [hsub] using this

/-- The loop of `Publish` returns when the callbacks it has yet to invoke, run one
after the other, return without subscribing anything. -/
theorem dispatch_of_runAll {σ : Type} (h : Handlers σ) (e : Event) (v : CallbackVec)
    (bus : EventBus) (hfind : umFind bus.subscribers e.eventType = some v)
    (hsilent : ∀ c b s out, h.run c e b s = some out → out.1 = []) :
    ∀ (remaining index : Nat) (s : σ) (invoked : List (CallbackId × Event)) (out : EventBus × σ),
      index + remaining = v.items.length →
      h.runAll e (v.items.drop index) bus s = some out →
      ∃ r, EventBus.dispatch h e v.buffer remaining index bus s invoked = some r ∧
        r.bus = bus ∧ r.user = out.2 := by
  intro remaining
  induction remaining with
  | zero =>
    intro index s invoked out hlen hrun
    have : v.items.drop index = [] := List.drop_eq_nil_of_le (by omega)
    rw [this, Handlers.runAll] at hrun
    refine ⟨{ bus := bus, user := s, invoked := invoked }, ?_, rfl, ?_⟩
    · simp [EventBus.dispatch, EventBus.iterable, hfind]
    · simp only [Option.some.injEq] at hrun
      rw [← hrun]
  | succ n ih =>
    intro index s invoked out hlen hrun
    have hidx : index < v.items.length := by omega
    rw [List.drop_eq_getElem_cons hidx, Handlers.runAll] at hrun
    cases hc : h.run v.items[index] e bus s with
    | none => simp [hc] at hrun
    | some o =>
      obtain ⟨subs, s'⟩ := o
      have hsubs : subs = [] := hsilent _ _ _ _ hc
      subst hsubs
      simp only [hc, EventBus.subscribeAll] at hrun
      obtain ⟨r, hr, hb, hu⟩ := ih (index + 1) s' (invoked ++ [(v.items[index], e)]) out
        (by omega) hrun
      refine ⟨r, ?_, hb, hu⟩
      unfold EventBus.dispatch
      simp [EventBus.iterable, hfind, List.getElem?_eq_getElem hidx, hc, EventBus.subscribeAll,
        hr]

/-- `Publish` returns, with the bus as it was, when the subscribed callbacks, run
one after the other, return without subscribing anything. -/
theorem Publish_of_runAll {σ : Type} (bus : EventBus) (h : Handlers σ) (s : σ) (e : Event)
    (out : EventBus × σ) (hsilent : ∀ c b s out, h.run c e b s = some out → out.1 = [])
    (hrun : h.runAll e (bus.subscribersOf e.eventType) bus s = some out) :
    ∃ r, bus.Publish h s e = some r ∧ r.bus = bus ∧ r.user = out.2 := by
  unfold EventBus.Publish
  cases hfind : umFind bus.subscribers e.eventType with
  | none =>
    simp only [EventBus.subscribersOf, hfind, Handlers.runAll, Option.some.injEq] at hrun
    exact ⟨_, rfl, rfl, by rw [← hrun]⟩
  | some v =>
    have hsub := subscribersOf_of_find bus _ v hfind
    rw [hsub] at hrun
    exact dispatch_of_runAll h e v bus hfind hsilent v.items.length 0 s [] out (by simp)
      (by simpa using hrun)

theorem counting_silent (f : CallbackId) (e : Event) :
    ∀ c b s out, (Handlers.counting f).run c e b s = some out → out.1 = [] := by
  intro c b s out h
  simp only [Handlers.counting] at h
  split_ifs at h <;> simp only [Option.some.injEq] at h <;> rw [← h]

/-- The counting callbacks other than `f` leave `callCount` alone. -/
theorem runAll_counting_others (f : CallbackId) (e : Event) (l : List CallbackId)
    (hf : f ∉ l) (bus : EventBus) (n : Int) :
    (Handlers.counting f).runAll e l bus n = some (bus, n) := by
  induction l with
  | nil => rfl
  | cons c rest ih =>
    have hc : c ≠ f := fun h => hf (h ▸ List.mem_cons_self _ _)
    have hrest : f ∉ rest := fun h => hf (List.mem_cons_of_mem _ h)
    have hrun : (Handlers.counting f).run c e bus n = some ([], n) := by
      simp [Handlers.counting, hc]
    rw [Handlers.runAll, hrun]
    exact ih hrest

theorem runAll_append {σ : Type} (h : Handlers σ) (e : Event) (l1 l2 : List CallbackId) :
    ∀ (bus : EventBus) (s : σ), h.runAll e (l1 ++ l2) bus s =
      match h.runAll e l1 bus s with
      | none => none
      | some (b, s') => h.runAll e l2 b s' := by
  induction l1 with
  | nil => intro bus s; rfl
  | cons c rest ih =>
    intro bus s
    simp only [List.cons_append, Handlers.runAll]
    cases h.run c e bus s with
    | none => rfl
    | some out => exact ih _ _

/-- The recording callbacks append themselves to the log in the order of the
list. -/
theorem runAll_recording (e : Event) (l : List CallbackId) :
    ∀ (bus : EventBus) (log : List (CallbackId × Event)),
      Handlers.recording.runAll e l bus log = some (bus, log ++ l.map (fun c => (c, e))) := by
  induction l with
  | nil => intro bus log; simp [Handlers.runAll]
  | cons c rest ih =>
    intro bus log
    have hrun : Handlers.recording.run c e bus log = some ([], log ++ [(c, e)]) := rfl
    rw [Handlers.runAll, hrun]
    simp only [EventBus.subscribeAll]
    rw [ih]
    simp

theorem recording_silent (e : Event) :
    ∀ c b s out, Handlers.recording.run c e b s = some out → out.1 = [] := by
  intro c b s out h
  simp only [Handlers.recording, Option.some.injEq] at h
  rw [← h]

/-! ## The claims about the event bus -/

/-- C8: for every bus, every event type k and every callback f that is not
subscribed to any type: after Subscribe(k, f), a Publish call for an event of type
k that returns has invoked f exactly once, with that event, and a Publish call for
an event of another type that returns has not invoked f; both calls do return
when the callbacks return and do not subscribe to the type being dispatched; a
call that returns leaves the bus and the client's data as the subscribed
callbacks, run one after the other with f last, leave them. With the callbacks
of the test EventBus_Subscribe, where f increments callCount, Publish of an event
of type k returns with callCount one higher, and Publish of an event of another
type returns with callCount as it was. -/
theorem C8_subscribe_then_publish {σ : Type} (h : Handlers σ) (bus : EventBus)
    (k : EventID) (f : CallbackId) (s : σ) (e e2 : Event)
    (hf : ∀ j, f ∉ bus.subscribersOf j) (he : e.eventType = k) (he2 : e2.eventType ≠ k) :
    (∀ r, (bus.Subscribe k f).Publish h s e = some r →
      r.invoked.filter (fun p => decide (p.1 = f)) = [(f, e)]) ∧
    (∀ r, (bus.Subscribe k f).Publish h s e2 = some r → ∀ p ∈ r.invoked, p.1 ≠ f) ∧
    (h.Quiet k → ∃ r, (bus.Subscribe k f).Publish h s e = some r) ∧
    (h.Quiet e2.eventType → ∃ r, (bus.Subscribe k f).Publish h s e2 = some r) ∧
    (∀ r, (bus.Subscribe k f).Publish h s e = some r →
      h.runAll e (bus.subscribersOf k ++ [f]) (bus.Subscribe k f) s = some (r.bus, r.user)) ∧
    (∀ callCount : Int, callCount < 2147483647 →
      ∃ r, (bus.Subscribe k f).Publish (Handlers.counting f) callCount e = some r ∧
        r.user = callCount + 1 ∧ r.bus = bus.Subscribe k f) ∧
    (∀ callCount : Int,
      ∃ r, (bus.Subscribe k f).Publish (Handlers.counting f) callCount e2 = some r ∧
        r.user = callCount ∧ r.bus = bus.Subscribe k f) := by
  refine ⟨?_, ?_, ?_, ?_, ?_, ?_, ?_⟩
  · intro r hr
    rw [Publish_invoked _ h s e r hr, he, subscribersOf_Subscribe_self, List.map_append,
      List.filter_append]
    have hold : ((bus.subscribersOf k).map (fun c => (c, e))).filter
        (fun p => decide (p.1 = f)) = [] := by
      rw [List.filter_eq_nil_iff]
      intro p hp
      obtain ⟨c, hc, rfl⟩ := List.mem_map.mp hp
      have : c ≠ f := fun hcf => hf k (hcf ▸ hc)
      simpa using this
    rw [hold]
    simp
  · intro r hr p hp hpf
    rw [Publish_invoked _ h s e2 r hr, subscribersOf_Subscribe_ne bus k _ f he2] at hp
    obtain ⟨c, hc, rfl⟩ := List.mem_map.mp hp
    exact hf e2.eventType (hpf ▸ hc)
  · intro hq
    exact Publish_quiet _ h s e (he ▸ hq)
  · intro hq
    exact Publish_quiet _ h s e2 hq
  · intro r hr
    have := Publish_effects _ h s e r hr
    rwa [he, subscribersOf_Subscribe_self] at this
  · intro callCount hc
    have hrun : (Handlers.counting f).runAll e ((bus.Subscribe k f).subscribersOf e.eventType)
        (bus.Subscribe k f) callCount = some (bus.Subscribe k f, callCount + 1) := by
      rw [he, subscribersOf_Subscribe_self, runAll_append,
        runAll_counting_others f e _ (hf k)]
      have hne : callCount ≠ 2147483647 := by omega
      have hrunf : (Handlers.counting f).run f e (bus.Subscribe k f) callCount =
          some ([], callCount + 1) := by
        simp [Handlers.counting, hne]
      simp only [Handlers.runAll, hrunf, EventBus.subscribeAll]
    obtain ⟨r, hr, hb, hu⟩ := Publish_of_runAll _ _ callCount e _ (counting_silent f e) hrun
    exact ⟨r, hr, hu, hb⟩
  · intro callCount
    have hrun : (Handlers.counting f).runAll e2
        ((bus.Subscribe k f).subscribersOf e2.eventType) (bus.Subscribe k f) callCount =
        some (bus.Subscribe k f, callCount) := by
      rw [subscribersOf_Subscribe_ne bus k _ f he2]
      exact runAll_counting_others f e2 _ (hf e2.eventType) _ _
    obtain ⟨r, hr, hb, hu⟩ := Publish_of_runAll _ _ callCount e2 _ (counting_silent f e2) hrun
    exact ⟨r, hr, hu, hb⟩

/-- C8, witness: the test EventBus_Subscribe of Tests.cpp, one callback on a fresh
bus and callCount 0: an event of type 1 leaves callCount at 1, an event of type 2
at 0. -/
theorem C8_subscribe_then_publish_witness :
    (∃ r, (EventBus.fresh.Subscribe 1 7).Publish (Handlers.counting 7) 0
        { eventType := 1, payload := 0 } = some r ∧ r.user = 0 + 1 ∧
        r.bus = EventBus.fresh.Subscribe 1 7) ∧
    (∃ r, (EventBus.fresh.Subscribe 1 7).Publish (Handlers.counting 7) 0
        { eventType := 2, payload := 0 } = some r ∧ r.user = 0 ∧
        r.bus = EventBus.fresh.Subscribe 1 7) :=
  ⟨(C8_subscribe_then_publish Handlers.passive EventBus.fresh 1 7 ()
      { eventType := 1, payload := 0 } { eventType := 2, payload := 0 }
      (fun j => by simp [EventBus.subscribersOf, EventBus.fresh, umFind]) rfl
      (by decide)).2.2.2.2.2.1 0 (by decide),
   (C8_subscribe_then_publish Handlers.passive EventBus.fresh 1 7 ()
      { eventType := 1, payload := 0 } { eventType := 2, payload := 0 }
      (fun j => by simp [EventBus.subscribersOf, EventBus.fresh, umFind]) rfl
      (by decide)).2.2.2.2.2.2 0⟩

/-- C9: for every sequence of Subscribe calls on a fresh bus, a Publish call that
returns has invoked exactly the callbacks subscribed to the event's type, in the
order of their Subscribe calls, whatever was subscribed to other types in
between, and leaves the bus and the client's data as those callbacks, run one
after the other in that order, leave them; the call returns when the callbacks
return and do not subscribe to the type being dispatched; when no callback was
subscribed to the type it returns with nothing invoked and the bus and the
client's data unchanged. With callbacks that log their invocations, Publish
returns with the subscribers of the type appended to the log in subscription
order, each with the published event. -/
theorem C9_publish_in_subscription_order {σ : Type} (h : Handlers σ)
    (subs : List (EventID × CallbackId)) (s : σ) (e : Event) :
    (∀ r, (EventBus.fresh.subscribeAll subs).Publish h s e = some r →
      r.invoked =
        (subs.filter (fun p => decide (p.1 = e.eventType))).map (fun p => (p.2, e))) ∧
    (h.Quiet e.eventType → ∃ r, (EventBus.fresh.subscribeAll subs).Publish h s e = some r) ∧
    ((∀ p ∈ subs, p.1 ≠ e.eventType) →
      (EventBus.fresh.subscribeAll subs).Publish h s e =
        some { bus := EventBus.fresh.subscribeAll subs, user := s, invoked := [] }) ∧
    (∀ r, (EventBus.fresh.subscribeAll subs).Publish h s e = some r →
      h.runAll e ((subs.filter (fun p => decide (p.1 = e.eventType))).map Prod.snd)
        (EventBus.fresh.subscribeAll subs) s = some (r.bus, r.user)) ∧
    (∀ log : List (CallbackId × Event),
      ∃ r, (EventBus.fresh.subscribeAll subs).Publish Handlers.recording log e = some r ∧
        r.user = log ++
          (subs.filter (fun p => decide (p.1 = e.eventType))).map (fun p => (p.2, e)) ∧
        r.bus = EventBus.fresh.subscribeAll subs) := by
  have hsubs : (EventBus.fresh.subscribeAll subs).subscribersOf e.eventType =
      (subs.filter (fun p => decide (p.1 = e.eventType))).map Prod.snd := by
    rw [subscribersOf_subscribeAll]
    simp [EventBus.subscribersOf, EventBus.fresh, umFind]
  refine ⟨?_, ?_, ?_, ?_, ?_⟩
  · intro r hr
    rw [Publish_invoked _ h s e r hr, hsubs]
    simp [List.map_map, Function.comp]
  · intro hq
    exact Publish_quiet _ h s e hq
  · intro hno
    have hfind : umFind (EventBus.fresh.subscribeAll subs).subscribers e.eventType = none := by
      rw [find_subscribeAll_of_ne subs _ hno]
      rfl
    simp [EventBus.Publish, hfind]
  · intro r hr
    have := Publish_effects _ h s e r hr
    rwa [hsubs] at this
  · intro log
    obtain ⟨r, hr, hb, hu⟩ := Publish_of_runAll (EventBus.fresh.subscribeAll subs)
      Handlers.recording log e _ (recording_silent e) (runAll_recording e _ _ log)
    refine ⟨r, hr, ?_, hb⟩
    rw [hu, hsubs]
    simp [List.map_map, Function.comp]

/-- C9, witness: callbacks 7 and 8 subscribe to type 1 with callback 5 of type 2
between them; an event of type 1 reaches 7 then 8, an event of type 3 nobody. -/
theorem C9_publish_in_subscription_order_witness :
    (∃ r, (EventBus.fresh.subscribeAll [(1, 7), (2, 5), (1, 8)]).Publish Handlers.recording []
        { eventType := 1, payload := 0 } = some r ∧
      r.user = [] ++ (([(1, 7), (2, 5), (1, 8)] : List (EventID × CallbackId)).filter
          (fun p => decide (p.1 = 1))).map
            (fun p => (p.2, ({ eventType := 1, payload := 0 } : Event))) ∧
      r.bus = EventBus.fresh.subscribeAll [(1, 7), (2, 5), (1, 8)]) ∧
    (EventBus.fresh.subscribeAll [(1, 7), (2, 5), (1, 8)]).Publish Handlers.passive ()
        { eventType := 3, payload := 0 } =
      some { bus := EventBus.fresh.subscribeAll [(1, 7), (2, 5), (1, 8)], user := (),
             invoked := [] } :=
  ⟨(C9_publish_in_subscription_order Handlers.passive [(1, 7), (2, 5), (1, 8)] ()
      { eventType := 1, payload := 0 }).2.2.2.2 [],
   (C9_publish_in_subscription_order Handlers.passive [(1, 7), (2, 5), (1, 8)] ()
      { eventType := 3, payload := 0 }).2.2.1 (by decide)⟩

/-- C10 (code defect): callbacks 7 and 8 are subscribed to type 1 on a fresh bus,
which fills the vector (size 2, capacity 2), and callback 7 calls Subscribe(1, 9)
when invoked. Publish of an event of type 1 then walks a vector that was
reallocated under its iterators: the call has undefined behaviour, so callback 8,
subscribed before the Publish began, is not guaranteed its invocation. -/
theorem C10_subscribe_during_dispatch_is_undefined :
    ((EventBus.fresh.Subscribe 1 7).Subscribe 1 8).Publish Handlers.resubscribing ()
      { eventType := 1, payload := 0 } = none := by
  decide

/-! ## Facts about the geometry tests -/

/-- An operation whose exact result is at most `2 ^ k` in magnitude, `k` up to 127,
does not overflow, and its result is at most `2 ^ k` in magnitude. -/
theorem toF32_bounded (k : Int) (h1 : -149 ≤ k) (h2 : k ≤ 127) (q : ℚ) (h : |q| ≤ pow2 k) :
    toF32 q = some (round32 q) ∧ |round32 q| ≤ pow2 k := by
  obtain ⟨x, hx, hlo, hhi⟩ := toF32_between (-pow2 k) (pow2 k) q
    (isF32_neg _ (isF32_pow2 k h1 h2)) (isF32_pow2 k h1 h2) (neg_le_of_abs_le h) (le_of_abs_le h)
  have hxe := (toF32_eq_some q x hx).1
  subst hxe
  exact ⟨hx, abs_le.mpr ⟨hlo, hhi⟩⟩

theorem pow2_double (k : Int) : pow2 k + pow2 k = pow2 (k + 1) := by
  rw [pow2_add]
  have : pow2 1 = 2 := by rw [pow2_eq]; norm_num
  rw [this]
  ring

theorem sqDiff32_nonneg (a b : ℚ) : 0 ≤ sqDiff32 a b :=
  round32_nonneg _ (mul_self_nonneg _)

theorem sqDiff32_comm (a b : ℚ) : sqDiff32 a b = sqDiff32 b a := by
  unfold sqDiff32
  have : b - a = -(a - b) := by ring
  rw [this, round32_neg]
  congr 1
  ring

theorem sqDiff32_self (a : ℚ) : sqDiff32 a a = 0 := by
  unfold sqDiff32
  rw [sub_self, round32_zero, mul_zero, round32_zero]

theorem sqDiff32_of_abs (a b r : ℚ) (hr : round32 r = r) (h : |a - b| = r) :
    sqDiff32 a b = round32 (r * r) := by
  unfold sqDiff32
  rcases abs_choice (a - b) with h1 | h1
  · rw [h1] at h
    rw [h, hr]
  · rw [h1] at h
    have h2 : a - b = -r := by linarith
    rw [h2, round32_neg, hr]
    congr 1
    ring

theorem sqDiff32_mono (a b c d : ℚ) (h1 : 0 ≤ a - b) (h2 : a - b ≤ c - d) :
    sqDiff32 a b ≤ sqDiff32 c d := by
  unfold sqDiff32
  apply round32_mono
  have hx := round32_nonneg _ h1
  have hxy := round32_mono _ _ h2
  exact mul_le_mul hxy hxy hx (le_trans hx hxy)

/-- The statement `sqDist += (a - b) * (a - b)` does not overflow on small
operands. -/
theorem addSquare_small (acc a b : ℚ) (k : Int) (hk1 : 122 ≤ k) (hk2 : k ≤ 126)
    (hacc : |acc| ≤ pow2 k) (ha : IsSmall a) (hb : IsSmall b) :
    addSquare acc a b = some (round32 (acc + sqDiff32 a b)) ∧
      |round32 (acc + sqDiff32 a b)| ≤ pow2 (k + 1) := by
  unfold IsSmall at ha hb
  have hd : |a - b| ≤ pow2 61 := by
    rw [show (61 : Int) = 60 + 1 from rfl, ← pow2_double]
    rw [abs_le] at *
    constructor <;> linarith
  obtain ⟨e1, b1⟩ := toF32_bounded 61 (by norm_num) (by norm_num) (a - b) hd
  have hm : |round32 (a - b) * round32 (a - b)| ≤ pow2 122 := by
    rw [abs_mul, show (122 : Int) = 61 + 61 from rfl, pow2_add]
    exact mul_le_mul b1 b1 (abs_nonneg _) (le_of_lt (pow2_pos _))
  obtain ⟨e2, b2⟩ := toF32_bounded 122 (by norm_num) (by norm_num) _ hm
  have hs : |acc + sqDiff32 a b| ≤ pow2 (k + 1) := by
    rw [← pow2_double]
    have hle : pow2 122 ≤ pow2 k := pow2_le _ _ hk1
    have b2' : |sqDiff32 a b| ≤ pow2 122 := b2
    rw [abs_le] at *
    constructor <;> linarith
  obtain ⟨e3, b3⟩ := toF32_bounded (k + 1) (by omega) (by omega) _ hs
  refine ⟨?_, b3⟩
  unfold addSquare F32.sub F32.mul F32.add
  rw [e1, Option.some_bind, e2, Option.some_bind]
  exact e3

theorem sqDistStep_small (acc v lo hi : ℚ) (k : Int) (hk1 : 122 ≤ k) (hk2 : k ≤ 126)
    (hacc : |acc| ≤ pow2 k) (hv : IsSmall v) (hlo : IsSmall lo) (hhi : IsSmall hi) :
    sqDistStep acc v lo hi = some (sqDistStep32 acc v lo hi) ∧
      |sqDistStep32 acc v lo hi| ≤ pow2 (k + 1) := by
  unfold sqDistStep sqDistStep32
  split_ifs with h1 h2
  · exact addSquare_small acc lo v k hk1 hk2 hacc hlo hv
  · exact addSquare_small acc v hi k hk1 hk2 hacc hv hhi
  · exact ⟨rfl, le_trans hacc (pow2_le _ _ (by omega))⟩

/-- One iteration of the loop adds no more than the square for any coordinate
between the bounds. -/
theorem sqDistStep32_le (acc acc' v lo hi q : ℚ) (hacc : acc ≤ acc')
    (hrep : round32 acc' = acc') (h1 : lo ≤ q) (h2 : q ≤ hi) :
    sqDistStep32 acc v lo hi ≤ round32 (acc' + sqDiff32 q v) := by
  unfold sqDistStep32
  split_ifs with ha hb
  · apply round32_mono
    have := sqDiff32_mono lo v q v (by linarith) (by linarith)
    linarith
  · apply round32_mono
    have := sqDiff32_mono v hi v q (by linarith) (by linarith)
    rw [sqDiff32_comm q v]
    linarith
  · have := round32_mono acc' (acc' + sqDiff32 q v) (by linarith [sqDiff32_nonneg q v])
    rw [hrep] at this
    linarith

/-- One iteration of the loop adds the square for the coordinate clamped to the
bounds. -/
theorem sqDistStep32_clamp (acc v lo hi : ℚ) (hrep : round32 acc = acc) :
    sqDistStep32 acc v lo hi =
      round32 (acc + sqDiff32 (if v < lo then lo else if v > hi then hi else v) v) := by
  unfold sqDistStep32
  split_ifs with ha hb
  · rfl
  · rw [sqDiff32_comm]
  · rw [sqDiff32_self, add_zero, hrep]

theorem sqDistStep32_rep (acc v lo hi : ℚ) (hrep : round32 acc = acc) :
    round32 (sqDistStep32 acc v lo hi) = sqDistStep32 acc v lo hi := by
  unfold sqDistStep32
  split_ifs
  · exact round32_idem _
  · exact round32_idem _
  · exact hrep

theorem distSqF32_small (p q : Vec3) (hp : p.Small) (hq : q.Small) :
    distSqF32 p q = some (distSq32 p q) := by
  have h0 : |(0 : ℚ)| ≤ pow2 122 := by rw [abs_zero]; exact le_of_lt (pow2_pos _)
  obtain ⟨e1, b1⟩ := addSquare_small 0 p.x q.x 122 (by norm_num) (by norm_num) h0 hp.1 hq.1
  obtain ⟨e2, b2⟩ := addSquare_small _ p.y q.y 123 (by norm_num) (by norm_num) b1 hp.2.1 hq.2.1
  obtain ⟨e3, _⟩ := addSquare_small _ p.z q.z 124 (by norm_num) (by norm_num) b2 hp.2.2 hq.2.2
  unfold distSqF32 distSq32
  rw [e1, Option.some_bind, e2, Option.some_bind, e3]

/-- On small operands `Sphere::Intersects(const AABB&)` overflows nowhere. -/
theorem intersectsAABB_small (s : Sphere) (aabb : AABB) (hs : s.center.Small)
    (hr : IsSmall s.radius) (hmin : aabb.min.Small) (hmax : aabb.max.Small) :
    s.IntersectsAABB aabb = some (decide
      (sqDistStep32 (sqDistStep32 (sqDistStep32 0 s.center.x aabb.min.x aabb.max.x)
          s.center.y aabb.min.y aabb.max.y) s.center.z aabb.min.z aabb.max.z ≤
        round32 (s.radius * s.radius))) := by
  have h0 : |(0 : ℚ)| ≤ pow2 122 := by rw [abs_zero]; exact le_of_lt (pow2_pos _)
  obtain ⟨e1, b1⟩ := sqDistStep_small 0 s.center.x aabb.min.x aabb.max.x 122 (by norm_num)
    (by norm_num) h0 hs.1 hmin.1 hmax.1
  obtain ⟨e2, b2⟩ := sqDistStep_small _ s.center.y aabb.min.y aabb.max.y 123 (by norm_num)
    (by norm_num) b1 hs.2.1 hmin.2.1 hmax.2.1
  obtain ⟨e3, _⟩ := sqDistStep_small _ s.center.z aabb.min.z aabb.max.z 124 (by norm_num)
    (by norm_num) b2 hs.2.2 hmin.2.2 hmax.2.2
  have hrr : |s.radius * s.radius| ≤ pow2 120 := by
    unfold IsSmall at hr
    rw [abs_mul, show (120 : Int) = 60 + 60 from rfl, pow2_add]
    exact mul_le_mul hr hr (abs_nonneg _) (le_of_lt (pow2_pos _))
  obtain ⟨e4, _⟩ := toF32_bounded 120 (by norm_num) (by norm_num) _ hrr
  unfold Sphere.IntersectsAABB F32.mul
  simp only [Vec3.get]
  rw [e1, Option.some_bind, e2, Option.some_bind, e3, Option.some_bind, e4, Option.some_bind]

theorem AABB.contains_iff (b : AABB) (q : Vec3) :
    b.Contains q = true ↔
      (b.min.x ≤ q.x ∧ q.x ≤ b.max.x) ∧ (b.min.y ≤ q.y ∧ q.y ≤ b.max.y) ∧
        (b.min.z ≤ q.z ∧ q.z ≤ b.max.z) := by
  simp [AABB.Contains, and_assoc]

/-- A point between two small points is small. -/
theorem small_between (lo hi q : ℚ) (hlo : IsSmall lo) (hhi : IsSmall hi) (h1 : lo ≤ q)
    (h2 : q ≤ hi) : IsSmall q := by
  unfold IsSmall at *
  rw [abs_le] at *
  constructor <;> linarith

theorem small_of_contains (b : AABB) (q : Vec3) (hmin : b.min.Small) (hmax : b.max.Small)
    (hq : b.Contains q = true) : q.Small := by
  obtain ⟨⟨lx, ux⟩, ⟨ly, uy⟩, ⟨lz, uz⟩⟩ := (AABB.contains_iff _ _).mp hq
  exact ⟨small_between _ _ _ hmin.1 hmax.1 lx ux, small_between _ _ _ hmin.2.1 hmax.2.1 ly uy,
    small_between _ _ _ hmin.2.2 hmax.2.2 lz uz⟩

theorem clamp_contained (b : AABB) (hv : b.Valid) (p : Vec3) : b.Contains (b.clamp p) = true := by
  obtain ⟨hx, hy, hz⟩ := hv
  rw [AABB.contains_iff]
  unfold AABB.clamp
  refine ⟨⟨?_, ?_⟩, ⟨?_, ?_⟩, ⟨?_, ?_⟩⟩ <;> simp only <;> split_ifs <;> linarith

/-- The `float` value of `sqDist` after the loop is the `float` squared distance
from the centre to the nearest point of the box, and no point of the box has a
smaller one. -/
theorem sqDist_loop (c : Vec3) (aabb : AABB) :
    sqDistStep32 (sqDistStep32 (sqDistStep32 0 c.x aabb.min.x aabb.max.x)
        c.y aabb.min.y aabb.max.y) c.z aabb.min.z aabb.max.z = distSq32 (aabb.clamp c) c ∧
    ∀ q, aabb.Contains q = true →
      sqDistStep32 (sqDistStep32 (sqDistStep32 0 c.x aabb.min.x aabb.max.x)
        c.y aabb.min.y aabb.max.y) c.z aabb.min.z aabb.max.z ≤ distSq32 q c := by
  have r0 : round32 (0 : ℚ) = 0 := round32_zero
  have r1 := sqDistStep32_rep 0 c.x aabb.min.x aabb.max.x r0
  have r2 := sqDistStep32_rep _ c.y aabb.min.y aabb.max.y r1
  constructor
  · unfold distSq32 AABB.clamp
    simp only
    rw [← sqDistStep32_clamp 0 c.x aabb.min.x aabb.max.x r0,
      ← sqDistStep32_clamp _ c.y aabb.min.y aabb.max.y r1,
      ← sqDistStep32_clamp _ c.z aabb.min.z aabb.max.z r2]
  · intro q hq
    obtain ⟨⟨lx, ux⟩, ⟨ly, uy⟩, ⟨lz, uz⟩⟩ := (AABB.contains_iff _ _).mp hq
    unfold distSq32
    have s1 := sqDistStep32_le 0 0 c.x aabb.min.x aabb.max.x q.x (le_refl _) r0 lx ux
    have s2 := sqDistStep32_le _ _ c.y aabb.min.y aabb.max.y q.y s1 (round32_idem _) ly uy
    exact sqDistStep32_le _ _ c.z aabb.min.z aabb.max.z q.z s2 (round32_idem _) lz uz

theorem isWhole_cast (q : ℚ) (h : IsWhole q) : ∃ n : Int, q = (n : ℚ) ∧ |n| ≤ 1024 :=
  ⟨q.num, (Rat.den_eq_one_iff q |>.mp h.1).symm, h.2⟩

theorem round32_exact_of (n : Int) (q : ℚ) (hq : q = (n : ℚ)) (h : |n| ≤ 16777216) :
    round32 q = q := by
  rw [hq]
  exact round32_intCast n h

/-- On whole numbers of magnitude at most 2048 the `float` square of the `float`
difference is the exact one. -/
theorem sqDiff32_whole (a b : Int) (ha : |a| ≤ 1024) (hb : |b| ≤ 1024) :
    sqDiff32 (a : ℚ) (b : ℚ) = (((a - b) * (a - b) : Int) : ℚ) ∧
      0 ≤ (a - b) * (a - b) ∧ (a - b) * (a - b) ≤ 4194304 := by
  have hd : |a - b| ≤ 2048 := by
    rw [abs_le] at *
    constructor <;> omega
  have hsq : (a - b) * (a - b) ≤ 4194304 := by
    rw [abs_le] at hd
    nlinarith
  have hnn : 0 ≤ (a - b) * (a - b) := mul_self_nonneg _
  refine ⟨?_, hnn, hsq⟩
  have r1 : round32 ((a : ℚ) - (b : ℚ)) = (a : ℚ) - (b : ℚ) :=
    round32_exact_of (a - b) ((a : ℚ) - (b : ℚ)) (by push_cast; ring) (by omega)
  have r2 : round32 (((a : ℚ) - (b : ℚ)) * ((a : ℚ) - (b : ℚ))) =
      ((a : ℚ) - (b : ℚ)) * ((a : ℚ) - (b : ℚ)) :=
    round32_exact_of ((a - b) * (a - b)) _ (by push_cast; ring)
      (by rw [abs_of_nonneg hnn]; omega)
  unfold sqDiff32
  rw [r1, r2]
  push_cast
  ring

theorem gapSq_whole (v lo hi : Int) (hv : |v| ≤ 1024) (hlo : |lo| ≤ 1024) (hhi : |hi| ≤ 1024) :
    ∃ g : Int, gapSq (v : ℚ) (lo : ℚ) (hi : ℚ) = (g : ℚ) ∧ 0 ≤ g ∧ g ≤ 4194304 ∧
      ∀ A : Int, 0 ≤ A → A ≤ 8388608 →
        sqDistStep32 (A : ℚ) (v : ℚ) (lo : ℚ) (hi : ℚ) = ((A + g : Int) : ℚ) := by
  unfold gapSq sqDistStep32
  obtain ⟨e1, n1, m1⟩ := sqDiff32_whole lo v hlo hv
  obtain ⟨e2, n2, m2⟩ := sqDiff32_whole v hi hv hhi
  split_ifs with h1 h2
  · refine ⟨(lo - v) * (lo - v), by push_cast; ring, n1, m1, ?_⟩
    intro A hA1 hA2
    rw [e1]
    have := round32_exact_of (A + (lo - v) * (lo - v))
      ((A : ℚ) + (((lo - v) * (lo - v) : Int) : ℚ)) (by push_cast; ring)
      (by rw [abs_of_nonneg (by omega)]; omega)
    rw [this]
    push_cast
    ring
  · refine ⟨(v - hi) * (v - hi), by push_cast; ring, n2, m2, ?_⟩
    intro A hA1 hA2
    rw [e2]
    have := round32_exact_of (A + (v - hi) * (v - hi))
      ((A : ℚ) + (((v - hi) * (v - hi) : Int) : ℚ)) (by push_cast; ring)
      (by rw [abs_of_nonneg (by omega)]; omega)
    rw [this]
    push_cast
    ring
  · exact ⟨0, by simp, le_refl _, by norm_num, fun A _ _ => by simp⟩

/-- On whole numbers of magnitude at most 1024 the loop of
`Sphere::Intersects(const AABB&)` computes the exact squared distance from the
centre to the box, and the product `radius * radius` is exact. -/
theorem sqDist_whole (c : Vec3) (aabb : AABB) (r : ℚ) (hc : c.Whole) (hr : IsWhole r)
    (hmin : aabb.min.Whole) (hmax : aabb.max.Whole) :
    sqDistStep32 (sqDistStep32 (sqDistStep32 0 c.x aabb.min.x aabb.max.x)
        c.y aabb.min.y aabb.max.y) c.z aabb.min.z aabb.max.z =
      gapSq c.x aabb.min.x aabb.max.x + gapSq c.y aabb.min.y aabb.max.y +
        gapSq c.z aabb.min.z aabb.max.z ∧
    round32 (r * r) = r * r := by
  obtain ⟨cx, hcx, bcx⟩ := isWhole_cast _ hc.1
  obtain ⟨cy, hcy, bcy⟩ := isWhole_cast _ hc.2.1
  obtain ⟨cz, hcz, bcz⟩ := isWhole_cast _ hc.2.2
  obtain ⟨lx, hlx, blx⟩ := isWhole_cast _ hmin.1
  obtain ⟨ly, hly, bly⟩ := isWhole_cast _ hmin.2.1
  obtain ⟨lz, hlz, blz⟩ := isWhole_cast _ hmin.2.2
  obtain ⟨ux, hux, bux⟩ := isWhole_cast _ hmax.1
  obtain ⟨uy, huy, buy⟩ := isWhole_cast _ hmax.2.1
  obtain ⟨uz, huz, buz⟩ := isWhole_cast _ hmax.2.2
  obtain ⟨rr, hrr, brr⟩ := isWhole_cast _ hr
  rw [hcx, hcy, hcz, hlx, hly, hlz, hux, huy, huz, hrr]
  obtain ⟨g1, e1, n1, m1, s1⟩ := gapSq_whole cx lx ux bcx blx bux
  obtain ⟨g2, e2, n2, m2, s2⟩ := gapSq_whole cy ly uy bcy bly buy
  obtain ⟨g3, e3, n3, m3, s3⟩ := gapSq_whole cz lz uz bcz blz buz
  constructor
  · have a1 := s1 0 (le_refl _) (by norm_num)
    rw [Int.cast_zero] at a1
    rw [a1, s2 (0 + g1) (by omega) (by omega), s3 (0 + g1 + g2) (by omega) (by omega), e1, e2,
      e3]
    push_cast
    ring
  · have hsq : rr * rr ≤ 1048576 := by
      rw [abs_le] at brr
      nlinarith
    exact round32_exact_of (rr * rr) ((rr : ℚ) * (rr : ℚ)) (by push_cast; ring)
      (by rw [abs_of_nonneg (mul_self_nonneg _)]; omega)

/-- The exact squared distance from a coordinate to an interval is at most the
squared distance to any point of the interval. -/
theorem gapSq_le (v lo hi q : ℚ) (h1 : lo ≤ q) (h2 : q ≤ hi) :
    gapSq v lo hi ≤ (q - v) * (q - v) := by
  unfold gapSq
  split_ifs with ha hb
  · nlinarith
  · nlinarith
  · nlinarith [mul_self_nonneg (q - v)]

/-- The exact squared distance from a coordinate to an interval is attained at
the coordinate clamped to the interval. -/
theorem gapSq_clamp (v lo hi : ℚ) :
    gapSq v lo hi =
      ((if v < lo then lo else if v > hi then hi else v) - v) *
        ((if v < lo then lo else if v > hi then hi else v) - v) := by
  unfold gapSq
  split_ifs <;> ring

/-- The sum of the exact per-axis squared distances is the least exact squared
distance from the centre to a point of the box. -/
theorem gapSq_sum_le_iff (c : Vec3) (aabb : AABB) (hv : aabb.Valid) (bound : ℚ) :
    gapSq c.x aabb.min.x aabb.max.x + gapSq c.y aabb.min.y aabb.max.y +
        gapSq c.z aabb.min.z aabb.max.z ≤ bound ↔
      ∃ q, aabb.Contains q = true ∧ distSq q c ≤ bound := by
  constructor
  · intro h
    refine ⟨aabb.clamp c, clamp_contained aabb hv c, ?_⟩
    unfold distSq AABB.clamp
    simp only
    rw [← gapSq_clamp, ← gapSq_clamp, ← gapSq_clamp]
    exact h
  · rintro ⟨q, hq, hd⟩
    obtain ⟨⟨lx, ux⟩, ⟨ly, uy⟩, ⟨lz, uz⟩⟩ := (AABB.contains_iff _ _).mp hq
    have tx := gapSq_le c.x aabb.min.x aabb.max.x q.x lx ux
    have ty := gapSq_le c.y aabb.min.y aabb.max.y q.y ly uy
    have tz := gapSq_le c.z aabb.min.z aabb.max.z q.z lz uz
    unfold distSq at hd
    linarith

theorem whole_small (q : ℚ) (h : IsWhole q) : IsSmall q := by
  obtain ⟨n, hn, hb⟩ := isWhole_cast q h
  unfold IsSmall
  have h1 : ((|n| : Int) : ℚ) ≤ 1024 := by exact_mod_cast hb
  have h2 : (1024 : ℚ) ≤ pow2 60 := by rw [pow2_eq]; norm_num
  have h3 : |q| = ((|n| : Int) : ℚ) := by rw [hn]; simp
  rw [h3]
  linarith

/-! ## The claims about geometry, culling and frame timing -/

/-- C16 (amended): for every sphere and every AABB with min <= max on each axis
whose coordinates and radius are at most 2^60 in magnitude, Sphere.Intersects(aabb)
returns, and it is true exactly when some point q of the closed box has a
squared distance to the centre, computed in float arithmetic axis by axis as the
function computes it, that is at most the float product radius * radius; a
sphere whose centre lies in the box always intersects, and so does a sphere
tangent to a face: one for which a point of the box differs from the centre in
one coordinate only, by the radius. When the coordinates and the radius are
whole numbers of magnitude at most 1024 the float arithmetic is exact, and
Sphere.Intersects(aabb) is true exactly when some point q of the closed box
satisfies |q - centre|^2 <= radius^2. -/
theorem C16_sphere_intersects_aabb (s : Sphere) (aabb : AABB) (hv : aabb.Valid)
    (hs : s.center.Small) (hr : IsSmall s.radius) (hmin : aabb.min.Small)
    (hmax : aabb.max.Small) :
    ∃ b, s.IntersectsAABB aabb = some b ∧
      (b = true ↔ ∃ q d r2, aabb.Contains q = true ∧ distSqF32 q s.center = some d ∧
        F32.mul s.radius s.radius = some r2 ∧ d ≤ r2) ∧
      (aabb.Contains s.center = true → b = true) ∧
      (IsF32 s.radius → ∀ q, aabb.Contains q = true →
        (|q.x - s.center.x| = s.radius ∧ q.y = s.center.y ∧ q.z = s.center.z) ∨
        (q.x = s.center.x ∧ |q.y - s.center.y| = s.radius ∧ q.z = s.center.z) ∨
        (q.x = s.center.x ∧ q.y = s.center.y ∧ |q.z - s.center.z| = s.radius) →
        b = true) ∧
      (s.center.Whole → IsWhole s.radius → aabb.min.Whole → aabb.max.Whole →
        (b = true ↔
          ∃ q, aabb.Contains q = true ∧ distSq q s.center ≤ s.radius * s.radius)) := by
  have hcode := intersectsAABB_small s aabb hs hr hmin hmax
  obtain ⟨hclamp, hleast⟩ := sqDist_loop s.center aabb
  have hrr : |s.radius * s.radius| ≤ pow2 120 := by
    unfold IsSmall at hr
    rw [abs_mul, show (120 : Int) = 60 + 60 from rfl, pow2_add]
    exact mul_le_mul hr hr (abs_nonneg _) (le_of_lt (pow2_pos _))
  obtain ⟨er, _⟩ := toF32_bounded 120 (by norm_num) (by norm_num) _ hrr
  have hfloat : (decide
      (sqDistStep32 (sqDistStep32 (sqDistStep32 0 s.center.x aabb.min.x aabb.max.x)
          s.center.y aabb.min.y aabb.max.y) s.center.z aabb.min.z aabb.max.z ≤
        round32 (s.radius * s.radius)) = true ↔
      ∃ q d r2, aabb.Contains q = true ∧ distSqF32 q s.center = some d ∧
        F32.mul s.radius s.radius = some r2 ∧ d ≤ r2) := by
    rw [decide_eq_true_eq]
    constructor
    · intro h
      refine ⟨aabb.clamp s.center, distSq32 (aabb.clamp s.center) s.center,
        round32 (s.radius * s.radius), clamp_contained aabb hv _, ?_, er, ?_⟩
      · exact distSqF32_small _ _
          (small_of_contains aabb _ hmin hmax (clamp_contained aabb hv _)) hs
      · rw [← hclamp]
        exact h
    · rintro ⟨q, d, r2, hq, hd, hr2, hle⟩
      rw [distSqF32_small q s.center (small_of_contains aabb q hmin hmax hq) hs] at hd
      have hd' : distSq32 q s.center = d := Option.some.inj hd
      have hr2' : round32 (s.radius * s.radius) = r2 := by
        unfold F32.mul at hr2
        rw [er] at hr2
        exact Option.some.inj hr2
      subst hd' hr2'
      exact le_trans (hleast q hq) hle
  refine ⟨_, hcode, hfloat, ?_, ?_, ?_⟩
  · intro hc
    rw [hfloat]
    refine ⟨s.center, distSq32 s.center s.center, round32 (s.radius * s.radius), hc,
      distSqF32_small _ _ hs hs, er, ?_⟩
    have hz : distSq32 s.center s.center = 0 := by
      unfold distSq32
      rw [sqDiff32_self, sqDiff32_self, sqDiff32_self]
      simp [round32_zero]
    rw [hz]
    exact round32_nonneg _ (mul_self_nonneg _)
  · intro hrad q hq htan
    rw [hfloat]
    refine ⟨q, distSq32 q s.center, round32 (s.radius * s.radius), hq,
      distSqF32_small _ _ (small_of_contains aabb q hmin hmax hq) hs, er, ?_⟩
    apply le_of_eq
    unfold distSq32
    rcases htan with ⟨hx, hy, hz⟩ | ⟨hx, hy, hz⟩ | ⟨hx, hy, hz⟩
    · rw [sqDiff32_of_abs _ _ _ hrad.1 hx, hy, hz, sqDiff32_self, sqDiff32_self]
      simp only [zero_add, add_zero, round32_idem]
    · rw [sqDiff32_of_abs _ _ _ hrad.1 hy, hx, hz, sqDiff32_self, sqDiff32_self]
      simp only [zero_add, add_zero, round32_idem, round32_zero]
    · rw [sqDiff32_of_abs _ _ _ hrad.1 hz, hx, hy, sqDiff32_self, sqDiff32_self]
      simp only [zero_add, add_zero, round32_idem, round32_zero]
  · intro wc wr wmin wmax
    obtain ⟨e1, e2⟩ := sqDist_whole s.center aabb s.radius wc wr wmin wmax
    rw [decide_eq_true_eq, e1, e2]
    exact gapSq_sum_le_iff s.center aabb hv _

/-- C16, witness: the unit sphere at the origin touches the face x = 1 of the box
[1,2] x [-1,1] x [-1,1]. -/
theorem C16_sphere_intersects_aabb_witness :
    ∃ b, (Sphere.mk ⟨0, 0, 0⟩ 1).IntersectsAABB ⟨⟨1, -1, -1⟩, ⟨2, 1, 1⟩⟩ = some b ∧ b = true := by
  obtain ⟨b, h1, -, -, h4, -⟩ := C16_sphere_intersects_aabb (Sphere.mk ⟨0, 0, 0⟩ 1)
    ⟨⟨1, -1, -1⟩, ⟨2, 1, 1⟩⟩ (by decide!) (by decide!) (by decide!) (by decide!) (by decide!)
  exact ⟨b, h1, h4 (by decide!) ⟨1, 0, 0⟩ (by decide!) (Or.inl (by decide!))⟩

/-- C16, counterexample: the unit sphere at the origin and the box
[1,2] x [2^-13,1] x [-1,1]. The nearest point of the box, (1, 2^-13, 0), lies at
squared distance 1 + 2^-26 > 1 from the centre, so no point of the box is within
the radius; the float sum 1 + 2^-26 is 1, and Sphere.Intersects returns true. -/
theorem C16_counterexample_rounded_sum :
    (Sphere.mk ⟨0, 0, 0⟩ 1).IntersectsAABB ⟨⟨1, 1 / 8192, -1⟩, ⟨2, 1, 1⟩⟩ = some true ∧
    (AABB.mk ⟨1, 1 / 8192, -1⟩ ⟨2, 1, 1⟩).Valid ∧
    ¬ ∃ q, (AABB.mk ⟨1, 1 / 8192, -1⟩ ⟨2, 1, 1⟩).Contains q = true ∧
      distSq q (Sphere.mk ⟨0, 0, 0⟩ 1).center ≤
        (Sphere.mk ⟨0, 0, 0⟩ 1).radius * (Sphere.mk ⟨0, 0, 0⟩ 1).radius := by
  refine ⟨by decide!, by decide!, ?_⟩
  rintro ⟨q, hq, hd⟩
  obtain ⟨⟨lx, -⟩, ⟨ly, -⟩, -⟩ := (AABB.contains_iff _ _).mp hq
  simp only [distSq] at hd lx ly
  nlinarith [mul_self_nonneg (q.z - 0)]

theorem positiveVertex_mem_corners (plane : Vec4) (aabb : AABB) :
    positiveVertex plane aabb ∈ aabb.corners := by
  unfold positiveVertex AABB.corners
  split_ifs <;> simp

theorem corner_contained (aabb : AABB) (hv : aabb.Valid) (c : Vec3) (hc : c ∈ aabb.corners) :
    aabb.Contains c = true := by
  obtain ⟨hx, hy, hz⟩ := hv
  rw [AABB.contains_iff]
  simp only [AABB.corners, List.mem_cons, List.mem_singleton, List.not_mem_nil, or_false] at hc
  rcases hc with h | h | h | h | h | h | h | h <;> subst h <;>
    exact ⟨⟨by first | exact le_refl _ | exact hx, by first | exact le_refl _ | exact hx⟩,
      ⟨by first | exact le_refl _ | exact hy, by first | exact le_refl _ | exact hy⟩,
      ⟨by first | exact le_refl _ | exact hz, by first | exact le_refl _ | exact hz⟩⟩

theorem coord_mul_le (a lo hi q : ℚ) (h1 : lo ≤ q) (h2 : q ≤ hi) :
    a * q ≤ a * (if a ≥ 0 then hi else lo) := by
  split_ifs with ha
  · exact mul_le_mul_of_nonneg_left h2 ha
  · exact mul_le_mul_of_nonpos_left h1 (le_of_lt (not_le.mp ha))

/-- No point of the box lies further on the positive side of a plane than the
corner `Frustum::Contains(const AABB&)` picks for it. -/
theorem planeDot_le_positiveVertex (plane : Vec4) (aabb : AABB) (q : Vec3)
    (hq : aabb.Contains q = true) :
    planeDot plane q ≤ planeDot plane (positiveVertex plane aabb) := by
  obtain ⟨⟨lx, ux⟩, ⟨ly, uy⟩, ⟨lz, uz⟩⟩ := (AABB.contains_iff _ _).mp hq
  have tx := coord_mul_le plane.x aabb.min.x aabb.max.x q.x lx ux
  have ty := coord_mul_le plane.y aabb.min.y aabb.max.y q.y ly uy
  have tz := coord_mul_le plane.z aabb.min.z aabb.max.z q.z lz uz
  simp only [planeDot, positiveVertex]
  linarith

/-- In `float` arithmetic too, no point of the box has a greater dot product with
a plane than the corner `Frustum::Contains(const AABB&)` picks for it. -/
theorem planeDot32_le_positiveVertex (plane : Vec4) (aabb : AABB) (q : Vec3)
    (hq : aabb.Contains q = true) :
    planeDot32 plane q ≤ planeDot32 plane (positiveVertex plane aabb) := by
  obtain ⟨⟨lx, ux⟩, ⟨ly, uy⟩, ⟨lz, uz⟩⟩ := (AABB.contains_iff _ _).mp hq
  have tx := round32_mono _ _ (coord_mul_le plane.x aabb.min.x aabb.max.x q.x lx ux)
  have ty := round32_mono _ _ (coord_mul_le plane.y aabb.min.y aabb.max.y q.y ly uy)
  have tz := round32_mono _ _ (coord_mul_le plane.z aabb.min.z aabb.max.z q.z lz uz)
  simp only [planeDot32, positiveVertex]
  apply round32_mono
  have s1 := round32_mono _ _ (add_le_add tx ty)
  have s2 := round32_mono _ _ (add_le_add_right tz (round32 (plane.w * 1)))
  exact add_le_add s1 s2

/-- On small operands `glm::dot(plane, glm::vec4(point, 1.0f))` overflows
nowhere. -/
theorem planeDotF32_small (plane : Vec4) (point : Vec3) (hp : plane.Small) (hq : point.Small) :
    planeDotF32 plane point = some (planeDot32 plane point) := by
  obtain ⟨px, py, pz, pw⟩ := hp
  obtain ⟨qx, qy, qz⟩ := hq
  unfold IsSmall at *
  have prod : ∀ a b : ℚ, |a| ≤ pow2 60 → |b| ≤ pow2 60 → |a * b| ≤ pow2 120 := by
    intro a b ha hb
    rw [abs_mul, show (120 : Int) = 60 + 60 from rfl, pow2_add]
    exact mul_le_mul ha hb (abs_nonneg _) (le_of_lt (pow2_pos _))
  have hone : |(1 : ℚ)| ≤ pow2 60 := by rw [pow2_eq]; norm_num
  obtain ⟨e1, b1⟩ := toF32_bounded 120 (by norm_num) (by norm_num) _ (prod _ _ px qx)
  obtain ⟨e2, b2⟩ := toF32_bounded 120 (by norm_num) (by norm_num) _ (prod _ _ py qy)
  obtain ⟨e3, b3⟩ := toF32_bounded 120 (by norm_num) (by norm_num) _ (prod _ _ pz qz)
  obtain ⟨e4, b4⟩ := toF32_bounded 120 (by norm_num) (by norm_num) _ (prod _ _ pw hone)
  have sum : ∀ (k : Int) (a b : ℚ), |a| ≤ pow2 k → |b| ≤ pow2 k → |a + b| ≤ pow2 (k + 1) := by
    intro k a b ha hb
    rw [← pow2_double]
    rw [abs_le] at *
    constructor <;> linarith
  obtain ⟨e5, b5⟩ := toF32_bounded 121 (by norm_num) (by norm_num) _ (sum 120 _ _ b1 b2)
  obtain ⟨e6, b6⟩ := toF32_bounded 121 (by norm_num) (by norm_num) _ (sum 120 _ _ b3 b4)
  obtain ⟨e7, -⟩ := toF32_bounded 122 (by norm_num) (by norm_num) _ (sum 121 _ _ b5 b6)
  unfold planeDotF32 dot4 planeDot32 F32.mul F32.add
  simp only
  rw [e1, Option.some_bind, e2, Option.some_bind, e3, Option.some_bind, e4, Option.some_bind,
    e5, Option.some_bind, e6, Option.some_bind, e7]

theorem containsLoop_small (f : Frustum) (vertex : Vec4 → Vec3) (hf : ∀ i, (f.planes i).Small)
    (hvx : ∀ i, (vertex (f.planes i)).Small) (l : List (Fin 6)) :
    f.containsLoop vertex l =
      some (l.all (fun i => !decide (planeDot32 (f.planes i) (vertex (f.planes i)) < 0))) := by
  induction l with
  | nil => rfl
  | cons i rest ih =>
    rw [Frustum.containsLoop, planeDotF32_small _ _ (hf i) (hvx i), Option.some_bind, ih]
    simp only [List.all_cons]
    by_cases h : planeDot32 (f.planes i) (vertex (f.planes i)) < 0
    · simp [h]
    · simp [h]

theorem positiveVertex_small (plane : Vec4) (aabb : AABB) (hmin : aabb.min.Small)
    (hmax : aabb.max.Small) : (positiveVertex plane aabb).Small := by
  unfold positiveVertex Vec3.Small
  simp only
  refine ⟨?_, ?_, ?_⟩ <;> split_ifs
  · exact hmax.1
  · exact hmin.1
  · exact hmax.2.1
  · exact hmin.2.1
  · exact hmax.2.2
  · exact hmin.2.2

theorem corner_whole (aabb : AABB) (hmin : aabb.min.Whole) (hmax : aabb.max.Whole) (c : Vec3)
    (hc : c ∈ aabb.corners) : c.Whole := by
  simp only [AABB.corners, List.mem_cons, List.mem_singleton, List.not_mem_nil, or_false] at hc
  rcases hc with h | h | h | h | h | h | h | h <;> subst h <;>
    exact ⟨by first | exact hmin.1 | exact hmax.1, by first | exact hmin.2.1 | exact hmax.2.1,
      by first | exact hmin.2.2 | exact hmax.2.2⟩

/-- On whole numbers of magnitude at most 1024 the `float` dot product is the
exact one. -/
theorem planeDot32_whole (plane : Vec4) (point : Vec3) (hp : plane.Whole) (hq : point.Whole) :
    planeDot32 plane point = planeDot plane point := by
  obtain ⟨a, ha, ba⟩ := isWhole_cast _ hp.1
  obtain ⟨b, hb, bb⟩ := isWhole_cast _ hp.2.1
  obtain ⟨c, hc, bc⟩ := isWhole_cast _ hp.2.2.1
  obtain ⟨d, hd, bd⟩ := isWhole_cast _ hp.2.2.2
  obtain ⟨x, hx, bx⟩ := isWhole_cast _ hq.1
  obtain ⟨y, hy, by'⟩ := isWhole_cast _ hq.2.1
  obtain ⟨z, hz, bz⟩ := isWhole_cast _ hq.2.2
  have prod : ∀ m n : Int, |m| ≤ 1024 → |n| ≤ 1024 → |m * n| ≤ 1048576 := by
    intro m n hm hn
    rw [abs_mul]
    have := mul_le_mul hm hn (abs_nonneg n) (by norm_num : (0 : Int) ≤ 1024)
    omega
  have p1 := prod a x ba bx
  have p2 := prod b y bb by'
  have p3 := prod c z bc bz
  have p4 : |d * 1| ≤ 1048576 := by rw [mul_one]; omega
  have r1 : round32 ((a : ℚ) * (x : ℚ)) = ((a * x : Int) : ℚ) := by
    rw [round32_exact_of (a * x) ((a : ℚ) * (x : ℚ)) (by push_cast; ring) (by omega)]
    push_cast; ring
  have r2 : round32 ((b : ℚ) * (y : ℚ)) = ((b * y : Int) : ℚ) := by
    rw [round32_exact_of (b * y) ((b : ℚ) * (y : ℚ)) (by push_cast; ring) (by omega)]
    push_cast; ring
  have r3 : round32 ((c : ℚ) * (z : ℚ)) = ((c * z : Int) : ℚ) := by
    rw [round32_exact_of (c * z) ((c : ℚ) * (z : ℚ)) (by push_cast; ring) (by omega)]
    push_cast; ring
  have r4 : round32 ((d : ℚ) * 1) = ((d * 1 : Int) : ℚ) := by
    rw [round32_exact_of (d * 1) ((d : ℚ) * 1) (by push_cast; ring) (by omega)]
    push_cast; ring
  have q1 : |a * x + b * y| ≤ 2097152 := by
    rw [abs_le] at *
    constructor <;> omega
  have q2 : |c * z + d * 1| ≤ 2097152 := by
    rw [abs_le] at *
    constructor <;> omega
  have r5 : round32 (((a * x : Int) : ℚ) + ((b * y : Int) : ℚ)) = ((a * x + b * y : Int) : ℚ) := by
    rw [round32_exact_of (a * x + b * y) (((a * x : Int) : ℚ) + ((b * y : Int) : ℚ))
      (by push_cast; ring) (by omega)]
    push_cast; ring
  have r6 : round32 (((c * z : Int) : ℚ) + ((d * 1 : Int) : ℚ)) = ((c * z + d * 1 : Int) : ℚ) := by
    rw [round32_exact_of (c * z + d * 1) (((c * z : Int) : ℚ) + ((d * 1 : Int) : ℚ))
      (by push_cast; ring) (by omega)]
    push_cast; ring
  have q3 : |(a * x + b * y) + (c * z + d * 1)| ≤ 4194304 := by
    rw [abs_le] at *
    constructor <;> omega
  have r7 : round32 (((a * x + b * y : Int) : ℚ) + ((c * z + d * 1 : Int) : ℚ)) =
      (((a * x + b * y) + (c * z + d * 1) : Int) : ℚ) := by
    rw [round32_exact_of ((a * x + b * y) + (c * z + d * 1))
      (((a * x + b * y : Int) : ℚ) + ((c * z + d * 1 : Int) : ℚ)) (by push_cast; ring) (by omega)]
    push_cast; ring
  unfold planeDot32 planeDot
  rw [ha, hb, hc, hd, hx, hy, hz, r1, r2, r3, r4, r5, r6, r7]
  push_cast
  ring

/-- C17 (amended): for every frustum and every AABB with min <= max on each axis
whose plane coefficients and coordinates are at most 2^60 in magnitude,
Frustum.Contains(aabb) returns, and it is false exactly when some plane has all
eight corners of the box strictly on its negative side as glm::dot computes the
side in float arithmetic; hence when Frustum.Contains(q) holds for a point q of
the box, Frustum.Contains(aabb) holds too. When the plane coefficients and the
coordinates of the box are whole numbers of magnitude at most 1024 the float
arithmetic is exact, and Frustum.Contains(aabb) is false exactly when some plane
has dot(plane, (c, 1)) < 0 for all eight corners c of the box. -/
theorem C17_frustum_contains_aabb (f : Frustum) (aabb : AABB) (hv : aabb.Valid)
    (hf : ∀ i, (f.planes i).Small) (hmin : aabb.min.Small) (hmax : aabb.max.Small) :
    ∃ b, f.ContainsAABB aabb = some b ∧
      (b = false ↔
        ∃ i, ∀ c ∈ aabb.corners, ∃ d, planeDotF32 (f.planes i) c = some d ∧ d < 0) ∧
      (∀ q, aabb.Contains q = true → f.ContainsPoint q = some true → b = true) ∧
      ((∀ i, (f.planes i).Whole) → aabb.min.Whole → aabb.max.Whole →
        (b = false ↔ ∃ i, ∀ c ∈ aabb.corners, planeDot (f.planes i) c < 0)) := by
  have hcode := containsLoop_small f (fun plane => positiveVertex plane aabb) hf
    (fun i => positiveVertex_small _ aabb hmin hmax) (List.finRange 6)
  have hfalse : ((List.finRange 6).all (fun i =>
      !decide (planeDot32 (f.planes i) (positiveVertex (f.planes i) aabb) < 0))) = false ↔
      ∃ i, planeDot32 (f.planes i) (positiveVertex (f.planes i) aabb) < 0 := by
    simp [List.all_eq_false]
  have hcorner : ∀ i, (∀ c ∈ aabb.corners, planeDot32 (f.planes i) c < 0) ↔
      planeDot32 (f.planes i) (positiveVertex (f.planes i) aabb) < 0 := by
    intro i
    constructor
    · intro h
      exact h _ (positiveVertex_mem_corners _ _)
    · intro h c hc
      exact lt_of_le_of_lt
        (planeDot32_le_positiveVertex _ _ _ (corner_contained aabb hv c hc)) h
  refine ⟨_, hcode, ?_, ?_, ?_⟩
  · rw [hfalse]
    constructor
    · rintro ⟨i, hi⟩
      refine ⟨i, fun c hc => ⟨planeDot32 (f.planes i) c, ?_, (hcorner i).mpr hi c hc⟩⟩
      exact planeDotF32_small _ _ (hf i)
        (small_of_contains aabb c hmin hmax (corner_contained aabb hv c hc))
    · rintro ⟨i, hi⟩
      refine ⟨i, ?_⟩
      obtain ⟨d, hd, hneg⟩ := hi _ (positiveVertex_mem_corners (f.planes i) aabb)
      rw [planeDotF32_small _ _ (hf i) (positiveVertex_small _ aabb hmin hmax)] at hd
      rw [Option.some.inj hd]
      exact hneg
  · intro q hq hpoint
    have hqs := small_of_contains aabb q hmin hmax hq
    have hp := containsLoop_small f (fun _ => q) hf (fun _ => hqs) (List.finRange 6)
    unfold Frustum.ContainsPoint at hpoint
    rw [hp] at hpoint
    have hall := Option.some.inj hpoint
    by_contra hcon
    have hb : ((List.finRange 6).all (fun i =>
        !decide (planeDot32 (f.planes i) (positiveVertex (f.planes i) aabb) < 0))) = false := by
      simpa using hcon
    obtain ⟨i, hi⟩ := hfalse.mp hb
    have hq0 : ¬ planeDot32 (f.planes i) q < 0 := by
      have := List.all_eq_true.mp hall i (List.mem_finRange i)
      simpa using this
    exact hq0 (lt_of_le_of_lt (planeDot32_le_positiveVertex _ _ _ hq) hi)
  · intro wf wmin wmax
    rw [hfalse]
    constructor
    · rintro ⟨i, hi⟩
      refine ⟨i, fun c hc => ?_⟩
      rw [← planeDot32_whole _ _ (wf i) (corner_whole aabb wmin wmax c hc)]
      exact (hcorner i).mpr hi c hc
    · rintro ⟨i, hi⟩
      refine ⟨i, (hcorner i).mp (fun c hc => ?_)⟩
      rw [planeDot32_whole _ _ (wf i) (corner_whole aabb wmin wmax c hc)]
      exact hi c hc

/-- C17, witness: the half-space x >= 0 (as all six planes) and the box
[-1,1]^3, which holds the point (1,0,0) of that half-space. -/
theorem C17_frustum_contains_aabb_witness :
    ∃ b, (Frustum.mk (fun _ => ⟨1, 0, 0, 0⟩)).ContainsAABB ⟨⟨-1, -1, -1⟩, ⟨1, 1, 1⟩⟩ = some b ∧
      b = true := by
  obtain ⟨b, h1, -, h3, -⟩ := C17_frustum_contains_aabb (Frustum.mk (fun _ => ⟨1, 0, 0, 0⟩))
    ⟨⟨-1, -1, -1⟩, ⟨1, 1, 1⟩⟩ (by decide!)
    (fun _ => (by decide! : (⟨1, 0, 0, 0⟩ : Vec4).Small)) (by decide!) (by decide!)
  exact ⟨b, h1, h3 ⟨1, 0, 0⟩ (by decide!) (by decide!)⟩

/-- C17, counterexample: the six planes are (0.1f, 0, 0, -0.3f) and the box is
[2,3] x [0,1] x [0,1]. Every corner of the box has dot(plane, (c, 1)) < 0, the
largest value being 3 * 0.1f - 0.3f; the float product 3 * 0.1f is 0.3f, the
float dot product at the corner picked for the plane is 0, and
Frustum.Contains(aabb) returns true. -/
theorem C17_counterexample_rounded_product :
    (Frustum.mk (fun _ => ⟨round32 (1 / 10), 0, 0, -round32 (3 / 10)⟩)).ContainsAABB
      ⟨⟨2, 0, 0⟩, ⟨3, 1, 1⟩⟩ = some true ∧
    (AABB.mk ⟨2, 0, 0⟩ ⟨3, 1, 1⟩).Valid ∧
    ∀ c ∈ (AABB.mk ⟨2, 0, 0⟩ ⟨3, 1, 1⟩).corners,
      planeDot ((Frustum.mk (fun _ => ⟨round32 (1 / 10), 0, 0, -round32 (3 / 10)⟩)).planes 0)
        c < 0 := by
  decide!

/-- The body of UpdateViewFrustum changes nothing, whatever the matrix. -/
theorem UpdateViewFrustum_eq (cs : CullingSystem) (viewProj : Mat4) :
    cs.UpdateViewFrustum viewProj = cs := rfl

/-- Six zero planes have every point on their non-negative side. -/
theorem containsLoop_zero (f : Frustum) (hf : ∀ i, f.planes i = ⟨0, 0, 0, 0⟩) (point : Vec3)
    (l : List (Fin 6)) : f.containsLoop (fun _ => point) l = some true := by
  have h0 : toF32 0 = some 0 := toF32_of_isF32 0 (by decide!)
  induction l with
  | nil => rfl
  | cons i rest ih =>
    have hd : planeDotF32 (f.planes i) point = some 0 := by
      rw [hf i]
      unfold planeDotF32 dot4 F32.mul F32.add
      simp only [zero_mul, add_zero, h0, Option.some_bind]
    rw [Frustum.containsLoop, hd, Option.some_bind]
    simp only [lt_self_iff_false, if_false]
    exact ih

/-- C18 (code defect): UpdateViewFrustum does not use its matrix and stores no
plane. The system that the engine creates keeps its six zero planes after
UpdateViewFrustum(viewProj), for every viewProj, and its frustum contains every
point: the look-at target, and every point behind the camera as well. -/
theorem C18_frustum_ignores_view_projection (viewProj : Mat4) (point : Vec3) :
    (CullingSystem.fresh.UpdateViewFrustum viewProj).viewFrustum.ContainsPoint point =
      some true := by
  rw [UpdateViewFrustum_eq]
  exact containsLoop_zero _ (fun _ => rfl) point _

theorem mem_usInsert (s : List EntityID) (id j : EntityID) :
    j ∈ usInsert s id ↔ j = id ∨ j ∈ s := by
  unfold usInsert
  split_ifs with h
  · constructor
    · exact fun hj => Or.inr hj
    · rintro (rfl | hj)
      · exact h
      · exact hj
  · simp [or_comm]

theorem mem_usErase (s : List EntityID) (id j : EntityID) :
    j ∈ usErase s id ↔ j ≠ id ∧ j ∈ s := by
  simp [usErase, and_comm]

theorem usErase_of_not_mem (s : List EntityID) (id : EntityID) (h : id ∉ s) :
    usErase s id = s := by
  unfold usErase
  rw [List.filter_eq_self]
  intro j hj
  have : j ≠ id := fun e => h (e ▸ hj)
  simpa using this

/-- A sequence of calls leaves an empty visible set empty. -/
theorem visible_after (calls : List CullingCall) : ∀ cs : CullingSystem,
    cs.visibleEntities = [] → (cs.after calls).visibleEntities = [] := by
  induction calls with
  | nil => intro cs h; exact h
  | cons c rest ih =>
    intro cs h
    cases c with
    | Initialize => exact ih _ h
    | Update dt => exact ih _ h
    | Shutdown => exact ih _ h
    | UpdateViewFrustum m => exact ih _ h
    | RegisterEntity id => exact ih _ h
    | UnregisterEntity id =>
      apply ih
      simp [CullingSystem.UnregisterEntity, usErase, h]

/-- C19: in every state that a sequence of Initialize, Update, Shutdown,
UpdateViewFrustum, RegisterEntity and UnregisterEntity calls leaves in a newly
constructed CullingSystem, and for every id, RegisterEntity(id) adds id to the tracked set
and UnregisterEntity(id) removes it, and neither changes anything else: the
frustum, the visible set that GetVisibleEntities returns and the answer of
IsEntityVisible for every id are the same before and after either call. -/
theorem C19_register_unregister (planes : Fin 6 → Vec4) (calls : List CullingCall)
    (id : EntityID) :
    ((CullingSystem.reached planes calls).RegisterEntity id).GetVisibleEntities =
      (CullingSystem.reached planes calls).GetVisibleEntities ∧
    (∀ j, ((CullingSystem.reached planes calls).RegisterEntity id).IsEntityVisible j =
      (CullingSystem.reached planes calls).IsEntityVisible j) ∧
    (∀ j, j ∈ ((CullingSystem.reached planes calls).RegisterEntity id).allEntities ↔
      j = id ∨ j ∈ (CullingSystem.reached planes calls).allEntities) ∧
    ((CullingSystem.reached planes calls).RegisterEntity id).viewFrustum.planes =
      (CullingSystem.reached planes calls).viewFrustum.planes ∧
    ((CullingSystem.reached planes calls).UnregisterEntity id).GetVisibleEntities =
      (CullingSystem.reached planes calls).GetVisibleEntities ∧
    (∀ j, ((CullingSystem.reached planes calls).UnregisterEntity id).IsEntityVisible j =
      (CullingSystem.reached planes calls).IsEntityVisible j) ∧
    (∀ j, j ∈ ((CullingSystem.reached planes calls).UnregisterEntity id).allEntities ↔
      j ≠ id ∧ j ∈ (CullingSystem.reached planes calls).allEntities) ∧
    ((CullingSystem.reached planes calls).UnregisterEntity id).viewFrustum.planes =
      (CullingSystem.reached planes calls).viewFrustum.planes := by
  have hv : (CullingSystem.reached planes calls).visibleEntities = [] :=
    visible_after calls _ rfl
  refine ⟨rfl, fun _ => rfl, mem_usInsert _ _, rfl, ?_, ?_, mem_usErase _ _, rfl⟩
  · simp [CullingSystem.UnregisterEntity, CullingSystem.GetVisibleEntities, hv, usErase]
  · intro j
    simp [CullingSystem.UnregisterEntity, CullingSystem.IsEntityVisible, hv, usErase]

/-- C20: for every lastFrameTime and every current time, the deltaTime that
CalculateDeltaTime leaves is at most the cap 0.033f, hence at most 0.033, and
equals the raw difference float(currentTime - lastFrameTime) whenever that does
not exceed the cap, which is the case whenever the exact difference
currentTime - lastFrameTime is at most 0.033; when the exact difference is itself
a float value not above the cap, deltaTime is that difference; a frame of 500 ms
yields the cap. -/
theorem C20_delta_time_is_capped (c : FrameClock) (currentTime : ℚ) :
    (CalculateDeltaTime c currentTime).deltaTime ≤ deltaCap ∧
    (CalculateDeltaTime c currentTime).deltaTime ≤ 33 / 1000 ∧
    (rawDelta currentTime c.lastFrameTime ≤ deltaCap →
      (CalculateDeltaTime c currentTime).deltaTime = rawDelta currentTime c.lastFrameTime) ∧
    (currentTime - c.lastFrameTime ≤ 33 / 1000 →
      (CalculateDeltaTime c currentTime).deltaTime = rawDelta currentTime c.lastFrameTime) ∧
    (IsF32 (currentTime - c.lastFrameTime) → currentTime - c.lastFrameTime ≤ deltaCap →
      (CalculateDeltaTime c currentTime).deltaTime = currentTime - c.lastFrameTime) ∧
    (currentTime - c.lastFrameTime = 1 / 2 →
      (CalculateDeltaTime c currentTime).deltaTime = deltaCap) := by
  have hcap : deltaCap ≤ 33 / 1000 := by decide!
  have hle : (CalculateDeltaTime c currentTime).deltaTime ≤ deltaCap := by
    unfold CalculateDeltaTime
    simp only
    split_ifs with h
    · exact le_refl _
    · exact not_lt.mp h
  have hraw_le : rawDelta currentTime c.lastFrameTime ≤ deltaCap →
      (CalculateDeltaTime c currentTime).deltaTime = rawDelta currentTime c.lastFrameTime := by
    intro h
    unfold CalculateDeltaTime
    simp only
    rw [if_neg (not_lt.mpr h)]
  refine ⟨hle, le_trans hle hcap, hraw_le, ?_, ?_, ?_⟩
  · intro h
    apply hraw_le
    have h64 : round32 (round64 (33 / 1000)) = deltaCap := by decide!
    rw [← h64]
    unfold rawDelta
    exact round32_mono _ _ (roundBin_mono 53 (by norm_num) _ _ _ h)
  · intro hrep h
    have hraw : rawDelta currentTime c.lastFrameTime = currentTime - c.lastFrameTime := by
      unfold rawDelta
      rw [← hrep.1, round64_of_round32, round32_idem]
    unfold CalculateDeltaTime
    simp only
    rw [hraw, if_neg (not_lt.mpr h)]
  · intro heq
    have hraw : rawDelta currentTime c.lastFrameTime = 1 / 2 := by
      unfold rawDelta
      rw [heq]
      decide!
    unfold CalculateDeltaTime
    simp only
    rw [hraw, if_pos (by decide!)]

/-- C20, witness: a frame of 500 ms, and a frame of 1/64 s. -/
theorem C20_delta_time_is_capped_witness :
    (CalculateDeltaTime ⟨0, 0, 10⟩ (10 + 1 / 2)).deltaTime = deltaCap ∧
    (CalculateDeltaTime ⟨0, 0, 10⟩ (10 + 1 / 64)).deltaTime = 10 + 1 / 64 - 10 :=
  ⟨(C20_delta_time_is_capped ⟨0, 0, 10⟩ (10 + 1 / 2)).2.2.2.2.2 (by norm_num),
   (C20_delta_time_is_capped ⟨0, 0, 10⟩ (10 + 1 / 64)).2.2.2.2.1 (by decide!) (by decide!)⟩

/-! ## Facts about the spatial hash -/

theorem truncate_mono (a b : ℚ) (h : a ≤ b) : truncate a ≤ truncate b := by
  unfold truncate
  split_ifs with ha hb hb
  · exact Int.floor_mono h
  · exact absurd (le_trans ha h) hb
  · have h1 : ⌈a⌉ ≤ (0 : Int) := Int.ceil_le.mpr (by simpa using le_of_lt (not_le.mp ha))
    have h2 : (0 : Int) ≤ ⌊b⌋ := Int.le_floor.mpr (by simpa using hb)
    exact le_trans h1 h2
  · exact Int.ceil_mono h

theorem toInt32_eq_some (q : ℚ) (i : Int) (h : toInt32 q = some i) :
    i = truncate q ∧ -2147483648 ≤ truncate q ∧ truncate q ≤ 2147483647 := by
  unfold toInt32 at h
  split_ifs at h with hr
  exact ⟨(Option.some.inj h).symm, hr.1, hr.2⟩

theorem div_eq_some (a b q : ℚ) (h : F32.div a b = some q) :
    b ≠ 0 ∧ q = round32 (a / b) ∧ |q| < pow2 128 := by
  unfold F32.div at h
  split_ifs at h with hz
  exact ⟨hz, toF32_eq_some _ _ h⟩

theorem div_of_bounds (a b : ℚ) (hb : b ≠ 0) (h1 : -2147483648 ≤ truncate (round32 (a / b)))
    (h2 : truncate (round32 (a / b)) ≤ 2147483647) :
    F32.div a b = some (round32 (a / b)) := by
  have hlt : |round32 (a / b)| < pow2 128 := by
    have hbig : (4294967296 : ℚ) < pow2 128 := by rw [pow2_eq]; norm_num
    unfold truncate at h1 h2
    rw [abs_lt]
    split_ifs at h1 h2 with hs
    · constructor
      · linarith
      · have := Int.lt_floor_add_one (round32 (a / b))
        have h3 : ((⌊round32 (a / b)⌋ : Int) : ℚ) ≤ 2147483647 := by exact_mod_cast h2
        linarith
    · constructor
      · have := Int.ceil_lt_add_one (round32 (a / b))
        have h3 : (-2147483648 : ℚ) ≤ ((⌈round32 (a / b)⌉ : Int) : ℚ) := by exact_mod_cast h1
        linarith
      · linarith [not_le.mp hs]
  simp [F32.div, hb, toF32, hlt]

theorem cellIndex_eq_some (sh : SpatialHash) (v : ℚ) (i : Int)
    (h : sh.cellIndex v = some i) :
    sh.cellSize ≠ 0 ∧ F32.div v sh.cellSize = some (round32 (v / sh.cellSize)) ∧
      i = truncate (round32 (v / sh.cellSize)) ∧ -2147483648 ≤ i ∧ i ≤ 2147483647 := by
  unfold SpatialHash.cellIndex at h
  cases hd : F32.div v sh.cellSize with
  | none => simp [hd] at h
  | some q =>
    simp only [hd] at h
    obtain ⟨hz, hq, -⟩ := div_eq_some _ _ _ hd
    obtain ⟨h1, h2, h3⟩ := toInt32_eq_some _ _ h
    subst hq
    exact ⟨hz, rfl, h1, h1 ▸ h2, h1 ▸ h3⟩

theorem cellIndex_of_range (sh : SpatialHash) (v : ℚ) (hz : sh.cellSize ≠ 0)
    (h1 : -2147483648 ≤ truncate (round32 (v / sh.cellSize)))
    (h2 : truncate (round32 (v / sh.cellSize)) ≤ 2147483647) :
    sh.cellIndex v = some (truncate (round32 (v / sh.cellSize))) := by
  simp [SpatialHash.cellIndex, div_of_bounds _ _ hz h1 h2, toInt32, h1, h2]

theorem cellIndex_mono (sh : SpatialHash) (hcs : 0 < sh.cellSize) (a b : ℚ) (i j : Int)
    (hab : a ≤ b) (ha : sh.cellIndex a = some i) (hb : sh.cellIndex b = some j) : i ≤ j := by
  rw [(cellIndex_eq_some sh a i ha).2.2.1, (cellIndex_eq_some sh b j hb).2.2.1]
  exact truncate_mono _ _ (round32_mono _ _ (div_le_div_of_nonneg_right hab (le_of_lt hcs)))

theorem inRange_iff (sh : SpatialHash) (v : ℚ) :
    sh.InRange v ↔ sh.cellSize ≠ 0 ∧ -2147483648 ≤ truncate (round32 (v / sh.cellSize)) ∧
      truncate (round32 (v / sh.cellSize)) < 2147483647 := by
  constructor
  · rintro ⟨q, hq, h1, h2⟩
    obtain ⟨hz, rfl, -⟩ := div_eq_some _ _ _ hq
    exact ⟨hz, h1, h2⟩
  · rintro ⟨hz, h1, h2⟩
    exact ⟨_, div_of_bounds _ _ hz h1 (le_of_lt h2), h1, h2⟩

theorem cellOf_eq_some (sh : SpatialHash) (p : Vec3) (cell : Int × Int × Int)
    (h : sh.cellOf p = some cell) :
    sh.cellIndex p.x = some cell.1 ∧ sh.cellIndex p.y = some cell.2.1 ∧
      sh.cellIndex p.z = some cell.2.2 := by
  unfold SpatialHash.cellOf at h
  cases hx : sh.cellIndex p.x with
  | none => simp [hx] at h
  | some x =>
    cases hy : sh.cellIndex p.y with
    | none => simp [hx, hy] at h
    | some y =>
      cases hz : sh.cellIndex p.z with
      | none => simp [hx, hy, hz] at h
      | some z =>
        simp only [hx, hy, hz, Option.some.injEq] at h
        subst h
        exact ⟨rfl, rfl, rfl⟩

theorem cellOf_of_cellIndex (sh : SpatialHash) (p : Vec3) (x y z : Int)
    (hx : sh.cellIndex p.x = some x) (hy : sh.cellIndex p.y = some y)
    (hz : sh.cellIndex p.z = some z) : sh.cellOf p = some (x, y, z) := by
  simp [SpatialHash.cellOf, hx, hy, hz]

theorem GetCellKey_eq_some (sh : SpatialHash) (p : Vec3) (key : Nat)
    (h : sh.GetCellKey p = some key) : ∃ cell, sh.cellOf p = some cell ∧ hashCell cell = key := by
  unfold SpatialHash.GetCellKey at h
  cases hc : sh.cellOf p with
  | none => simp [hc] at h
  | some cell =>
    simp only [hc, Option.some.injEq] at h
    exact ⟨cell, rfl, h⟩

/-- C14 (amended): for every cellSize > 0 and every coordinate, the per-axis cell
index that GetCellKey and the range bounds of the queries compute is the float
quotient coordinate / cellSize, that is the exact quotient rounded to the nearest
binary32 value, truncated toward zero, and it is defined when that value fits in
int32_t. When the exact quotient is itself a float value the index is
floor(coordinate / cellSize) for a coordinate >= 0 and ceil(coordinate / cellSize)
for a negative one. The coordinates -0.5 * cellSize and +0.5 * cellSize fall in
the same cell, 0. -/
theorem C14_cell_index_truncates (sh : SpatialHash) (hcs : 0 < sh.cellSize) (v : ℚ) :
    (∀ i, sh.cellIndex v = some i → i = truncate (round32 (v / sh.cellSize))) ∧
    (-2147483648 ≤ truncate (round32 (v / sh.cellSize)) ∧
        truncate (round32 (v / sh.cellSize)) ≤ 2147483647 →
      ∃ i, sh.cellIndex v = some i) ∧
    (IsF32 (v / sh.cellSize) → ∀ i, sh.cellIndex v = some i →
      i = if 0 ≤ v then ⌊v / sh.cellSize⌋ else ⌈v / sh.cellSize⌉) ∧
    (∀ p cell, sh.cellOf p = some cell →
      cell = (truncate (round32 (p.x / sh.cellSize)), truncate (round32 (p.y / sh.cellSize)),
        truncate (round32 (p.z / sh.cellSize)))) ∧
    sh.cellIndex (-(1 / 2) * sh.cellSize) = some 0 ∧
    sh.cellIndex (1 / 2 * sh.cellSize) = some 0 := by
  have hz : sh.cellSize ≠ 0 := ne_of_gt hcs
  refine ⟨?_, ?_, ?_, ?_, ?_, ?_⟩
  · intro i hi
    exact (cellIndex_eq_some sh v i hi).2.2.1
  · rintro ⟨h1, h2⟩
    exact ⟨_, cellIndex_of_range sh v hz h1 h2⟩
  · intro hrep i hi
    rw [(cellIndex_eq_some sh v i hi).2.2.1, hrep.1]
    unfold truncate
    by_cases hv : 0 ≤ v
    · rw [if_pos hv, if_pos (div_nonneg hv (le_of_lt hcs))]
    · rw [if_neg hv, if_neg (not_le.mpr (div_neg_of_neg_of_pos (not_le.mp hv) hcs))]
  · intro p cell hcell
    obtain ⟨hx, hy, hzz⟩ := cellOf_eq_some sh p cell hcell
    rw [← (cellIndex_eq_some sh _ _ hx).2.2.1, ← (cellIndex_eq_some sh _ _ hy).2.2.1,
      ← (cellIndex_eq_some sh _ _ hzz).2.2.1]
  · have e : -(1 / 2) * sh.cellSize / sh.cellSize = -(1 / 2) := by field_simp; ring
    have r : round32 (-(1 / 2) : ℚ) = -(1 / 2) := by decide!
    have t : truncate (-(1 / 2) : ℚ) = 0 := by decide!
    have := cellIndex_of_range sh (-(1 / 2) * sh.cellSize) hz (by rw [e, r, t]; decide)
      (by rw [e, r, t]; decide)
    rw [this, e, r, t]
  · have e : 1 / 2 * sh.cellSize / sh.cellSize = 1 / 2 := by field_simp; ring
    have r : round32 (1 / 2 : ℚ) = 1 / 2 := by decide!
    have t : truncate (1 / 2 : ℚ) = 0 := by decide!
    have := cellIndex_of_range sh (1 / 2 * sh.cellSize) hz (by rw [e, r, t]; decide)
      (by rw [e, r, t]; decide)
    rw [this, e, r, t]

/-- C14, witness: cells of 50 units (the default size) and the coordinate -75. -/
theorem C14_cell_index_truncates_witness :
    (SpatialHash.new 50).cellIndex (-(1 / 2) * (SpatialHash.new 50).cellSize) = some 0 ∧
    ∃ i, (SpatialHash.new 50).cellIndex (-75) = some i :=
  ⟨(C14_cell_index_truncates (SpatialHash.new 50) (by decide!) (-75)).2.2.2.2.1,
   (C14_cell_index_truncates (SpatialHash.new 50) (by decide!) (-75)).2.1 (by decide!)⟩

/-- C14, counterexample: with cellSize 1 the coordinate -0.5 gets the cell index
0, which is not floor(-0.5) = -1, and is the index of +0.5 as well. With cellSize
0.1f the coordinate 0.5 gets the cell index 5, the float quotient being 5, while
floor(0.5 / 0.1f) is 4. -/
theorem C14_counterexample_negative_coordinate :
    (SpatialHash.new 1).cellIndex (-1 / 2) = some 0 ∧
    ⌊(-1 / 2 : ℚ) / (SpatialHash.new 1).cellSize⌋ = -1 ∧
    (SpatialHash.new 1).cellIndex (1 / 2) = some 0 ∧
    (SpatialHash.new (round32 (1 / 10))).cellIndex (1 / 2) = some 5 ∧
    ⌊(1 / 2 : ℚ) / (SpatialHash.new (round32 (1 / 10))).cellSize⌋ = 4 := by
  decide!

theorem bucket_pushTo_self (sh : SpatialHash) (key : Nat) (id : EntityID) :
    (sh.pushTo key id).bucket key = sh.bucket key ++ [id] := by
  simp [SpatialHash.pushTo, SpatialHash.bucket, umFind_umAssign_self]

theorem bucket_pushTo_ne (sh : SpatialHash) (key k : Nat) (id : EntityID) (hk : k ≠ key) :
    (sh.pushTo key id).bucket k = sh.bucket k := by
  simp [SpatialHash.pushTo, SpatialHash.bucket, umFind_umAssign_ne _ _ _ _ hk]

theorem bucket_eraseFrom_self (sh : SpatialHash) (key : Nat) (id : EntityID) :
    (sh.eraseFrom key id).bucket key = (sh.bucket key).erase id := by
  simp [SpatialHash.eraseFrom, SpatialHash.bucket, umFind_umAssign_self]

theorem bucket_eraseFrom_ne (sh : SpatialHash) (key k : Nat) (id : EntityID) (hk : k ≠ key) :
    (sh.eraseFrom key id).bucket k = sh.bucket k := by
  simp [SpatialHash.eraseFrom, SpatialHash.bucket, umFind_umAssign_ne _ _ _ _ hk]

theorem cellEntities_eq_bucket (sh : SpatialHash) (cell : Int × Int × Int) :
    sh.cellEntities cell = sh.bucket (hashCell cell) := rfl

/-- Assigning a bucket replaces its contribution to the number of occurrences. -/
theorem occurrences_assign (sh : SpatialHash) (key : Nat) (c : GridCell) (id : EntityID) :
    ({ sh with grid := umAssign sh.grid key c } : SpatialHash).occurrences id +
        (sh.bucket key).count id =
      sh.occurrences id + c.entities.count id := by
  obtain ⟨cellSize, grid⟩ := sh
  induction grid with
  | nil => simp [SpatialHash.occurrences, SpatialHash.bucket, umAssign, umFind]
  | cons p rest ih =>
    obtain ⟨k', c'⟩ := p
    by_cases h : k' = key
    · simp [SpatialHash.occurrences, SpatialHash.bucket, umAssign, umFind, h]
      omega
    · simp only [SpatialHash.occurrences, SpatialHash.bucket, umAssign, umFind, h, if_false,
        List.map_cons, List.sum_cons] at ih ⊢
      omega

theorem occurrences_pushTo (sh : SpatialHash) (key : Nat) (id j : EntityID) :
    (sh.pushTo key id).occurrences j = sh.occurrences j + if id = j then 1 else 0 := by
  have h := occurrences_assign sh key { entities := sh.bucket key ++ [id] } j
  change (sh.pushTo key id).occurrences j + _ = _ at h
  simp only [List.count_append, List.count_singleton] at h
  by_cases hij : id = j
  · simp only [hij, beq_self_eq_true, if_true] at h ⊢
    omega
  · have : (id == j) = false := by simpa using hij
    simp only [this, hij, if_false, Bool.false_eq_true] at h ⊢
    omega

theorem occurrences_eraseFrom (sh : SpatialHash) (key : Nat) (id j : EntityID) :
    (sh.eraseFrom key id).occurrences j + (sh.bucket key).count j =
      sh.occurrences j + ((sh.bucket key).erase id).count j :=
  occurrences_assign sh key { entities := (sh.bucket key).erase id } j

theorem count_erase_le (l : List EntityID) (id j : EntityID) :
    (l.erase id).count j ≤ l.count j ∧ l.count j ≤ (l.erase id).count j + 1 ∧
      (j ≠ id → (l.erase id).count j = l.count j) := by
  by_cases h : j = id
  · subst h
    rw [List.count_erase_self]
    refine ⟨by omega, by omega, fun hn => absurd rfl hn⟩
  · rw [List.count_erase_of_ne h]
    exact ⟨le_refl _, by omega, fun _ => rfl⟩

theorem bucketsHolding_le_occurrences (sh : SpatialHash) (id : EntityID) :
    sh.bucketsHolding id ≤ sh.occurrences id := by
  obtain ⟨cellSize, grid⟩ := sh
  induction grid with
  | nil => simp [SpatialHash.bucketsHolding, SpatialHash.occurrences]
  | cons p rest ih =>
    simp only [SpatialHash.bucketsHolding, SpatialHash.occurrences, List.map_cons,
      List.sum_cons] at ih ⊢
    by_cases h : id ∈ p.2.entities
    · have hpos : 0 < p.2.entities.count id := List.count_pos_iff.mpr h
      simp only [List.filter_cons, h, decide_True, if_true, List.length_cons]
      omega
    · simp only [List.filter_cons, h, decide_False, Bool.false_eq_true, if_false]
      omega

/-- C12 (amended): for every SpatialHash state, id and positions oldPos, newPos
whose cell keys are defined, Update(id, oldPos, newPos) leaves the total number of
occurrences of id over all buckets unchanged when the two keys are equal or id
occurs in the bucket of oldPos, and adds one occurrence otherwise; so an entity
with at most one occurrence, recorded in the bucket of oldPos, is recorded in at
most one bucket after the call. -/
theorem C12_update_occurrences (sh : SpatialHash) (id : EntityID) (oldPos newPos : Vec3)
    (oldKey newKey : Nat) (hold : sh.GetCellKey oldPos = some oldKey)
    (hnew : sh.GetCellKey newPos = some newKey) :
    ∃ sh', sh.Update id oldPos newPos = some sh' ∧
      (oldKey = newKey ∨ id ∈ sh.bucket oldKey → sh'.occurrences id = sh.occurrences id) ∧
      (oldKey ≠ newKey ∧ id ∉ sh.bucket oldKey →
        sh'.occurrences id = sh.occurrences id + 1) ∧
      (oldKey = newKey ∨ id ∈ sh.bucket oldKey → sh.occurrences id ≤ 1 →
        sh'.bucketsHolding id ≤ 1) := by
  by_cases hk : oldKey = newKey
  · refine ⟨sh, by simp [SpatialHash.Update, hold, hnew, hk], fun _ => rfl, ?_, ?_⟩
    · intro h; exact absurd hk h.1
    · intro _ h1; exact le_trans (bucketsHolding_le_occurrences sh id) h1
  · have he := occurrences_eraseFrom sh oldKey id id
    have hp := occurrences_pushTo (sh.eraseFrom oldKey id) newKey id id
    rw [List.count_erase_self] at he
    simp only [if_true] at hp
    have hsame : id ∈ sh.bucket oldKey →
        ((sh.eraseFrom oldKey id).pushTo newKey id).occurrences id = sh.occurrences id := by
      intro hmem
      have hpos : 0 < (sh.bucket oldKey).count id := List.count_pos_iff.mpr hmem
      omega
    refine ⟨(sh.eraseFrom oldKey id).pushTo newKey id,
      by simp [SpatialHash.Update, hold, hnew, hk], ?_, ?_, ?_⟩
    · rintro (h | h)
      · exact absurd h hk
      · exact hsame h
    · rintro ⟨_, hnot⟩
      have hzero : (sh.bucket oldKey).count id = 0 := List.count_eq_zero.mpr hnot
      omega
    · rintro (h | h) h1
      · exact absurd h hk
      · exact le_trans (bucketsHolding_le_occurrences _ id) (hsame h ▸ h1)

/-- C12, witness: entity 7 recorded at the origin moves to (5,0,0), cell size 1. -/
theorem C12_update_occurrences_witness :
    ∃ sh', ({ cellSize := 1, grid := [(0, { entities := [7] })] } : SpatialHash).Update 7
        ⟨0, 0, 0⟩ ⟨5, 0, 0⟩ = some sh' ∧ sh'.occurrences 7 = 1 := by
  obtain ⟨sh', h1, h2, _, _⟩ := C12_update_occurrences
    { cellSize := 1, grid := [(0, { entities := [7] })] } 7 ⟨0, 0, 0⟩ ⟨5, 0, 0⟩
    0 369280465 (by decide!) (by decide!)
  exact ⟨sh', h1, by rw [h2 (Or.inr (by decide))]; decide⟩

/-- C12, counterexample: entity 7 is recorded once, in the bucket of the origin
(cell size 1). Update(7, (3,0,0), (5,0,0)) names an old position in whose bucket 7
is not recorded: afterwards 7 occurs twice, in two buckets. -/
theorem C12_counterexample_stale_old_position :
    ({ cellSize := 1, grid := [(0, { entities := [7] })] } : SpatialHash).occurrences 7 = 1 ∧
    ({ cellSize := 1, grid := [(0, { entities := [7] })] } : SpatialHash).bucketsHolding 7 = 1 ∧
    (({ cellSize := 1, grid := [(0, { entities := [7] })] } : SpatialHash).Update 7
        ⟨3, 0, 0⟩ ⟨5, 0, 0⟩).map (fun s => (s.occurrences 7, s.bucketsHolding 7)) =
      some (2, 2) := by
  decide!

theorem perm_erase_append_singleton (l : List EntityID) (id : EntityID) :
    ((l ++ [id]).erase id).Perm l := by
  rw [List.perm_iff_count]
  intro a
  by_cases h : a = id
  · subst h
    rw [List.count_erase_self, List.count_append, List.count_singleton_self]
    omega
  · rw [List.count_erase_of_ne h, List.count_append]
    have : List.count a [id] = 0 := List.count_eq_zero.mpr (by simpa using h)
    omega

/-- C15: for every SpatialHash state, id and position pos whose cell key is
defined (whatever other cells share that key), Remove(id, pos) removes at most
one occurrence of id, from the bucket of that key only, and leaves the
occurrences of every other id in every bucket unchanged; and Insert(id, pos)
followed by Remove(id, pos) leaves every bucket holding the same multiset of ids
as before the Insert. -/
theorem C15_remove_one_occurrence (sh : SpatialHash) (id : EntityID) (pos : Vec3)
    (key : Nat) (hkey : sh.GetCellKey pos = some key) :
    (∃ sh', sh.Remove id pos = some sh' ∧
      sh'.occurrences id ≤ sh.occurrences id ∧ sh.occurrences id ≤ sh'.occurrences id + 1 ∧
      (∀ k, (sh'.bucket k).count id ≤ (sh.bucket k).count id) ∧
      (∀ k, k ≠ key → sh'.bucket k = sh.bucket k) ∧
      (∀ k j, j ≠ id → (sh'.bucket k).count j = (sh.bucket k).count j)) ∧
    (∃ sh1 sh2, sh.Insert id pos = some sh1 ∧ sh1.Remove id pos = some sh2 ∧
      ∀ k, (sh2.bucket k).Perm (sh.bucket k)) := by
  constructor
  · refine ⟨sh.eraseFrom key id, by simp [SpatialHash.Remove, hkey], ?_, ?_, ?_, ?_, ?_⟩
    · have he := occurrences_eraseFrom sh key id id
      have := (count_erase_le (sh.bucket key) id id).1
      omega
    · have he := occurrences_eraseFrom sh key id id
      have := (count_erase_le (sh.bucket key) id id).2.1
      omega
    · intro k
      by_cases hk : k = key
      · subst hk
        rw [bucket_eraseFrom_self]
        exact (count_erase_le _ id id).1
      · rw [bucket_eraseFrom_ne sh key k id hk]
    · intro k hk
      exact bucket_eraseFrom_ne sh key k id hk
    · intro k j hj
      by_cases hk : k = key
      · subst hk
        rw [bucket_eraseFrom_self]
        exact (count_erase_le _ id j).2.2 hj
      · rw [bucket_eraseFrom_ne sh key k id hk]
  · have hkey1 : (sh.pushTo key id).GetCellKey pos = some key := hkey
    refine ⟨sh.pushTo key id, (sh.pushTo key id).eraseFrom key id,
      by simp [SpatialHash.Insert, hkey], by simp [SpatialHash.Remove, hkey1], ?_⟩
    intro k
    by_cases hk : k = key
    · subst hk
      rw [bucket_eraseFrom_self, bucket_pushTo_self]
      exact perm_erase_append_singleton _ _
    · rw [bucket_eraseFrom_ne _ key k id hk, bucket_pushTo_ne sh key k id hk]

/-- C15, witness: the cells (-1,-1,1) and (-1,1,-1) share the key 28855157; the
bucket holds entity 3 of the first cell, and entity 7 is inserted into and
removed from the second. -/
theorem C15_remove_one_occurrence_witness :
    ∃ sh1 sh2,
      ({ cellSize := 1, grid := [(28855157, { entities := [3] })] } : SpatialHash).Insert 7
        ⟨-1, 1, -1⟩ = some sh1 ∧
      sh1.Remove 7 ⟨-1, 1, -1⟩ = some sh2 ∧
      ∀ k, (sh2.bucket k).Perm
        (({ cellSize := 1, grid := [(28855157, { entities := [3] })] } : SpatialHash).bucket k) :=
  (C15_remove_one_occurrence { cellSize := 1, grid := [(28855157, { entities := [3] })] } 7
    ⟨-1, 1, -1⟩ 28855157 (by decide!)).2

theorem mem_int32Loop (lo hi x : Int) (xs : List Int) (h : int32Loop lo hi = some xs)
    (h1 : lo ≤ x) (h2 : x ≤ hi) : x ∈ xs := by
  unfold int32Loop at h
  split_ifs at h with ha hb
  · omega
  · simp only [Option.some.injEq] at h
    subst h
    rw [List.mem_map]
    refine ⟨(x - lo).toNat, List.mem_range.mpr ?_, ?_⟩
    · omega
    · simp only [Int.ofNat_eq_coe]
      omega

theorem int32Loop_self (x : Int) (xs : List Int) (h : int32Loop x x = some xs) : xs = [x] := by
  unfold int32Loop at h
  split_ifs at h with ha hb
  · omega
  · simp only [Option.some.injEq] at h
    subst h
    have e : (x - x + 1).toNat = 1 := by omega
    rw [e]
    simp [List.range_succ]

theorem int32Loop_defined (lo hi : Int) (h : hi < 2147483647) :
    ∃ xs, int32Loop lo hi = some xs := by
  unfold int32Loop
  split_ifs with ha hb
  · exact ⟨_, rfl⟩
  · omega
  · exact ⟨_, rfl⟩

/-- The loops of a query that returns have visited every cell between the
bounds. -/
theorem mem_visit (sh : SpatialHash) (lo hi cell : Int × Int × Int) (res : List EntityID)
    (id : EntityID) (h : sh.visit lo hi = some res)
    (hx : lo.1 ≤ cell.1 ∧ cell.1 ≤ hi.1) (hy : lo.2.1 ≤ cell.2.1 ∧ cell.2.1 ≤ hi.2.1)
    (hz : lo.2.2 ≤ cell.2.2 ∧ cell.2.2 ≤ hi.2.2) (hid : id ∈ sh.cellEntities cell) :
    id ∈ res := by
  unfold SpatialHash.visit at h
  cases hxs : int32Loop lo.1 hi.1 with
  | none => simp [hxs] at h
  | some xs =>
    have mx := mem_int32Loop _ _ _ _ hxs hx.1 hx.2
    have nx : xs ≠ [] := List.ne_nil_of_mem mx
    simp only [hxs, nx, if_false] at h
    cases hys : int32Loop lo.2.1 hi.2.1 with
    | none => simp [hys] at h
    | some ys =>
      have my := mem_int32Loop _ _ _ _ hys hy.1 hy.2
      have ny : ys ≠ [] := List.ne_nil_of_mem my
      simp only [hys, ny, if_false] at h
      cases hzs : int32Loop lo.2.2 hi.2.2 with
      | none => simp [hzs] at h
      | some zs =>
        have mz := mem_int32Loop _ _ _ _ hzs hz.1 hz.2
        simp only [hzs, Option.some.injEq] at h
        subst h
        simp only [List.mem_flatMap]
        exact ⟨cell.1, mx, cell.2.1, my, cell.2.2, mz, hid⟩

/-- A query over a single cell returns the bucket of that cell. -/
theorem visit_single (sh : SpatialHash) (cell : Int × Int × Int) (res : List EntityID)
    (h : sh.visit cell cell = some res) : res = sh.cellEntities cell := by
  unfold SpatialHash.visit at h
  cases hxs : int32Loop cell.1 cell.1 with
  | none => simp [hxs] at h
  | some xs =>
    have ex := int32Loop_self _ _ hxs
    subst ex
    cases hys : int32Loop cell.2.1 cell.2.1 with
    | none => simp [hxs, hys] at h
    | some ys =>
      have ey := int32Loop_self _ _ hys
      subst ey
      cases hzs : int32Loop cell.2.2 cell.2.2 with
      | none => simp [hxs, hys, hzs] at h
      | some zs =>
        have ez := int32Loop_self _ _ hzs
        subst ez
        simp only [hxs, hys, hzs, List.cons_ne_nil, if_false, Option.some.injEq] at h
        subst h
        simp

theorem visit_defined (sh : SpatialHash) (lo hi : Int × Int × Int)
    (hx : hi.1 < 2147483647) (hy : hi.2.1 < 2147483647) (hz : hi.2.2 < 2147483647) :
    ∃ res, sh.visit lo hi = some res := by
  obtain ⟨xs, hxs⟩ := int32Loop_defined lo.1 hi.1 hx
  obtain ⟨ys, hys⟩ := int32Loop_defined lo.2.1 hi.2.1 hy
  obtain ⟨zs, hzs⟩ := int32Loop_defined lo.2.2 hi.2.2 hz
  unfold SpatialHash.visit
  simp only [hxs, hys, hzs]
  split_ifs <;> exact ⟨_, rfl⟩

theorem cellOf_defined (sh : SpatialHash) (p : Vec3) (hx : sh.InRange p.x) (hy : sh.InRange p.y)
    (hz : sh.InRange p.z) :
    ∃ cell, sh.cellOf p = some cell ∧ cell.1 < 2147483647 ∧ cell.2.1 < 2147483647 ∧
      cell.2.2 < 2147483647 := by
  rw [inRange_iff] at hx hy hz
  refine ⟨(truncate (round32 (p.x / sh.cellSize)), truncate (round32 (p.y / sh.cellSize)),
    truncate (round32 (p.z / sh.cellSize))), ?_, hx.2.2, hy.2.2, hz.2.2⟩
  apply cellOf_of_cellIndex
  · exact cellIndex_of_range sh _ hx.1 hx.2.1 (le_of_lt hx.2.2)
  · exact cellIndex_of_range sh _ hy.1 hy.2.1 (le_of_lt hy.2.2)
  · exact cellIndex_of_range sh _ hz.1 hz.2.1 (le_of_lt hz.2.2)

/-- A query returns when the conversions of its six bounds are defined and stay
below INT32_MAX. -/
theorem QueryAABB_defined (sh : SpatialHash) (box : AABB)
    (h : ∀ v ∈ [box.min.x, box.min.y, box.min.z, box.max.x, box.max.y, box.max.z],
      sh.InRange v) : ∃ res, sh.QueryAABB box = some res := by
  obtain ⟨lo, hlo, -⟩ := cellOf_defined sh box.min (h box.min.x (by simp))
    (h box.min.y (by simp)) (h box.min.z (by simp))
  obtain ⟨hi, hhi, bx, by', bz⟩ := cellOf_defined sh box.max (h box.max.x (by simp))
    (h box.max.y (by simp)) (h box.max.z (by simp))
  obtain ⟨res, hres⟩ := visit_defined sh lo hi bx by' bz
  exact ⟨res, by simp [SpatialHash.QueryAABB, hlo, hhi, hres]⟩

theorem QuerySphere_defined (sh : SpatialHash) (c : Vec3) (r : ℚ)
    (h : ∃ lower upper, sphereMin c r = some lower ∧ sphereMax c r = some upper ∧
      ∀ v ∈ [lower.x, lower.y, lower.z, upper.x, upper.y, upper.z], sh.InRange v) :
    ∃ res, sh.QuerySphere c r = some res := by
  obtain ⟨lower, upper, hlower, hupper, h⟩ := h
  have h1 : sh.InRange lower.x := h lower.x (List.mem_cons_self _ _)
  have h2 : sh.InRange lower.y := h lower.y (by simp only [List.mem_cons, true_or, or_true])
  have h3 : sh.InRange lower.z := h lower.z (by simp only [List.mem_cons, true_or, or_true])
  have h4 : sh.InRange upper.x := h upper.x (by simp only [List.mem_cons, true_or, or_true])
  have h5 : sh.InRange upper.y := h upper.y (by simp only [List.mem_cons, true_or, or_true])
  have h6 : sh.InRange upper.z :=
    h upper.z (by simp only [List.mem_cons, List.mem_singleton, true_or, or_true])
  obtain ⟨lo, hlo, -⟩ := cellOf_defined sh lower h1 h2 h3
  obtain ⟨hi, hhi, bx, by', bz⟩ := cellOf_defined sh upper h4 h5 h6
  obtain ⟨res, hres⟩ := visit_defined sh lo hi bx by' bz
  refine ⟨res, ?_⟩
  unfold SpatialHash.QuerySphere
  rw [hlower, hupper]
  simp only [hlo, hhi, hres]

theorem sphereMin_eq_some (c : Vec3) (r : ℚ) (lower : Vec3) (h : sphereMin c r = some lower) :
    F32.sub c.x r = some lower.x ∧ F32.sub c.y r = some lower.y ∧
      F32.sub c.z r = some lower.z := by
  unfold sphereMin at h
  cases hx : F32.sub c.x r with
  | none => simp [hx] at h
  | some x =>
    cases hy : F32.sub c.y r with
    | none => simp [hx, hy] at h
    | some y =>
      cases hz : F32.sub c.z r with
      | none => simp [hx, hy, hz] at h
      | some z =>
        simp only [hx, hy, hz, Option.some.injEq] at h
        subst h
        exact ⟨rfl, rfl, rfl⟩

theorem sphereMax_eq_some (c : Vec3) (r : ℚ) (upper : Vec3) (h : sphereMax c r = some upper) :
    F32.add c.x r = some upper.x ∧ F32.add c.y r = some upper.y ∧
      F32.add c.z r = some upper.z := by
  unfold sphereMax at h
  cases hx : F32.add c.x r with
  | none => simp [hx] at h
  | some x =>
    cases hy : F32.add c.y r with
    | none => simp [hx, hy] at h
    | some y =>
      cases hz : F32.add c.z r with
      | none => simp [hx, hy, hz] at h
      | some z =>
        simp only [hx, hy, hz, Option.some.injEq] at h
        subst h
        exact ⟨rfl, rfl, rfl⟩

/-- With radius 0 the bounds of a sphere query are its centre. -/
theorem sphere_zero (p : Vec3) (hp : p.IsF32) :
    sphereMin p 0 = some p ∧ sphereMax p 0 = some p := by
  obtain ⟨hx, hy, hz⟩ := hp
  unfold sphereMin sphereMax F32.sub F32.add
  rw [sub_zero, sub_zero, sub_zero, add_zero, add_zero, add_zero, toF32_of_isF32 _ hx,
    toF32_of_isF32 _ hy, toF32_of_isF32 _ hz]
  exact ⟨rfl, rfl⟩

/-- A `float` value between the exact bounds lies between the `float` bounds. -/
theorem float_between (a c r lo hi : ℚ) (ha : IsF32 a) (h1 : c - r ≤ a) (h2 : a ≤ c + r)
    (hlo : F32.sub c r = some lo) (hhi : F32.add c r = some hi) : lo ≤ a ∧ a ≤ hi := by
  have e := toF32_of_isF32 a ha
  exact ⟨toF32_mono _ _ _ _ h1 hlo e, toF32_mono _ _ _ _ h2 e hhi⟩

/-- A query whose bounds enclose a position returns the ids of the bucket of
that position. -/
theorem query_hit (sh : SpatialHash) (hcs : 0 < sh.cellSize) (p lo hi : Vec3)
    (cell clo chi : Int × Int × Int) (res : List EntityID) (id : EntityID)
    (hcell : sh.cellOf p = some cell) (hlo : sh.cellOf lo = some clo)
    (hhi : sh.cellOf hi = some chi) (hres : sh.visit clo chi = some res)
    (hx : lo.x ≤ p.x ∧ p.x ≤ hi.x) (hy : lo.y ≤ p.y ∧ p.y ≤ hi.y)
    (hz : lo.z ≤ p.z ∧ p.z ≤ hi.z) (hid : id ∈ sh.bucket (hashCell cell)) : id ∈ res := by
  obtain ⟨px, py, pz⟩ := cellOf_eq_some sh p cell hcell
  obtain ⟨lx, ly, lz⟩ := cellOf_eq_some sh lo clo hlo
  obtain ⟨ux, uy, uz⟩ := cellOf_eq_some sh hi chi hhi
  exact mem_visit sh clo chi cell res id hres
    ⟨cellIndex_mono sh hcs _ _ _ _ hx.1 lx px, cellIndex_mono sh hcs _ _ _ _ hx.2 px ux⟩
    ⟨cellIndex_mono sh hcs _ _ _ _ hy.1 ly py, cellIndex_mono sh hcs _ _ _ _ hy.2 py uy⟩
    ⟨cellIndex_mono sh hcs _ _ _ _ hz.1 lz pz, cellIndex_mono sh hcs _ _ _ _ hz.2 pz uz⟩ hid

theorem QueryAABB_hit (sh : SpatialHash) (hcs : 0 < sh.cellSize) (p : Vec3) (key : Nat)
    (id : EntityID) (hkey : sh.GetCellKey p = some key) (hid : id ∈ sh.bucket key)
    (box : AABB) (res : List EntityID) (hbox : box.Contains p = true)
    (hres : sh.QueryAABB box = some res) : id ∈ res := by
  obtain ⟨cell, hcell, hh⟩ := GetCellKey_eq_some sh p key hkey
  obtain ⟨bx, by', bz⟩ := (AABB.contains_iff _ _).mp hbox
  unfold SpatialHash.QueryAABB at hres
  cases hlo : sh.cellOf box.min with
  | none => simp [hlo] at hres
  | some clo =>
    cases hhi : sh.cellOf box.max with
    | none => simp [hlo, hhi] at hres
    | some chi =>
      simp only [hlo, hhi] at hres
      exact query_hit sh hcs p box.min box.max cell clo chi res id hcell hlo hhi hres
        bx by' bz (hh ▸ hid)

theorem axis_within (a c r d : ℚ) (hr : 0 ≤ r) (h : (a - c) * (a - c) + d ≤ r * r)
    (hd : 0 ≤ d) : c - r ≤ a ∧ a ≤ c + r := by
  constructor
  · by_contra hcon
    push_neg at hcon
    nlinarith
  · by_contra hcon
    push_neg at hcon
    nlinarith

theorem QuerySphere_hit (sh : SpatialHash) (hcs : 0 < sh.cellSize) (p : Vec3) (hp : p.IsF32)
    (key : Nat)
    (id : EntityID) (hkey : sh.GetCellKey p = some key) (hid : id ∈ sh.bucket key)
    (c : Vec3) (r : ℚ) (res : List EntityID) (hr : 0 ≤ r) (hd : distSq p c ≤ r * r)
    (hres : sh.QuerySphere c r = some res) : id ∈ res := by
  obtain ⟨cell, hcell, hh⟩ := GetCellKey_eq_some sh p key hkey
  unfold distSq at hd
  have sx := mul_self_nonneg (p.x - c.x)
  have sy := mul_self_nonneg (p.y - c.y)
  have sz := mul_self_nonneg (p.z - c.z)
  have ax := axis_within p.x c.x r ((p.y - c.y) * (p.y - c.y) + (p.z - c.z) * (p.z - c.z))
    hr (by linarith) (by linarith)
  have ay := axis_within p.y c.y r ((p.x - c.x) * (p.x - c.x) + (p.z - c.z) * (p.z - c.z))
    hr (by linarith) (by linarith)
  have az := axis_within p.z c.z r ((p.x - c.x) * (p.x - c.x) + (p.y - c.y) * (p.y - c.y))
    hr (by linarith) (by linarith)
  unfold SpatialHash.QuerySphere at hres
  cases hlower : sphereMin c r with
  | none => simp [hlower] at hres
  | some lower =>
    cases hupper : sphereMax c r with
    | none => simp [hlower, hupper] at hres
    | some upper =>
      obtain ⟨lx, ly, lz⟩ := sphereMin_eq_some c r lower hlower
      obtain ⟨ux, uy, uz⟩ := sphereMax_eq_some c r upper hupper
      have bx := float_between p.x c.x r _ _ hp.1 ax.1 ax.2 lx ux
      have by' := float_between p.y c.y r _ _ hp.2.1 ay.1 ay.2 ly uy
      have bz := float_between p.z c.z r _ _ hp.2.2 az.1 az.2 lz uz
      cases hlo : sh.cellOf lower with
      | none => simp [hlower, hupper, hlo] at hres
      | some clo =>
        cases hhi : sh.cellOf upper with
        | none => simp [hlower, hupper, hlo, hhi] at hres
        | some chi =>
          simp only [hlower, hupper, hlo, hhi] at hres
          exact query_hit sh hcs p _ _ cell clo chi res id hcell hlo hhi hres bx by' bz
            (hh ▸ hid)

theorem GetCellKey_congr (sh sh' : SpatialHash) (h : sh'.cellSize = sh.cellSize) (p : Vec3) :
    sh'.GetCellKey p = sh.GetCellKey p := by
  simp [SpatialHash.GetCellKey, SpatialHash.cellOf, SpatialHash.cellIndex, h]

/-- A sequence of Insert calls keeps the cell size, keeps what the buckets held,
and records every inserted id in the bucket of its position. -/
theorem insertAll_spec (inserts : List (EntityID × Vec3)) :
    ∀ sh0 sh : SpatialHash, sh0.insertAll inserts = some sh →
      sh.cellSize = sh0.cellSize ∧
      (∀ k j, j ∈ sh0.bucket k → j ∈ sh.bucket k) ∧
      (∀ id p, (id, p) ∈ inserts →
        ∃ key, sh0.GetCellKey p = some key ∧ id ∈ sh.bucket key) := by
  induction inserts with
  | nil =>
    intro sh0 sh h
    simp only [SpatialHash.insertAll, Option.some.injEq] at h
    subst h
    exact ⟨rfl, fun _ _ hj => hj, fun _ _ hm => absurd hm (List.not_mem_nil _)⟩
  | cons ins rest ih =>
    intro sh0 sh h
    obtain ⟨id0, p0⟩ := ins
    unfold SpatialHash.insertAll at h
    cases hkey : sh0.GetCellKey p0 with
    | none => simp [SpatialHash.Insert, hkey] at h
    | some key =>
      simp only [SpatialHash.Insert, hkey] at h
      obtain ⟨hsize, hkeep, hnew⟩ := ih (sh0.pushTo key id0) sh h
      have hgrow : ∀ k j, j ∈ sh0.bucket k → j ∈ (sh0.pushTo key id0).bucket k := by
        intro k j hj
        by_cases hk : k = key
        · subst hk
          rw [bucket_pushTo_self]
          exact List.mem_append_left _ hj
        · rw [bucket_pushTo_ne sh0 key k id0 hk]
          exact hj
      refine ⟨hsize, fun k j hj => hkeep k j (hgrow k j hj), ?_⟩
      intro id p hm
      rcases List.mem_cons.mp hm with e | hm'
      · obtain ⟨rfl, rfl⟩ := Prod.mk.inj e
        refine ⟨key, hkey, hkeep key id ?_⟩
        rw [bucket_pushTo_self]
        simp
      · obtain ⟨k, hk, hin⟩ := hnew id p hm'
        exact ⟨k, (GetCellKey_congr sh0 (sh0.pushTo key id0) rfl p) ▸ hk, hin⟩

/-- C11 (amended): for every cellSize > 0, every id and all positions p, p2 whose
cells have different bucket keys: after Insert(id, p) on an empty index and then
Update(id, p, p2), a QuerySphere(p, 0) call that returns does not contain id,
while every QuerySphere (radius >= 0) or QueryAABB call that returns and whose
volume covers p2 does contain id; the queries return when their six range bounds
are finite and the conversions of their quotients by cellSize are defined and
below INT32_MAX. The two statements on QuerySphere are for positions whose
coordinates are float values, as the coordinates of every glm::vec3 are. -/
theorem C11_update_moves_entity (cellSize : ℚ) (hcs : 0 < cellSize) (id : EntityID)
    (p p2 : Vec3) (k k2 : Nat) (hk : (SpatialHash.new cellSize).GetCellKey p = some k)
    (hk2 : (SpatialHash.new cellSize).GetCellKey p2 = some k2) (hne : k ≠ k2) :
    ∃ sh1 sh2, (SpatialHash.new cellSize).Insert id p = some sh1 ∧
      sh1.Update id p p2 = some sh2 ∧
      (p.IsF32 → ∀ res, sh2.QuerySphere p 0 = some res → id ∉ res) ∧
      (p2.IsF32 → ∀ c r res, 0 ≤ r → distSq p2 c ≤ r * r →
        sh2.QuerySphere c r = some res → id ∈ res) ∧
      (∀ box res, box.Contains p2 = true → sh2.QueryAABB box = some res → id ∈ res) ∧
      (∀ c r, (∃ lower upper, sphereMin c r = some lower ∧ sphereMax c r = some upper ∧
          ∀ v ∈ [lower.x, lower.y, lower.z, upper.x, upper.y, upper.z], sh2.InRange v) →
        ∃ res, sh2.QuerySphere c r = some res) ∧
      (∀ box : AABB,
        (∀ v ∈ [box.min.x, box.min.y, box.min.z, box.max.x, box.max.y, box.max.z],
          sh2.InRange v) → ∃ res, sh2.QueryAABB box = some res) := by
  have hk1 : ((SpatialHash.new cellSize).pushTo k id).GetCellKey p = some k := hk
  have hk21 : ((SpatialHash.new cellSize).pushTo k id).GetCellKey p2 = some k2 := hk2
  have hkey : ((((SpatialHash.new cellSize).pushTo k id).eraseFrom k id).pushTo k2
      id).GetCellKey p = some k := hk
  have hkey2 : ((((SpatialHash.new cellSize).pushTo k id).eraseFrom k id).pushTo k2
      id).GetCellKey p2 = some k2 := hk2
  have hcs2 : 0 < ((((SpatialHash.new cellSize).pushTo k id).eraseFrom k id).pushTo k2
      id).cellSize := hcs
  have hin : id ∈ ((((SpatialHash.new cellSize).pushTo k id).eraseFrom k id).pushTo k2
      id).bucket k2 := by
    rw [bucket_pushTo_self]; simp
  refine ⟨(SpatialHash.new cellSize).pushTo k id,
    (((SpatialHash.new cellSize).pushTo k id).eraseFrom k id).pushTo k2 id,
    by simp [SpatialHash.Insert, hk], by simp [SpatialHash.Update, hk1, hk21, hne],
    ?_, ?_, ?_, fun c r h => QuerySphere_defined _ c r h, fun box h => QueryAABB_defined _ box h⟩
  · intro hp res hres
    obtain ⟨cell, hcell, hh⟩ := GetCellKey_eq_some _ p k hkey
    unfold SpatialHash.QuerySphere at hres
    rw [(sphere_zero p hp).1, (sphere_zero p hp).2] at hres
    simp only [hcell] at hres
    rw [visit_single _ cell res hres, cellEntities_eq_bucket, hh,
      bucket_pushTo_ne _ k2 k id hne, bucket_eraseFrom_self, bucket_pushTo_self]
    simp [SpatialHash.bucket, SpatialHash.new, umFind]
  · intro hp2 c r res hr hd hres
    exact QuerySphere_hit _ hcs2 p2 hp2 k2 id hkey2 hin c r res hr hd hres
  · intro box res hbox hres
    exact QueryAABB_hit _ hcs2 p2 k2 id hkey2 hin box res hbox hres

/-- C11, witness: cell size 1, entity 7 moves from the origin to (5,0,0). -/
theorem C11_update_moves_entity_witness :
    ∃ sh1 sh2, (SpatialHash.new 1).Insert 7 ⟨0, 0, 0⟩ = some sh1 ∧
      sh1.Update 7 ⟨0, 0, 0⟩ ⟨5, 0, 0⟩ = some sh2 ∧
      (∀ res, sh2.QuerySphere ⟨0, 0, 0⟩ 0 = some res → 7 ∉ res) ∧
      (∀ res, sh2.QueryAABB ⟨⟨4, -1, -1⟩, ⟨6, 1, 1⟩⟩ = some res → 7 ∈ res) := by
  obtain ⟨sh1, sh2, h1, h2, h3, _, h5, _, _⟩ := C11_update_moves_entity 1 (by norm_num) 7
    ⟨0, 0, 0⟩ ⟨5, 0, 0⟩ 0 369280465 (by decide!) (by decide!) (by decide)
  exact ⟨sh1, sh2, h1, h2, h3 (by decide!), fun res hres => h5 _ res (by decide!) hres⟩

/-- C11, counterexample: with cell size 1 the positions (-1,-1,1) and (-1,1,-1)
lie in different cells whose keys are both 28855157. After Insert(7, p) on an
empty index, Update(7, p, p2) changes nothing, and QuerySphere(p, 0) returns 7. -/
theorem C11_counterexample_colliding_cells :
    (SpatialHash.new 1).cellOf ⟨-1, -1, 1⟩ = some (-1, -1, 1) ∧
    (SpatialHash.new 1).cellOf ⟨-1, 1, -1⟩ = some (-1, 1, -1) ∧
    (SpatialHash.new 1).Insert 7 ⟨-1, -1, 1⟩ =
      some { cellSize := 1, grid := [(28855157, { entities := [7] })] } ∧
    ({ cellSize := 1, grid := [(28855157, { entities := [7] })] } : SpatialHash).Update 7
        ⟨-1, -1, 1⟩ ⟨-1, 1, -1⟩ =
      some { cellSize := 1, grid := [(28855157, { entities := [7] })] } ∧
    ({ cellSize := 1, grid := [(28855157, { entities := [7] })] } : SpatialHash).QuerySphere
        ⟨-1, -1, 1⟩ 0 = some [7] := by
  decide!

/-- C13: for every SpatialHash with cellSize > 0 built by Insert calls on an
empty index, every id inserted at a position p appears in the result of every
QueryAABB(box) call that returns with box.min <= p <= box.max on all axes, and of
every QuerySphere(center, radius) call that returns with radius >= 0 and
|p - center|^2 <= radius^2, whatever the signs of the coordinates; the queries
return when their six range bounds are finite and the conversions of their
quotients by cellSize are defined and below INT32_MAX. The statement on
QuerySphere is for a position p whose coordinates are float values, as the
coordinates of every glm::vec3 are. -/
theorem C13_queries_are_complete (cellSize : ℚ) (hcs : 0 < cellSize)
    (inserts : List (EntityID × Vec3)) (sh : SpatialHash)
    (hbuild : (SpatialHash.new cellSize).insertAll inserts = some sh) (id : EntityID)
    (p : Vec3) (hmem : (id, p) ∈ inserts) :
    (∀ box res, box.Contains p = true → sh.QueryAABB box = some res → id ∈ res) ∧
    (p.IsF32 → ∀ c r res, 0 ≤ r → distSq p c ≤ r * r →
      sh.QuerySphere c r = some res → id ∈ res) ∧
    (∀ box : AABB,
      (∀ v ∈ [box.min.x, box.min.y, box.min.z, box.max.x, box.max.y, box.max.z],
        sh.InRange v) → ∃ res, sh.QueryAABB box = some res) ∧
    (∀ c r, (∃ lower upper, sphereMin c r = some lower ∧ sphereMax c r = some upper ∧
        ∀ v ∈ [lower.x, lower.y, lower.z, upper.x, upper.y, upper.z], sh.InRange v) →
      ∃ res, sh.QuerySphere c r = some res) := by
  obtain ⟨hsize, -, hnew⟩ := insertAll_spec inserts (SpatialHash.new cellSize) sh hbuild
  obtain ⟨key, hkey, hin⟩ := hnew id p hmem
  have hkey' : sh.GetCellKey p = some key := by
    rw [GetCellKey_congr (SpatialHash.new cellSize) sh hsize p]; exact hkey
  have hcs' : 0 < sh.cellSize := by rw [hsize]; exact hcs
  exact ⟨fun box res hbox hres => QueryAABB_hit sh hcs' p key id hkey' hin box res hbox hres,
    fun hp c r res hr hd hres => QuerySphere_hit sh hcs' p hp key id hkey' hin c r res hr hd hres,
    fun box h => QueryAABB_defined sh box h, fun c r h => QuerySphere_defined sh c r h⟩

/-- C13, witness: cell size 50, entities 1 and 2 at (-75, 10, 0) and (120, -30, 5);
the box [-100,0] x [0,20] x [-1,1] holds the position of entity 1. -/
theorem C13_queries_are_complete_witness :
    ∃ sh, (SpatialHash.new 50).insertAll [(1, ⟨-75, 10, 0⟩), (2, ⟨120, -30, 5⟩)] = some sh ∧
      ∀ res, sh.QueryAABB ⟨⟨-100, 0, -1⟩, ⟨0, 20, 1⟩⟩ = some res → 1 ∈ res := by
  have hb : (SpatialHash.new 50).insertAll [(1, ⟨-75, 10, 0⟩), (2, ⟨120, -30, 5⟩)] =
      some { cellSize := 50,
             grid := [(4221111203, { entities := [1] }), (147712186, { entities := [2] })] } := by
    decide!
  exact ⟨_, hb, fun res hres =>
    (C13_queries_are_complete 50 (by norm_num) [(1, ⟨-75, 10, 0⟩), (2, ⟨120, -30, 5⟩)] _ hb 1
      ⟨-75, 10, 0⟩ (by decide!)).1 _ res (by decide!) hres⟩

/-! ## Facts about the map files -/

theorem dropWhile_length_le (p : Char → Bool) (l : List Char) :
    (l.dropWhile p).length ≤ l.length :=
  (List.dropWhile_sublist p).length_le

theorem tail_le (l : List Char) : l.tail.length ≤ l.length :=
  (List.tail_sublist l).length_le

theorem sentry_rest_le (f : IStream) : f.sentry.2.rest.length ≤ f.rest.length := by
  unfold IStream.sentry
  split_ifs
  · exact le_refl _
  · exact Nat.zero_le _
  · exact dropWhile_length_le _ _

theorem tail_dropWhile_le (p : Char → Bool) (l : List Char) :
    (l.tail.dropWhile p).length ≤ l.length :=
  le_trans (dropWhile_length_le _ _) (tail_le l)

theorem readString_rest_le (f : IStream) (value : String) :
    (f.readString value).2.rest.length ≤ f.rest.length := by
  unfold IStream.readString
  split_ifs
  · exact sentry_rest_le f
  · exact le_trans (dropWhile_length_le _ _) (sentry_rest_le f)

theorem pair_rest_le {α : Type} (c : Prop) [Decidable c] (a b : α × IStream) (n : Nat)
    (ha : a.2.rest.length ≤ n) (hb : b.2.rest.length ≤ n) :
    (if c then a else b).2.rest.length ≤ n := by
  split_ifs
  · exact ha
  · exact hb

theorem skipSign_le (r : List Char) : (skipSign r).length ≤ r.length := by
  unfold skipSign
  split_ifs
  · exact tail_le r
  · exact le_refl _

theorem skipMantissa_le (r : List Char) : (skipMantissa r).length ≤ r.length := by
  unfold skipMantissa
  split_ifs
  · exact le_trans (tail_dropWhile_le _ _)
      (le_trans (dropWhile_length_le _ _) (skipSign_le r))
  · exact le_trans (dropWhile_length_le _ _) (skipSign_le r)

theorem skipExponent_le (c : Bool) (r : List Char) :
    (if c = true then (skipSign r.tail).dropWhile Char.isDigit else r).length ≤ r.length := by
  split_ifs
  · exact le_trans (dropWhile_length_le _ _) (le_trans (skipSign_le _) (tail_le r))
  · exact le_refl _

theorem readFloat_rest_le (f : IStream) (value : ℚ) :
    (f.readFloat value).2.rest.length ≤ f.rest.length := by
  unfold IStream.readFloat
  refine pair_rest_le _ _ _ _ (sentry_rest_le f) ?_
  refine pair_rest_le _ _ _ _ ?_ (pair_rest_le _ _ _ _ ?_ ?_)
  all_goals
    exact le_trans (skipExponent_le _ _) (le_trans (skipMantissa_le _) (sentry_rest_le f))

theorem readVec3_rest_le (f : IStream) (v : EditorVec3) :
    (f.readVec3 v).2.rest.length ≤ f.rest.length := by
  unfold IStream.readVec3
  exact le_trans (readFloat_rest_le _ _)
    (le_trans (readFloat_rest_le _ _) (readFloat_rest_le _ _))

theorem readUInt32_rest_lt (f : IStream) (value : Nat)
    (h : (f.readUInt32 value).2.fail = false) :
    (f.readUInt32 value).2.rest.length < f.rest.length := by
  have hs : f.sentry.1 = false → f.sentry.2.fail = true := by
    unfold IStream.sentry
    split_ifs <;> simp
  have hlen := congrArg List.length
    (List.takeWhile_append_dropWhile Char.isDigit (skipSign f.sentry.2.rest))
  rw [List.length_append] at hlen
  have hle := skipSign_le f.sentry.2.rest
  have hsl := sentry_rest_le f
  unfold IStream.readUInt32 at h ⊢
  by_cases h0 : f.sentry.1 = true
  · simp only [h0, Bool.not_true, Bool.false_eq_true, if_false] at h ⊢
    by_cases h1 : List.takeWhile Char.isDigit (skipSign f.sentry.2.rest) = []
    · rw [if_pos h1] at h; simp at h
    · have hpos := List.length_pos.mpr h1
      rw [if_neg h1] at h ⊢
      split_ifs at h ⊢
      all_goals
        show (List.dropWhile Char.isDigit _).length < _
        omega
  · have h0' : f.sentry.1 = false := by simpa using h0
    simp only [h0', Bool.not_false, if_true] at h
    rw [hs h0'] at h
    simp at h

/-- The loop of `LoadMapText` ends before the bound on the iterations is
reached when that bound exceeds the number of characters left. -/
theorem loadLoop_returns (fuel : Nat) :
    ∀ (f : IStream) (ed : TitanEditor), f.rest.length < fuel →
      ∃ loaded, TitanEditor.loadLoop fuel f ed = some loaded := by
  induction fuel with
  | zero => intro f ed h; omega
  | succ n ih =>
    intro f ed h
    rw [TitanEditor.loadLoop]
    by_cases he : f.eof = true
    · exact ⟨ed, by simp [he]⟩
    · by_cases h1 : (f.readUInt32 EditorEntity.default.id).2.fail = true
      · exact ⟨ed, by simp [he, h1]⟩
      · by_cases h2 : ((f.readUInt32 EditorEntity.default.id).2.readString
            EditorEntity.default.name).2.fail = true
        · exact ⟨ed, by simp [he, h1, h2]⟩
        · simp only [he, h1, h2, Bool.false_eq_true, if_false]
          apply ih
          have hlt := readUInt32_rest_lt f EditorEntity.default.id (by simpa using h1)
          refine lt_of_le_of_lt ?_ (lt_of_lt_of_le hlt (Nat.le_of_lt_succ h))
          refine le_trans (readString_rest_le _ _) ?_
          refine le_trans (readString_rest_le _ _) ?_
          refine le_trans (readVec3_rest_le _ _) ?_
          refine le_trans (readVec3_rest_le _ _) ?_
          refine le_trans (readVec3_rest_le _ _) ?_
          exact readString_rest_le _ _

/-- The call `LoadMapText` returns on every file: the bound on the iterations of
its loop is never reached. -/
theorem LoadMapText_returns (ed : TitanEditor) (file : Option (List Char)) :
    ∃ r, ed.LoadMapText file = some r := by
  cases file with
  | none => exact ⟨(false, ed), rfl⟩
  | some text =>
    obtain ⟨loaded, h⟩ := loadLoop_returns (text.length + 1)
      { rest := text, fail := false, eof := false } { entities := [], nextEntityID := 1 }
      (Nat.lt_succ_self _)
    exact ⟨(true, loaded), by simp [TitanEditor.LoadMapText, h]⟩

/-! ## The claims about the frame clock, the object pool, the gamemode and the map files -/

/-- C21 (amended): for every frame, CalculateDeltaTime replaces elapsedTime by
the float sum of elapsedTime and the raw difference
float(currentTime - lastFrameTime), taken before the cap is applied, and sets
lastFrameTime to the raw current time; the difference added is the value left in
deltaTime when it does not exceed the cap 0.033f; for a frame of 500 ms the
value added is 0.5 while deltaTime is 0.033f, so that an elapsedTime of 0 becomes
0.5. -/
theorem C21_elapsed_time_advances_by_raw_delta (c : FrameClock) (currentTime : ℚ) :
    (CalculateDeltaTime c currentTime).elapsedTime =
      round32 (c.elapsedTime + rawDelta currentTime c.lastFrameTime) ∧
    (CalculateDeltaTime c currentTime).lastFrameTime = currentTime ∧
    (rawDelta currentTime c.lastFrameTime ≤ deltaCap →
      (CalculateDeltaTime c currentTime).elapsedTime =
        round32 (c.elapsedTime + (CalculateDeltaTime c currentTime).deltaTime)) ∧
    (currentTime - c.lastFrameTime = 1 / 2 →
      (CalculateDeltaTime c currentTime).elapsedTime = round32 (c.elapsedTime + 1 / 2) ∧
      (CalculateDeltaTime c currentTime).deltaTime = deltaCap ∧
      (c.elapsedTime = 0 → (CalculateDeltaTime c currentTime).elapsedTime = 1 / 2)) := by
  have h1 : (CalculateDeltaTime c currentTime).elapsedTime =
      round32 (c.elapsedTime + rawDelta currentTime c.lastFrameTime) := by
    unfold CalculateDeltaTime
    simp only
    split_ifs <;> rfl
  refine ⟨h1, ?_, ?_, ?_⟩
  · unfold CalculateDeltaTime
    simp only
    split_ifs <;> rfl
  · intro hle
    rw [h1]
    unfold CalculateDeltaTime
    simp only
    rw [if_neg (not_lt.mpr hle)]
  · intro heq
    have hraw : rawDelta currentTime c.lastFrameTime = 1 / 2 := by
      unfold rawDelta
      rw [heq]
      decide!
    refine ⟨by rw [h1, hraw], ?_, ?_⟩
    · unfold CalculateDeltaTime
      simp only
      rw [hraw, if_pos (by decide!)]
    · intro h0
      rw [h1, hraw, h0]
      decide!

/-- C21, witness: a frame of 10 ms and a frame of 500 ms. -/
theorem C21_elapsed_time_advances_by_raw_delta_witness :
    (CalculateDeltaTime ⟨0, 3, 10⟩ (10 + 1 / 100)).elapsedTime =
      round32 (3 + (CalculateDeltaTime ⟨0, 3, 10⟩ (10 + 1 / 100)).deltaTime) ∧
    (CalculateDeltaTime ⟨0, 0, 10⟩ (10 + 1 / 2)).elapsedTime = 1 / 2 :=
  ⟨(C21_elapsed_time_advances_by_raw_delta ⟨0, 3, 10⟩ (10 + 1 / 100)).2.2.1 (by decide!),
   ((C21_elapsed_time_advances_by_raw_delta ⟨0, 0, 10⟩ (10 + 1 / 2)).2.2.2
      (by norm_num)).2.2 rfl⟩

/-- C21, counterexample: lastFrameTime is 10, elapsedTime is 0 and the clock
reads 10.5. The call leaves the cap 0.033f in deltaTime and 0.5 in elapsedTime:
elapsedTime has not advanced by the value left in deltaTime. -/
theorem C21_counterexample_half_second_frame :
    (CalculateDeltaTime ⟨0, 0, 10⟩ (10 + 1 / 2)).deltaTime = round32 (33 / 1000) ∧
    (CalculateDeltaTime ⟨0, 0, 10⟩ (10 + 1 / 2)).elapsedTime = 1 / 2 ∧
    round32 (0 + (CalculateDeltaTime ⟨0, 0, 10⟩ (10 + 1 / 2)).deltaTime) ≠ 1 / 2 := by
  decide!

/-- C27 (code defect): two entities are created with default (empty) mesh and
material paths and saved; the loop of `SaveMapText` may visit them in either
order. In both orders `LoadMapText` in a fresh editor returns true, the entity
written first comes back with its own name but with the id of the entity written
second as its mesh path and that entity's name as its material path, the entity
written second is not loaded, and an entity with id 0, which was never saved, is
loaded with the name `0`. -/
theorem C27_default_paths_break_round_trip (walk : List (Nat × EditorEntity))
    (hwalk : walk.Perm
      ((TitanEditor.new.CreateEntity "Entity1").2.CreateEntity "Entity2").2.entities) :
    ∃ first second loaded,
      walk = [first, second] ∧
      ((TitanEditor.new.CreateEntity "Entity1").2.CreateEntity "Entity2").2.GetEntity first.1 =
        some first.2 ∧
      ((TitanEditor.new.CreateEntity "Entity1").2.CreateEntity "Entity2").2.GetEntity second.1 =
        some second.2 ∧
      ((TitanEditor.new.CreateEntity "Entity1").2.CreateEntity "Entity2").2.GetEntity 0 = none ∧
      first.2.meshPath = "" ∧ first.2.materialPath = "" ∧
      TitanEditor.new.LoadMapText (some (TitanEditor.SaveMapText walk)) = some (true, loaded) ∧
      loaded.GetEntity first.1 =
        some { first.2 with meshPath := String.mk (Nat.toDigits 10 second.1),
                            materialPath := second.2.name } ∧
      loaded.GetEntity second.1 = none ∧
      (loaded.GetEntity 0).map (fun e => e.name) = some "0" ∧
      loaded.entities.length = 2 := by
  have hlen := hwalk.length_eq
  have hcases : walk = [(1, { EditorEntity.default with id := 1, name := "Entity1" }),
        (2, { EditorEntity.default with id := 2, name := "Entity2" })] ∨
      walk = [(2, { EditorEntity.default with id := 2, name := "Entity2" }),
        (1, { EditorEntity.default with id := 1, name := "Entity1" })] := by
    match walk, hlen with
    | [a, b], _ =>
      have ha := hwalk.subset (List.mem_cons_self _ _)
      have hb := hwalk.subset (List.mem_cons_of_mem _ (List.mem_cons_self _ _))
      have hnd : [a, b].Nodup := hwalk.nodup_iff.mpr (by decide!)
      have hab : a ≠ b := by
        intro h; rw [h] at hnd; simp at hnd
      have hE : ((TitanEditor.new.CreateEntity "Entity1").2.CreateEntity "Entity2").2.entities =
          [(1, { EditorEntity.default with id := 1, name := "Entity1" }),
           (2, { EditorEntity.default with id := 2, name := "Entity2" })] := by decide!
      rw [hE] at ha hb
      simp only [List.mem_cons, List.mem_singleton, List.not_mem_nil, or_false] at ha hb
      rcases ha with ha | ha <;> rcases hb with hb | hb
      · exact absurd (ha.trans hb.symm) hab
      · left; rw [ha, hb]
      · right; rw [ha, hb]
      · exact absurd (ha.trans hb.symm) hab
  rcases hcases with h | h
  · subst h
    exact ⟨_, _,
      { entities :=
          [(1, { EditorEntity.default with
                 id := 1, name := "Entity1", meshPath := "2", materialPath := "Entity2" }),
           (0, { EditorEntity.default with
                 id := 0, name := "0", rotation := { x := 0, y := 1, z := 1 } })],
        nextEntityID := 2 },
      rfl, by decide!, by decide!, by decide!, by decide!, by decide!,
      by decide!, by decide!, by decide!, by decide!, by decide!⟩
  · subst h
    exact ⟨_, _,
      { entities :=
          [(2, { EditorEntity.default with
                 id := 2, name := "Entity2", meshPath := "1", materialPath := "Entity1" }),
           (0, { EditorEntity.default with
                 id := 0, name := "0", rotation := { x := 0, y := 1, z := 1 } })],
        nextEntityID := 3 },
      rfl, by decide!, by decide!, by decide!, by decide!, by decide!,
      by decide!, by decide!, by decide!, by decide!, by decide!⟩

theorem C27_default_paths_break_round_trip_witness :
    List.Perm
      [(2, { EditorEntity.default with id := 2, name := "Entity2" }),
       (1, { EditorEntity.default with id := 1, name := "Entity1" })]
      ((TitanEditor.new.CreateEntity "Entity1").2.CreateEntity "Entity2").2.entities ∧
    ∃ first second loaded,
      [(2, { EditorEntity.default with id := 2, name := "Entity2" }),
       (1, { EditorEntity.default with id := 1, name := "Entity1" })] = [first, second] ∧
      ((TitanEditor.new.CreateEntity "Entity1").2.CreateEntity "Entity2").2.GetEntity first.1 =
        some first.2 ∧
      ((TitanEditor.new.CreateEntity "Entity1").2.CreateEntity "Entity2").2.GetEntity second.1 =
        some second.2 ∧
      ((TitanEditor.new.CreateEntity "Entity1").2.CreateEntity "Entity2").2.GetEntity 0 = none ∧
      first.2.meshPath = "" ∧ first.2.materialPath = "" ∧
      TitanEditor.new.LoadMapText
        (some (TitanEditor.SaveMapText
          [(2, { EditorEntity.default with id := 2, name := "Entity2" }),
           (1, { EditorEntity.default with id := 1, name := "Entity1" })])) =
        some (true, loaded) ∧
      loaded.GetEntity first.1 =
        some { first.2 with meshPath := String.mk (Nat.toDigits 10 second.1),
                            materialPath := second.2.name } ∧
      loaded.GetEntity second.1 = none ∧
      (loaded.GetEntity 0).map (fun e => e.name) = some "0" ∧
      loaded.entities.length = 2 :=
  ⟨List.Perm.swap _ _ _,
   C27_default_paths_break_round_trip _ (List.Perm.swap _ _ _)⟩

/-- C28 (code defect): in a pool of two slots both are acquired, slot 0 is
released and acquired again, and the next Acquire returns slot 1, which was
acquired second and never released; the object held there is overwritten. -/
theorem C28_acquire_returns_held_slot :
    ((ObjectPool.new 2).Acquire 10).1 = some 0 ∧
    (((ObjectPool.new 2).Acquire 10).2.Acquire 11).1 = some 1 ∧
    (((((ObjectPool.new 2).Acquire 10).2.Acquire 11).2.Release 0).Acquire 12).1 = some 0 ∧
    ((((((ObjectPool.new 2).Acquire 10).2.Acquire 11).2.Release 0).Acquire 12).2.Acquire
      13).1 = some 1 ∧
    ((((((ObjectPool.new 2).Acquire 10).2.Acquire 11).2.Release 0).Acquire 12).2.Acquire
      13).2.pool = [12, 13] := by
  decide

/-- C29 (code defect): a round starts, the bomb is planted after 95 s, and the
next Update, of 40 s, reaches the detonation time (40 s) and the round time
(135 s) together. That one Update gives a point to the terrorists and a point
to the counter-terrorists: the total score rises from 0 to 2. -/
theorem C29_both_teams_score_in_one_update :
    totalScore ((BombDefusalGamemode.new.StartRound.Update 95).PlantBomb 1).teams = 0 ∧
    ((BombDefusalGamemode.new.StartRound.Update 95).PlantBomb 1).roundActive = true ∧
    ((((BombDefusalGamemode.new.StartRound.Update 95).PlantBomb 1).Update 40).teams.map
      (fun t => t.score)) = [1, 1] ∧
    totalScore (((BombDefusalGamemode.new.StartRound.Update 95).PlantBomb 1).Update 40).teams =
      2 := by
  decide!

/-- C30: in every state reached from a fresh CullingSystem by a sequence of
Initialize, Update, Shutdown, UpdateViewFrustum, RegisterEntity and
UnregisterEntity calls the visible set is empty: IsEntityVisible(id) is false for every id, and every
visible id is a tracked id. -/
theorem C30_visible_set_stays_empty (calls : List CullingCall) (id : EntityID) :
    (CullingSystem.fresh.after calls).GetVisibleEntities = [] ∧
    (CullingSystem.fresh.after calls).IsEntityVisible id = false ∧
    ∀ j, j ∈ (CullingSystem.fresh.after calls).GetVisibleEntities →
      j ∈ (CullingSystem.fresh.after calls).allEntities := by
  have h := visible_after calls CullingSystem.fresh rfl
  refine ⟨h, ?_, ?_⟩
  · simp [CullingSystem.IsEntityVisible, h]
  · intro j hj
    rw [CullingSystem.GetVisibleEntities, h] at hj
    exact absurd hj (List.not_mem_nil _)

/-- C30, witness: entity 1 is registered, a frustum is set and a frame updated. -/
theorem C30_visible_set_stays_empty_witness :
    (CullingSystem.fresh.after
      [CullingCall.Initialize, CullingCall.RegisterEntity 1,
       CullingCall.UpdateViewFrustum (fun _ _ => 1), CullingCall.Update (1 / 60)]).IsEntityVisible
        1 = false :=
  (C30_visible_set_stays_empty
    [CullingCall.Initialize, CullingCall.RegisterEntity 1,
     CullingCall.UpdateViewFrustum (fun _ _ => 1), CullingCall.Update (1 / 60)] 1).2.1

/-! ## Facts about the engine -/

theorem updateCalls_append (a b : List EngineCall) :
    updateCalls (a ++ b) = updateCalls a ++ updateCalls b := by
  induction a with
  | nil => rfl
  | cons c rest ih => cases c <;> simp [updateCalls, ih]

theorem updateCalls_map_update (systems : List Subsystem) (dt : ℚ) :
    updateCalls (systems.map (fun s => EngineCall.Update s dt)) =
      systems.map (fun s => (s, dt)) := by
  induction systems with
  | nil => rfl
  | cons s rest ih => simp [updateCalls, ih]

theorem updateCalls_UpdateSystems (e : Engine) (dt : ℚ) :
    updateCalls (e.UpdateSystems dt).calls =
      updateCalls e.calls ++ e.systems.map (fun s => (s, dt)) := by
  simp [Engine.UpdateSystems, updateCalls_append, updateCalls_map_update]

/-- One iteration of the loop of a headless engine: the clock advances and every
subsystem of the update list gets one `Update` with the new `deltaTime`. -/
theorem frame_headless (e : Engine) (f : FrameInput) (hh : e.config.headless = true) :
    (e.frame f).config = e.config ∧ (e.frame f).systems = e.systems ∧
    (e.frame f).clock = CalculateDeltaTime e.clock f.currentTime ∧
    (e.frame f).entityManager = e.entityManager ∧ (e.frame f).eventBus = e.eventBus ∧
    (e.frame f).running = (e.running && !f.stopRequested) ∧
    updateCalls (e.frame f).calls = updateCalls e.calls ++
      e.systems.map (fun s => (s, (CalculateDeltaTime e.clock f.currentTime).deltaTime)) := by
  unfold Engine.frame
  cases hs : f.stopRequested <;>
    simp [hh, hs, Engine.Stop, Engine.UpdateSystems, updateCalls_append,
      updateCalls_map_update]

/-- The loop of a headless engine that is running, when `Stop()` comes in the
last of the given frames: it ends after that frame, and the `Update` invocations
are those of the update list, once per frame. -/
theorem runLoop_headless (frames : List FrameInput) : ∀ e : Engine,
    e.config.headless = true → e.running = true → StopsInLastFrame frames = true →
    ∃ e', e.runLoop frames = some e' ∧ e'.entityManager = e.entityManager ∧
      e'.eventBus = e.eventBus ∧
      updateCalls e'.calls = updateCalls e.calls ++
        (frameDeltas e.clock frames).flatMap (fun d => e.systems.map (fun s => (s, d))) := by
  induction frames with
  | nil => intro e _ _ h; simp [StopsInLastFrame] at h
  | cons f rest ih =>
    intro e hh hr hstop
    obtain ⟨hc, hsys, hclk, hem, hbus, hrun, hupd⟩ := frame_headless e f hh
    cases rest with
    | nil =>
      have hs : f.stopRequested = true := by simpa [StopsInLastFrame] using hstop
      have hrun' : (e.frame f).running = false := by rw [hrun, hs]; simp
      refine ⟨e.frame f, ?_, hem, hbus, ?_⟩
      · simp [Engine.runLoop, hh, hr, hrun']
      · rw [hupd]; simp [frameDeltas]
    | cons g rest' =>
      have hs : f.stopRequested = false ∧ StopsInLastFrame (g :: rest') = true := by
        simpa [StopsInLastFrame] using hstop
      have hrun' : (e.frame f).running = true := by rw [hrun, hr, hs.1]; rfl
      obtain ⟨e', h1, h2, h3, h4⟩ := ih (e.frame f) (by rw [hc]; exact hh) hrun' hs.2
      refine ⟨e', ?_, h2.trans hem, h3.trans hbus, ?_⟩
      · rw [Engine.runLoop]
        simp only [hh, hr, Bool.true_or, Bool.and_self, if_true]
        exact h1
      · rw [h4, hupd, hsys, hclk]
        simp [frameDeltas, List.append_assoc]

theorem updateCalls_Shutdown (e e' : Engine) (h : e.Shutdown = some e') :
    updateCalls e'.calls = updateCalls e.calls := by
  unfold Engine.Shutdown at h
  cases hem : e.entityManager with
  | none => simp [hem] at h
  | some em =>
    cases hbus : e.eventBus with
    | none => simp [hem, hbus] at h
    | some bus =>
      simp only [hem, hbus, Option.some.injEq] at h
      subst h
      cases e.subsystems <;> simp [updateCalls_append, updateCalls]

theorem frameDeltas_length (frames : List FrameInput) : ∀ c : FrameClock,
    (frameDeltas c frames).length = frames.length := by
  induction frames with
  | nil => intro c; rfl
  | cons f rest ih => intro c; simp [frameDeltas, ih]

theorem count_in_frames (systems : List Subsystem) (hn : systems.Nodup) (s : Subsystem)
    (hs : s ∈ systems) (deltas : List ℚ) :
    ((deltas.flatMap (fun d => systems.map (fun t => (t, d)))).filter
      (fun c => decide (c.1 = s))).length = deltas.length := by
  have hone : ∀ d : ℚ, ((systems.map (fun t => (t, d))).filter
      (fun c => decide (c.1 = s))).length = 1 := by
    intro d
    rw [List.filter_map, List.length_map]
    have : (List.filter ((fun c : Subsystem × ℚ => decide (c.1 = s)) ∘ fun t => (t, d)) systems) =
        systems.filter (fun t => decide (t = s)) := rfl
    rw [this]
    clear this
    induction systems with
    | nil => simp at hs
    | cons t rest ih =>
      rw [List.nodup_cons] at hn
      by_cases hts : t = s
      · subst hts
        have : rest.filter (fun u => decide (u = t)) = [] := by
          rw [List.filter_eq_nil_iff]
          intro u hu
          simp only [decide_eq_true_eq]
          intro h
          exact hn.1 (h ▸ hu)
        simp [List.filter_cons, this]
      · have hs' : s ∈ rest := by
          rcases List.mem_cons.mp hs with h | h
          · exact absurd h.symm hts
          · exact h
        simp [List.filter_cons, hts, ih hn.2 hs']
  induction deltas with
  | nil => rfl
  | cons d rest ih =>
    simp only [List.flatMap_cons, List.filter_append, List.length_append, hone, ih,
      List.length_cons]
    omega

/-- What `Initialize` leaves in a default-constructed engine run headless. -/
theorem Initialize_headless (engineConfig : EngineConfig) (env : Startup)
    (hh : engineConfig.headless = true) :
    (Engine.new.Initialize engineConfig env).1 = true ∧
    (Engine.new.Initialize engineConfig env).2.config = engineConfig ∧
    (Engine.new.Initialize engineConfig env).2.running = true ∧
    (Engine.new.Initialize engineConfig env).2.entityManager = some EntityManager.fresh ∧
    (Engine.new.Initialize engineConfig env).2.eventBus = some EventBus.fresh ∧
    (Engine.new.Initialize engineConfig env).2.systems =
      (if env.scripting = .throws then [] else [Subsystem.scriptingSystem]) ++
        [.inputSystem, .physicsSystem, .audioSystem, .networkManager, .gamemode,
         .cullingSystem] ∧
    updateCalls (Engine.new.Initialize engineConfig env).2.calls = [] := by
  simp [Engine.Initialize, Engine.InitializeSystems, Engine.new, hh, updateCalls]

/-! ## The claims about the engine life cycle -/

/-- C22: `UpdateSystems(dt)` appends one `Update(dt)` per entry of the update
list, in the order of the list. For an engine initialized headless from the
default-constructed state the entries of the list are distinct, and when
`Stop()` is called during the last of the frames `Run` returns, the `Update`
invocations of the run are those of the update list repeated frame after frame
in the same order, each frame with its own delta, and every subsystem of the
list has been updated once per frame. -/
theorem C22_update_once_per_subsystem_per_frame (e : Engine) (dt : ℚ)
    (engineConfig : EngineConfig) (env : Startup) (frames : List FrameInput)
    (hh : engineConfig.headless = true) (hstop : StopsInLastFrame frames = true) :
    (e.UpdateSystems dt).calls =
      e.calls ++ e.systems.map (fun s => EngineCall.Update s dt) ∧
    (Engine.new.Initialize engineConfig env).2.systems.Nodup ∧
    ∃ e', (Engine.new.Initialize engineConfig env).2.Run frames = some e' ∧
      updateCalls e'.calls =
        (frameDeltas (Engine.new.Initialize engineConfig env).2.clock frames).flatMap
          (fun d => (Engine.new.Initialize engineConfig env).2.systems.map
            (fun s => (s, d))) ∧
      ∀ s, s ∈ (Engine.new.Initialize engineConfig env).2.systems →
        updateCount e'.calls s = frames.length := by
  obtain ⟨_, hc, hr, hem, hbus, hsys, hupd⟩ := Initialize_headless engineConfig env hh
  have hnodup : (Engine.new.Initialize engineConfig env).2.systems.Nodup := by
    rw [hsys]
    cases env.scripting <;> decide
  refine ⟨rfl, hnodup, ?_⟩
  obtain ⟨e1, h1, h2, h3, h4⟩ :=
    runLoop_headless frames (Engine.new.Initialize engineConfig env).2
      (by rw [hc]; exact hh) hr hstop
  rw [hem] at h2
  rw [hbus] at h3
  have hsd : ∃ e', e1.Shutdown = some e' := by
    unfold Engine.Shutdown
    rw [h2, h3]
    exact ⟨_, rfl⟩
  obtain ⟨e', he'⟩ := hsd
  have hcalls := updateCalls_Shutdown e1 e' he'
  rw [h4, hupd, List.nil_append] at hcalls
  refine ⟨e', ?_, hcalls, ?_⟩
  · simp only [Engine.Run, h1]
    exact he'
  · intro s hs
    unfold updateCount
    rw [hcalls, count_in_frames _ hnodup s hs, frameDeltas_length]

/-- C22, witness: a headless engine run for three frames. -/
theorem C22_update_once_per_subsystem_per_frame_witness :
    ∃ e', (Engine.new.Initialize { Engine.new.config with headless := true }
        { windowCreates := false, scripting := .succeeds, clock := 0 }).2.Run
        [⟨1 / 60, false, false⟩, ⟨2 / 60, false, false⟩, ⟨3 / 60, false, true⟩] = some e' ∧
      updateCount e'.calls Subsystem.physicsSystem = 3 := by
  obtain ⟨e', h1, _, h3⟩ :=
    (C22_update_once_per_subsystem_per_frame Engine.new 0
      { Engine.new.config with headless := true }
      { windowCreates := false, scripting := .succeeds, clock := 0 }
      [⟨1 / 60, false, false⟩, ⟨2 / 60, false, false⟩, ⟨3 / 60, false, true⟩]
      rfl rfl).2.2
  exact ⟨e', h1, h3 Subsystem.physicsSystem (by decide)⟩

/-- C23, as amended: after an `Initialize` that returned true, `Shutdown` calls
`Shutdown` on audio, scripting, physics, input, renderer, culling, gamemode,
network manager and performance monitor, in this order whatever the
configuration, while `Initialize` was called on the renderer (windowed only),
input, scripting, physics, audio, network manager, gamemode, culling and
performance monitor; the first sequence is not the reverse of the second; in
windowed mode the two hold the same subsystems, in headless mode the renderer is
shut down without having been initialized. -/
theorem C23_shutdown_order_is_fixed (engineConfig : EngineConfig) (env : Startup)
    (hinit : (Engine.new.Initialize engineConfig env).1 = true) :
    ∃ e', (Engine.new.Initialize engineConfig env).2.Shutdown = some e' ∧
      shutdownOrder e'.calls =
        [.audioSystem, .scriptingSystem, .physicsSystem, .inputSystem, .renderer,
         .cullingSystem, .gamemode, .networkManager, .performanceMonitor] ∧
      initializeOrder e'.calls =
        (if engineConfig.headless then [] else [Subsystem.renderer]) ++
          [.inputSystem, .scriptingSystem, .physicsSystem, .audioSystem, .networkManager,
           .gamemode, .cullingSystem, .performanceMonitor] ∧
      shutdownOrder e'.calls ≠ (initializeOrder e'.calls).reverse ∧
      (engineConfig.headless = false →
        (shutdownOrder e'.calls).Perm (initializeOrder e'.calls)) ∧
      (engineConfig.headless = true →
        Subsystem.renderer ∈ shutdownOrder e'.calls ∧
        Subsystem.renderer ∉ initializeOrder e'.calls) := by
  obtain ⟨appName, w, h, fps, vsync, headless⟩ := engineConfig
  obtain ⟨windowCreates, scripting, clock⟩ := env
  cases headless <;> cases windowCreates
  all_goals
    simp [Engine.Shutdown, Engine.Initialize, Engine.InitializeSystems, Engine.new,
      shutdownOrder, initializeOrder] at hinit ⊢
  all_goals decide

/-- C23, witness: the default, windowed configuration with a window that opens. -/
theorem C23_shutdown_order_is_fixed_witness :
    ∃ e', (Engine.new.Initialize Engine.new.config
        { windowCreates := true, scripting := .succeeds, clock := 0 }).2.Shutdown = some e' ∧
      shutdownOrder e'.calls =
        [.audioSystem, .scriptingSystem, .physicsSystem, .inputSystem, .renderer,
         .cullingSystem, .gamemode, .networkManager, .performanceMonitor] := by
  obtain ⟨e', h1, h2, _⟩ :=
    C23_shutdown_order_is_fixed Engine.new.config
      { windowCreates := true, scripting := .succeeds, clock := 0 } rfl
  exact ⟨e', h1, h2⟩

/-- C23, counterexample: a headless engine is initialized and shut down. The
`Shutdown` calls start with audio and include the renderer; the reverse of the
`Initialize` calls starts with the performance monitor and has no renderer. -/
theorem C23_counterexample_headless_shutdown_order :
    ((Engine.new.Initialize { Engine.new.config with headless := true }
        { windowCreates := false, scripting := .succeeds, clock := 0 }).2.Shutdown.map
      (fun e' => (shutdownOrder e'.calls, (initializeOrder e'.calls).reverse))) =
      some
        ([.audioSystem, .scriptingSystem, .physicsSystem, .inputSystem, .renderer,
          .cullingSystem, .gamemode, .networkManager, .performanceMonitor],
         [.performanceMonitor, .cullingSystem, .gamemode, .networkManager, .audioSystem,
          .physicsSystem, .scriptingSystem, .inputSystem]) := by
  decide!

/-- C24: when `LuaScriptingSystem::Initialize` cannot create the Lua state it
returns normally, so a headless `Engine::Initialize` returns true with the
scripting subsystem in the update list, the same list as when scripting
succeeds, and `UpdateSystems` calls its `Update`; only when the scripting
`Initialize` throws is the subsystem left out, the rest of the list being the
same. -/
theorem C24_scripting_without_lua_state_is_updated (engineConfig : EngineConfig)
    (windowCreates : Bool) (clock dt : ℚ) :
    (Engine.new.Initialize { engineConfig with headless := true }
      { windowCreates := windowCreates, scripting := .noLuaState, clock := clock }).1 = true ∧
    (Engine.new.Initialize { engineConfig with headless := true }
      { windowCreates := windowCreates, scripting := .noLuaState, clock := clock }).2.systems =
      [.scriptingSystem, .inputSystem, .physicsSystem, .audioSystem, .networkManager,
       .gamemode, .cullingSystem] ∧
    (Engine.new.Initialize { engineConfig with headless := true }
      { windowCreates := windowCreates, scripting := .succeeds, clock := clock }).2.systems =
      [.scriptingSystem, .inputSystem, .physicsSystem, .audioSystem, .networkManager,
       .gamemode, .cullingSystem] ∧
    EngineCall.Update .scriptingSystem dt ∈
      ((Engine.new.Initialize { engineConfig with headless := true }
        { windowCreates := windowCreates, scripting := .noLuaState,
          clock := clock }).2.UpdateSystems dt).calls ∧
    (Engine.new.Initialize { engineConfig with headless := true }
      { windowCreates := windowCreates, scripting := .throws, clock := clock }).1 = true ∧
    (Engine.new.Initialize { engineConfig with headless := true }
      { windowCreates := windowCreates, scripting := .throws, clock := clock }).2.systems =
      [.inputSystem, .physicsSystem, .audioSystem, .networkManager, .gamemode,
       .cullingSystem] := by
  simp [Engine.Initialize, Engine.InitializeSystems, Engine.new, Engine.UpdateSystems]

/-- C25: in windowed mode, when the window cannot be created, `Initialize`
returns false after the one attempt, with no subsystem initialized and nothing
added to the update list; an engine that was not running is still not running,
the loop of `Run` ends before its first iteration whatever the frames, and `Run`
returns without one more `Update`, window update or rendered frame. In headless
mode `Initialize` calls `Initialize` on the eight subsystems and nothing on the
window. -/
theorem C25_window_failure_never_runs (e : Engine) (engineConfig : EngineConfig)
    (env : Startup) (frames : List FrameInput)
    (hrun : e.running = false) (hw : engineConfig.headless = false)
    (hfail : env.windowCreates = false) :
    (e.Initialize engineConfig env).1 = false ∧
    (e.Initialize engineConfig env).2.running = false ∧
    (e.Initialize engineConfig env).2.calls = e.calls ++ [EngineCall.windowCreate] ∧
    (e.Initialize engineConfig env).2.systems = e.systems ∧
    (e.Initialize engineConfig env).2.runLoop frames = some (e.Initialize engineConfig env).2 ∧
    (∃ e', (e.Initialize engineConfig env).2.Run frames = some e' ∧
      updateCalls e'.calls = updateCalls e.calls ∧
      EngineCall.windowUpdate ∉ e'.calls.drop e.calls.length ∧
      EngineCall.renderFrame ∉ e'.calls.drop e.calls.length) ∧
    (∀ (headlessConfig : EngineConfig) (env' : Startup), headlessConfig.headless = true →
      (e.Initialize headlessConfig env').1 = true ∧
      (e.Initialize headlessConfig env').2.calls = e.calls ++
        [.Initialize .inputSystem, .Initialize .scriptingSystem, .Initialize .physicsSystem,
         .Initialize .audioSystem, .Initialize .networkManager, .Initialize .gamemode,
         .Initialize .cullingSystem, .Initialize .performanceMonitor]) := by
  have hloop : (e.Initialize engineConfig env).2.runLoop frames =
      some (e.Initialize engineConfig env).2 := by
    cases frames <;> simp [Engine.runLoop, Engine.Initialize, hw, hfail, hrun]
  refine ⟨?_, ?_, ?_, ?_, hloop, ?_, ?_⟩
  · simp [Engine.Initialize, hw, hfail]
  · simp [Engine.Initialize, hw, hfail, hrun]
  · simp [Engine.Initialize, hw, hfail]
  · simp [Engine.Initialize, hw, hfail]
  · simp only [Engine.Run, hloop]
    simp [Engine.Initialize, hw, hfail, Engine.Shutdown, updateCalls_append, updateCalls]
  · intro headlessConfig env' hh
    simp [Engine.Initialize, Engine.InitializeSystems, hh]

/-- C25, witness: the default configuration on a machine without a display. -/
theorem C25_window_failure_never_runs_witness :
    (Engine.new.Initialize Engine.new.config
      { windowCreates := false, scripting := .succeeds, clock := 0 }).1 = false ∧
    (Engine.new.Initialize Engine.new.config
      { windowCreates := false, scripting := .succeeds, clock := 0 }).2.running = false :=
  ⟨(C25_window_failure_never_runs Engine.new Engine.new.config
      { windowCreates := false, scripting := .succeeds, clock := 0 }
      [⟨1 / 60, true, false⟩] rfl rfl rfl).1,
   (C25_window_failure_never_runs Engine.new Engine.new.config
      { windowCreates := false, scripting := .succeeds, clock := 0 }
      [⟨1 / 60, true, false⟩] rfl rfl rfl).2.1⟩

/-- C26: after a headless `Initialize` and `ShutdownEngine`, `IsInitialized`
is still true, the update list is what it was, and `UpdateEngine` calls
`Update` on every subsystem of it, the scripting subsystem with its closed Lua
state first. -/
theorem C26_update_after_shutdown (engineConfig : EngineConfig) (env : Startup)
    (deltaTime : ℚ) :
    ∃ e', ShutdownEngine
        (Engine.new.Initialize { engineConfig with headless := true } env).2 = some e' ∧
      e'.IsInitialized = true ∧
      e'.systems =
        (Engine.new.Initialize { engineConfig with headless := true } env).2.systems ∧
      Subsystem.inputSystem ∈ e'.systems ∧
      (UpdateEngine e' deltaTime).calls =
        e'.calls ++ e'.systems.map (fun s => EngineCall.Update s deltaTime) ∧
      updateCalls (UpdateEngine e' deltaTime).calls =
        e'.systems.map (fun s => (s, deltaTime)) := by
  obtain ⟨_, _, _, hem, hbus, hsys, hupd⟩ :=
    Initialize_headless { engineConfig with headless := true } env rfl
  have hsd : ShutdownEngine
      (Engine.new.Initialize { engineConfig with headless := true } env).2 =
      some { (Engine.new.Initialize { engineConfig with headless := true } env).2 with
        calls := (Engine.new.Initialize { engineConfig with headless := true } env).2.calls ++
          (if (Engine.new.Initialize { engineConfig with headless := true } env).2.subsystems
           then
            [EngineCall.Shutdown .audioSystem, .Shutdown .scriptingSystem,
             .Shutdown .physicsSystem, .Shutdown .inputSystem, .Shutdown .renderer,
             .Shutdown .cullingSystem, .Shutdown .gamemode, .Shutdown .networkManager,
             .Shutdown .performanceMonitor, .windowDestroy]
           else []),
        entityManager := some EntityManager.fresh.Clear,
        eventBus := some EventBus.fresh.Clear,
        running := false } := by
    unfold ShutdownEngine Engine.Shutdown
    rw [hem, hbus]
  refine ⟨_, hsd, rfl, rfl, ?_, ?_, ?_⟩
  · show Subsystem.inputSystem ∈
      (Engine.new.Initialize { engineConfig with headless := true } env).2.systems
    rw [hsys]
    cases env.scripting <;> decide
  · simp [UpdateEngine, Engine.IsInitialized, Engine.UpdateSystems]
  · simp only [UpdateEngine, Engine.IsInitialized, Option.isSome_some, Bool.not_true,
      Bool.false_eq_true, if_false, updateCalls_UpdateSystems, updateCalls_append, hupd]
    cases (Engine.new.Initialize { engineConfig with headless := true } env).2.subsystems <;>
      simp [updateCalls]

end Titan
